import Mathlib

/-!
# Agent-Go: aggregation engine, TTL cache and history log

A shallow embedding of the Go packages `internal/cache`, `internal/history`,
`internal/model`, `internal/provider`, `internal/summary`,
`internal/summary/simple` and `internal/aggregator`, followed by theorems about
them.

Modelling conventions.

* A Go `string` is a Lean `String`; comparisons and edits go through the list of
  code points (`String.data`), which orders valid UTF-8 text exactly as the Go
  byte-wise comparison does.
* `time.Time` is an instant counted in nanoseconds, `time.Duration` a number of
  nanoseconds. Every call of `time.Now()` in the source becomes an explicit
  argument carrying the instant that the call read.
* A Go `error` is kept as `Option String`: `none` is the nil error, `some s` an
  error whose `Error()` text is `s`.
* Standard-library routines whose tables or algorithms are not part of the
  repository (`unicode.ToLower`, `sort.Slice`) are parameters, gathered in
  `Stdlib`; the properties the documentation of `sort.Slice` promises are the
  predicate `SortContract`. `unicode.ToUpper`, which the repository does not
  call, is needed only to say that two letters differ in case, and is an
  argument of the theorems that say so.
* The goroutines of `Aggregator.Search` send their envelopes over a channel in
  completion order; that order is the `arrival` field of `Round`, constrained
  by `IsArrival` to be a rearrangement of the envelopes.
* Calls made to sources and to the summarizer are recorded as `Event`s. A source
  and a summarizer are total functions of the context, the query and their
  other arguments: collaborators are taken to return, as their contract
  requires, and a nil summarizer is not considered.
-/

namespace time

/-- An instant, in nanoseconds from the zero value of `time.Time`. -/
structure Time where
  ns : Int
  deriving DecidableEq, Repr

/-- A span of time in nanoseconds (`time.Duration`). -/
abbrev Duration := Int

/-- The zero value of `time.Time`. -/
def Time.zero : Time := ⟨0⟩

instance : Inhabited Time := ⟨Time.zero⟩

/-- Go `t.After(u)`: `t` is strictly later than `u`. -/
def Time.After (t u : Time) : Bool := decide (u.ns < t.ns)

/-- Go `t.Add(d)`. -/
def Time.Add (t : Time) (d : Duration) : Time := ⟨t.ns + d⟩

/-- Go `time.Since(start)`, evaluated when the clock reads `now`. -/
def Since (now start : Time) : Duration := now.ns - start.ns

def Millisecond : Duration := 1000000
def Second : Duration := 1000 * Millisecond
def Minute : Duration := 60 * Second
def Hour : Duration := 60 * Minute

end time

namespace unicode

/-- Go `unicode.IsSpace`: the code points with the Unicode White_Space property. -/
def IsSpace (r : Char) : Bool :=
  let n := r.toNat
  (9 ≤ n && n ≤ 13) || n == 32 || n == 0x85 || n == 0xA0 || n == 0x1680 ||
  (0x2000 ≤ n && n ≤ 0x200A) || n == 0x2028 || n == 0x2029 || n == 0x202F ||
  n == 0x205F || n == 0x3000

/-- Lower-casing of the ASCII letters; every other code point is kept. It agrees
with `unicode.ToLower` on ASCII text and serves as the concrete table in examples. -/
def asciiToLower (r : Char) : Char :=
  if 65 ≤ r.toNat ∧ r.toNat ≤ 90 then Char.ofNat (r.toNat + 32) else r

end unicode

namespace strings

/-- Removal of leading and trailing white space from a list of code points. -/
def trimSpaceList (l : List Char) : List Char :=
  ((l.dropWhile unicode.IsSpace).reverse.dropWhile unicode.IsSpace).reverse

/-- Go `strings.TrimSpace`. -/
def TrimSpace (s : String) : String := String.mk (trimSpaceList s.data)

/-- Go `strings.ToLower`, rune by rune, over the case table `toLower`. -/
def ToLower (toLower : Char → Char) (s : String) : String := String.mk (s.data.map toLower)

/-- Go `strings.Join`. -/
def Join (elems : List String) (sep : String) : String := String.intercalate sep elems

end strings

namespace sort

/-- Lexicographic comparison of code-point lists: `a <= b`. -/
def leChars : List Char → List Char → Bool
  | [], _ => true
  | _ :: _, [] => false
  | a :: as, b :: bs =>
    if a.toNat < b.toNat then true
    else if b.toNat < a.toNat then false
    else leChars as bs

/-- Go `a < b` on strings. -/
def stringLess (a b : String) : Bool := !leChars b.data a.data

/-- One inner loop of the insertion sort of package `sort`: the new element `x`
moves left past every element it is `less` than. The sorted prefix is passed
reversed, its last element first. -/
def insertLessFunc {α : Type} (less : α → α → Bool) (x : α) : List α → List α
  | [] => [x]
  | y :: ys => if less x y then y :: insertLessFunc less x ys else x :: y :: ys

/-- Insertion sort as in `insertionSortLessFunc` of package `sort`. `sort.Slice`
runs exactly this routine on slices of at most twelve elements. -/
def insertionSortLessFunc {α : Type} (less : α → α → Bool) (data : List α) : List α :=
  (data.foldl (fun acc x => insertLessFunc less x acc) []).reverse

/-- Go `sort.Strings`. The order on strings is total and antisymmetric, so the
sorted rearrangement is unique and every correct sorting routine returns it. -/
def Strings (x : List String) : List String := insertionSortLessFunc stringLess x

/-- A `less` function that is a strict weak ordering, as `sort.Slice` requires. -/
def StrictWeak {α : Type} (less : α → α → Bool) : Prop :=
  (∀ a, less a a = false) ∧
  (∀ a b c, less a b = true → less b c = true → less a c = true) ∧
  (∀ a b c, less a b = false → less b c = false → less a c = false)

/-- What the documentation of `sort.Slice` promises: the result is a
rearrangement of the input and, for a strict weak ordering, no element is
`less` than one that precedes it. Stability is not promised. -/
def SortContract (sortSlice : {α : Type} → (α → α → Bool) → List α → List α) : Prop :=
  (∀ {α : Type} (less : α → α → Bool) (l : List α), (sortSlice less l).Perm l) ∧
  (∀ {α : Type} (less : α → α → Bool) (l : List α), StrictWeak less →
    (sortSlice less l).Pairwise (fun a b => less b a = false))

end sort

/-- Standard-library routines used by the repository and taken as parameters. -/
structure Stdlib where
  /-- The routine `unicode.ToLower`. -/
  unicodeToLower : Char → Char
  /-- The routine `sort.Slice`, applied to the slice contents and the `less` function. -/
  sortSlice : {α : Type} → (α → α → Bool) → List α → List α

/-- A concrete standard library: ASCII case table and the insertion sort that
`sort.Slice` performs on short slices. -/
def goStdlib : Stdlib :=
  { unicodeToLower := unicode.asciiToLower
    sortSlice := fun less l => sort.insertionSortLessFunc less l }

namespace context

/-- Go `context.Context` as seen by a callee: the deadline, and a number standing
for everything else attached to the request scope. -/
structure Context where
  deadline : Option time.Time
  scope : Nat
  deriving DecidableEq, Repr

/-- Go `context.Background()`. -/
def Background : Context := { deadline := none, scope := 0 }

/-- Go `context.WithTimeout(parent, timeout)` when the clock reads `now`: the
earlier of the parent deadline and `now + timeout`. -/
def WithTimeout (parent : Context) (now : time.Time) (timeout : time.Duration) : Context :=
  let d := now.Add timeout
  match parent.deadline with
  | some cur => if d.After cur then parent else { parent with deadline := some d }
  | none => { parent with deadline := some d }

end context

namespace cache

/-- A stored value with its absolute expiration instant. -/
structure item (V : Type) where
  value : V
  expiration : time.Time

/-- Go `Cache[K, V]`: the TTL and the backing map, a finite function from keys. -/
structure Cache (K V : Type) where
  ttl : time.Duration
  data : K → Option (item V)

/-- Go `cache.New`. -/
def New {K V : Type} (ttl : time.Duration) : Cache K V :=
  let ttl := if ttl ≤ 0 then 2 * time.Minute else ttl
  { ttl := ttl, data := fun _ => none }

/-- Go `Cache.Get`; `now` is the instant read by `time.Now()`. The pair
`(value, true)` is `some value`, and `(zero, false)` is `none`. -/
def Cache.Get {K V : Type} (c : Cache K V) (now : time.Time) (key : K) : Option V :=
  match c.data key with
  | some entry => if entry.expiration.After now then some entry.value else none
  | none => none

/-- Go `Cache.Set`; `now` is the instant read by `time.Now()`. -/
def Cache.Set {K V : Type} [DecidableEq K] (c : Cache K V) (now : time.Time) (key : K)
    (value : V) : Cache K V :=
  { c with
    data := fun k =>
      if k = key then some { value := value, expiration := now.Add c.ttl } else c.data k }

/-- Go `Cache.Purge`. -/
def Cache.Purge {K V : Type} (c : Cache K V) : Cache K V :=
  { c with data := fun _ => none }

/-- A write operation on a cache, with the clock reading it makes. -/
inductive Op (K V : Type) where
  | set (now : time.Time) (key : K) (value : V)
  | purge

/-- Run one write operation. -/
def Cache.step {K V : Type} [DecidableEq K] (c : Cache K V) : Op K V → Cache K V
  | .set now key value => c.Set now key value
  | .purge => c.Purge

/-- Run a sequence of write operations, first to last. -/
def Cache.run {K V : Type} [DecidableEq K] (c : Cache K V) (ops : List (Op K V)) : Cache K V :=
  ops.foldl Cache.step c

/-- The operation is a `Set` of a key other than `key`. -/
def Op.setsOther {K V : Type} [DecidableEq K] (key : K) : Op K V → Bool
  | .set _ k _ => decide (k ≠ key)
  | .purge => false

/-- The operation is a `Set` of `key`. -/
def Op.sets {K V : Type} [DecidableEq K] (key : K) : Op K V → Bool
  | .set _ k _ => decide (k = key)
  | .purge => false

end cache

namespace history

/-- Go `history.Record`. -/
structure Record where
  Query : String
  Providers : List String
  Results : Int
  Took : time.Duration
  Time : time.Time
  deriving DecidableEq, Repr

/-- Go `history.Store`. -/
structure Store where
  limit : Int
  records : List Record
  deriving DecidableEq, Repr

/-- Go `history.NewStore`. -/
def NewStore (limit : Int) : Store :=
  let limit := if limit ≤ 0 then 50 else limit
  { limit := limit, records := [] }

/-- Go `Store.Add`: put the record in front, then cut the tail down to the limit. -/
def Store.Add (s : Store) (record : Record) : Store :=
  let records := record :: s.records
  if (records.length : Int) > s.limit then
    { s with records := records.take s.limit.toNat }
  else
    { s with records := records }

/-- Go `Store.List`. -/
def Store.List (std : Stdlib) (s : Store) (limit : Int) : List Record :=
  let limit := if limit ≤ 0 ∨ limit > (s.records.length : Int) then (s.records.length : Int) else limit
  let result := s.records.take limit.toNat
  std.sortSlice (fun x y => x.Time.After y.Time) result

end history

namespace model

/-- Go `model.Result`. The three Go maps and slices it carries are association
lists and lists; the aggregator never looks inside them. -/
structure Result where
  Title : String
  URL : String
  Summary : String
  Author : String
  Source : String
  PublishedAt : time.Time
  Metrics : List (String × Int) := []
  Tags : List String := []
  Extras : List (String × String) := []
  deriving DecidableEq, Repr

/-- Go `model.Summary`; `SourceBreakdown` is the Go map as an association list. -/
structure Summary where
  Query : String := ""
  Overview : String := ""
  Highlights : List String := []
  Keywords : List String := []
  Sentiment : String := ""
  SourceBreakdown : List (String × Int) := []
  GeneratedAt : time.Time := time.Time.zero
  deriving DecidableEq, Repr

end model

namespace provider

/-- Go `provider.SearchOptions`. -/
structure SearchOptions where
  Limit : Int
  StartTime : time.Time := time.Time.zero
  EndTime : time.Time := time.Time.zero
  deriving DecidableEq, Repr

/-- Go interface `provider.Provider`, a non-nil value of it. `Search` returns the
pair `(results, err)` of the Go method; what a source answers may depend on the
context it is called under. -/
structure Provider where
  Name : String
  Search : context.Context → String → SearchOptions → List model.Result × Option String

end provider

namespace summary

/-- Go interface `summary.Summarizer`; `Summarize` returns the Go pair `(summary, err)`. -/
structure Summarizer where
  Summarize : context.Context → String → List model.Result → model.Summary × Option String

end summary

namespace aggregator

/-- Go `aggregator.Options`. -/
structure Options where
  Providers : List String := []
  Limit : Int := 0
  ForceRefresh : Bool := false
  deriving DecidableEq, Repr

/-- Go `aggregator.ProviderStatus`. -/
structure ProviderStatus where
  Name : String := ""
  Count : Int := 0
  Error : String := ""
  Cached : Bool := false
  deriving DecidableEq, Repr

/-- Go `aggregator.Metadata`. -/
structure Metadata where
  Cached : Bool := false
  GeneratedAt : time.Time := time.Time.zero
  Took : time.Duration := 0
  ProviderStatuses : List ProviderStatus := []
  deriving DecidableEq, Repr

/-- Go `aggregator.Response`. -/
structure Response where
  Query : String := ""
  Results : List model.Result := []
  Summary : model.Summary := {}
  Metadata : Metadata := {}
  deriving DecidableEq, Repr

/-- Go `aggregator.Config`. -/
structure Config where
  CacheTTL : time.Duration := 0
  RequestTimeout : time.Duration := 0
  HistorySize : Int := 0
  deriving DecidableEq, Repr

/-- Go `map[string]provider.Provider`: distinct keys, each bound to a source or
to the nil interface value (`none`). -/
abbrev ProviderMap := AList (fun _ : String => Option provider.Provider)

/-- Go `aggregator.Aggregator` without its lock. `providers` is `none` for a nil map. -/
structure Aggregator where
  providers : Option ProviderMap
  cache : cache.Cache String Response
  summarizer : summary.Summarizer
  history : history.Store
  timeout : time.Duration

/-- Go `aggregator.New`. -/
def New (providers : Option ProviderMap) (summarizer : summary.Summarizer) (cfg : Config) :
    Aggregator :=
  let ttl := if cfg.CacheTTL ≤ 0 then 3 * time.Minute else cfg.CacheTTL
  let timeout := if cfg.RequestTimeout ≤ 0 then 8 * time.Second else cfg.RequestTimeout
  let historySize := if cfg.HistorySize ≤ 0 then 50 else cfg.HistorySize
  { providers := providers
    cache := cache.New ttl
    summarizer := summarizer
    history := history.NewStore historySize
    timeout := timeout }

/-- The keys of the source map, in the order a `range` loop happens to visit them. -/
def Aggregator.rangeNames (a : Aggregator) : List String :=
  match a.providers with
  | none => []
  | some m => m.keys

/-- The Go expression `_, ok := a.providers[name]`. -/
def Aggregator.hasProvider (a : Aggregator) (name : String) : Bool :=
  match a.providers with
  | none => false
  | some m => (m.lookup name).isSome

/-- Go `Aggregator.ProviderNames`. -/
def Aggregator.ProviderNames (a : Aggregator) : List String :=
  sort.Strings a.rangeNames

/-- Go `Aggregator.RegisterProvider`. -/
def Aggregator.RegisterProvider (a : Aggregator) (p : provider.Provider) : Aggregator :=
  let m : ProviderMap := match a.providers with
    | none => ∅
    | some m => m
  { a with providers := some (m.insert p.Name (some p)) }

/-- Go `Aggregator.buildCacheKey`: the format `%s|%s|%d`. -/
def Aggregator.buildCacheKey (_a : Aggregator) (std : Stdlib) (query : String)
    (providers : List String) (limit : Int) : String :=
  let cloned := sort.Strings providers
  strings.ToLower std.unicodeToLower query ++ "|" ++ strings.Join cloned "," ++ "|" ++
    toString limit

/-- Go `Aggregator.selectProviders`. -/
def Aggregator.selectProviders (a : Aggregator) (requested : List String) : List String :=
  if requested.length = 0 then
    sort.Strings a.rangeNames
  else
    sort.Strings ((requested.map strings.TrimSpace).filter (fun name => a.hasProvider name))

/-- Go `Aggregator.getProvider`: the source bound to `name`, or nil. -/
def Aggregator.getProvider (a : Aggregator) (name : String) : Option provider.Provider :=
  match a.providers with
  | none => none
  | some m => (m.lookup name).join

/-- Go `Aggregator.History`. -/
def Aggregator.History (std : Stdlib) (a : Aggregator) (limit : Int) : List history.Record :=
  a.history.List std limit

/-- The type `resultEnvelope` declared inside `Search`. -/
structure resultEnvelope where
  provider : String
  results : List model.Result := []
  err : Option String := none
  deriving DecidableEq, Repr

/-- A call that `Search` makes to a collaborator. -/
inductive Event where
  | providerSearch (key : String) (name : String) (ctx : context.Context) (query : String)
      (opts : provider.SearchOptions)
  | summarize (ctx : context.Context) (query : String) (results : List model.Result)
  deriving DecidableEq, Repr

/-- The environment of one `Search` call: the instant read by each `time.Now()`
the call can reach, and the order in which the envelopes leave the channel. -/
structure Round where
  /-- Read at `start := time.Now()`. -/
  start : time.Time
  /-- Read by `time.Now()` inside `cache.Get`. -/
  cacheGet : time.Time
  /-- Read by `time.Since(start)` on a cache hit. -/
  hitDone : time.Time
  /-- Read by `context.WithTimeout`. -/
  fanOut : time.Time
  /-- Read by `GeneratedAt: time.Now()`. -/
  generatedAt : time.Time
  /-- Read by `Took: time.Since(start)`. -/
  done : time.Time
  /-- Read by `time.Now()` inside `cache.Set`. -/
  cacheSet : time.Time
  /-- The envelopes in the order they are received from `resultCh`. -/
  arrival : List resultEnvelope → List resultEnvelope

/-- The receive order is a rearrangement of what was sent. -/
def IsArrival (arrival : List resultEnvelope → List resultEnvelope) : Prop :=
  ∀ l, (arrival l).Perm l

/-- The body of the loop `for _, name := range providers`: the envelope that
reaches the channel for `name`. -/
def Aggregator.dispatch (a : Aggregator) (ctx : context.Context) (query : String) (limit : Int)
    (name : String) : resultEnvelope :=
  match a.getProvider name with
  | none => { provider := name, err := some ("provider " ++ name ++ " not found") }
  | some p =>
    let r := p.Search ctx query { Limit := limit }
    { provider := p.Name, results := r.1, err := r.2 }

/-- The source call, if any, that the loop body makes for `name`. -/
def Aggregator.dispatchEvents (a : Aggregator) (ctx : context.Context) (query : String)
    (limit : Int) (name : String) : List Event :=
  match a.getProvider name with
  | none => []
  | some p => [Event.providerSearch name p.Name ctx query { Limit := limit }]

/-- The three accumulators of the loop `for envelope := range resultCh`. -/
structure gathered where
  aggregated : List model.Result := []
  statuses : List ProviderStatus := []
  providerNames : List String := []
  deriving DecidableEq, Repr

/-- One iteration of the loop `for envelope := range resultCh`. -/
def collect (g : gathered) (envelope : resultEnvelope) : gathered :=
  let providerNames := g.providerNames ++ [envelope.provider]
  match envelope.err with
  | some e =>
    { aggregated := g.aggregated
      statuses := g.statuses ++ [{ Name := envelope.provider, Error := e }]
      providerNames := providerNames }
  | none =>
    { aggregated := g.aggregated ++ envelope.results
      statuses := g.statuses ++ [{ Name := envelope.provider, Count := envelope.results.length }]
      providerNames := providerNames }

/-- What one `Search` call returns and leaves behind. -/
structure Outcome where
  /-- The returned response (the zero value when `err` is set). -/
  resp : Response
  /-- The returned error. -/
  err : Option String
  /-- The aggregator after the call. -/
  agg : Aggregator
  /-- The collaborator calls made during the call. -/
  events : List Event

/-- The items an envelope adds to the merged sequence: its results when it
carries no error, nothing otherwise. -/
def resultEnvelope.items (e : resultEnvelope) : List model.Result :=
  match e.err with
  | some _ => []
  | none => e.results

/-- The status entry recorded for an envelope. -/
def resultEnvelope.status (e : resultEnvelope) : ProviderStatus :=
  match e.err with
  | some msg => { Name := e.provider, Error := msg }
  | none => { Name := e.provider, Count := e.results.length }

/-- Lines 136 to 215 of `Aggregator.Search`: the path taken when the cache is not
read or has no live entry. `query` is the trimmed query, `providers` the
resolved names and `cacheKey` the key computed from them. -/
def Aggregator.searchFresh (a : Aggregator) (std : Stdlib) (rd : Round) (ctx : context.Context)
    (query : String) (providers : List String) (cacheKey : String) (opts : Options) : Outcome :=
  let start := rd.start
  let limit := if opts.Limit ≤ 0 then 10 else opts.Limit
  let ctx := context.WithTimeout ctx rd.fanOut a.timeout
  let sent := providers.map (a.dispatch ctx query limit)
  let calls := providers.flatMap (a.dispatchEvents ctx query limit)
  let g := (rd.arrival sent).foldl collect {}
  let aggregated :=
    std.sortSlice (fun x y => x.PublishedAt.After y.PublishedAt) g.aggregated
  let s := a.summarizer.Summarize ctx query aggregated
  let statuses := match s.2 with
    | some e => g.statuses ++ [{ Name := "summary", Error := e }]
    | none => g.statuses
  let resp : Response :=
    { Query := query
      Results := aggregated
      Summary := s.1
      Metadata :=
        { GeneratedAt := rd.generatedAt
          Took := time.Since rd.done start
          ProviderStatuses := statuses } }
  { resp := resp
    err := none
    agg := { a with
      cache := a.cache.Set rd.cacheSet cacheKey resp
      history := a.history.Add
        { Query := query
          Providers := g.providerNames
          Results := aggregated.length
          Took := resp.Metadata.Took
          Time := resp.Metadata.GeneratedAt } }
    events := calls ++ [Event.summarize ctx query aggregated] }

/-- Go `Aggregator.Search`. -/
def Aggregator.Search (a : Aggregator) (std : Stdlib) (rd : Round) (ctx : context.Context)
    (query : String) (opts : Options) : Outcome :=
  let query := strings.TrimSpace query
  if query = "" then
    { resp := {}, err := some "query is required", agg := a, events := [] }
  else
    let start := rd.start
    let providers := a.selectProviders opts.Providers
    if providers.length = 0 then
      { resp := {}, err := some "no providers configured", agg := a, events := [] }
    else
      let cacheKey := a.buildCacheKey std query providers opts.Limit
      match (if opts.ForceRefresh then none else a.cache.Get rd.cacheGet cacheKey) with
      | some resp =>
        { resp := { resp with
            Metadata := { resp.Metadata with Cached := true, Took := time.Since rd.hitDone start } }
          err := none, agg := a, events := [] }
      | none => a.searchFresh std rd ctx query providers cacheKey opts

/-- The request context handed to the sources and to the summarizer by a fresh run. -/
def Aggregator.callContext (a : Aggregator) (rd : Round) (ctx : context.Context) :
    context.Context :=
  context.WithTimeout ctx rd.fanOut a.timeout

/-- The limit handed to the sources: `opts.Limit`, or 10 when it is not positive. -/
def Options.effectiveLimit (opts : Options) : Int :=
  if opts.Limit ≤ 0 then 10 else opts.Limit

/-- The cache key that `Search` computes for a request. -/
def Aggregator.requestKey (a : Aggregator) (std : Stdlib) (query : String) (opts : Options) :
    String :=
  a.buildCacheKey std (strings.TrimSpace query) (a.selectProviders opts.Providers) opts.Limit

/-- The cache is not consulted, or holds no live entry for the request, when the
clock reads `rd.cacheGet`. -/
def Aggregator.missesCache (a : Aggregator) (std : Stdlib) (rd : Round) (query : String)
    (opts : Options) : Prop :=
  opts.ForceRefresh = true ∨ a.cache.Get rd.cacheGet (a.requestKey std query opts) = none

end aggregator

/-! ### A concrete deployment

Two sources `A` and `B`, a source that always fails, and a summarizer that
always succeeds. Source `A` answers two items published one and three hours
before the instant `base`, source `B` one item published two hours before it. -/

namespace scenario

open aggregator

/-- The reference instant `t` of the scenario. -/
def base : time.Time := ⟨10 * time.Hour⟩

/-- An item of source `A`, published one hour before `base`. -/
def itemA1 : model.Result :=
  { Title := "a1", URL := "", Summary := "", Author := "", Source := "A"
    PublishedAt := base.Add (-1 * time.Hour) }

/-- An item of source `A`, published three hours before `base`. -/
def itemA3 : model.Result :=
  { Title := "a3", URL := "", Summary := "", Author := "", Source := "A"
    PublishedAt := base.Add (-3 * time.Hour) }

/-- An item of source `B`, published two hours before `base`. -/
def itemB2 : model.Result :=
  { Title := "b2", URL := "", Summary := "", Author := "", Source := "B"
    PublishedAt := base.Add (-2 * time.Hour) }

/-- Source `A`: always answers `itemA1`, `itemA3`. -/
def sourceA : provider.Provider :=
  { Name := "A", Search := fun _ _ _ => ([itemA1, itemA3], none) }

/-- Source `B`: always answers `itemB2`. -/
def sourceB : provider.Provider :=
  { Name := "B", Search := fun _ _ _ => ([itemB2], none) }

/-- A source that always fails with the error text `down`. -/
def sourceDown : provider.Provider :=
  { Name := "C", Search := fun _ _ _ => ([], some "down") }

/-- A summarizer that always succeeds and echoes the query. -/
def summarizer : summary.Summarizer :=
  { Summarize := fun _ q _ => ({ Query := q }, none) }

/-- The source map holding `A` and `B`. -/
def sourcesAB : ProviderMap :=
  ((∅ : ProviderMap).insert "A" (some sourceA)).insert "B" (some sourceB)

/-- The source map holding `B` and the failing source `C`. -/
def sourcesBC : ProviderMap :=
  ((∅ : ProviderMap).insert "B" (some sourceB)).insert "C" (some sourceDown)

/-- An aggregator over `A` and `B` with a cache TTL of one minute. -/
def agg : Aggregator := New (some sourcesAB) summarizer { CacheTTL := time.Minute }

/-- An aggregator over `B` and the failing source, with a cache TTL of one minute. -/
def aggBC : Aggregator := New (some sourcesBC) summarizer { CacheTTL := time.Minute }

/-- A round whose clock reads `t` throughout and whose envelopes arrive in request order. -/
def roundAt (t : time.Time) : Round :=
  { start := t, cacheGet := t, hitDone := t, fanOut := t, generatedAt := t, done := t
    cacheSet := t, arrival := id }

/-- A round whose clock reads `t` throughout and whose envelopes arrive in the
reverse of request order. -/
def roundRev (t : time.Time) : Round :=
  { roundAt t with arrival := List.reverse }

/-- A first request for `ops` with limit 3, at the instant `base`. -/
def first : Outcome :=
  agg.Search goStdlib (roundAt base) context.Background "ops" { Limit := 3 }

/-- The same request again, one second later. -/
def second : Outcome :=
  first.agg.Search goStdlib (roundAt (base.Add time.Second)) context.Background "ops"
    { Limit := 3 }

end scenario

namespace history

/-- A slice of records. -/
abbrev Records := List Record

/-- Go `Store.List` as a call on the store: the returned slice and the store
after the call. The sort runs on `result`, a fresh copy of the first `limit`
records, so the records of the store are those it had. -/
def Store.ListCall (std : Stdlib) (s : Store) (limit : Int) : Records × Store :=
  (s.List std limit, s)

end history

namespace aggregator

/-- A call made on an aggregator by its owner. -/
inductive Call where
  | search (rd : Round) (ctx : context.Context) (query : String) (opts : Options)
  | register (p : provider.Provider)

/-- The aggregator after one call. -/
def Aggregator.step (std : Stdlib) (a : Aggregator) : Call → Aggregator
  | .search rd ctx query opts => (a.Search std rd ctx query opts).agg
  | .register p => a.RegisterProvider p

/-- The aggregator after a sequence of calls, first to last. -/
def Aggregator.run (std : Stdlib) (a : Aggregator) (calls : List Call) : Aggregator :=
  calls.foldl (Aggregator.step std) a

/-- The aggregator was built by `New` and then only used through `Search` and
`RegisterProvider`. -/
def Aggregator.Reachable (std : Stdlib) (a : Aggregator) : Prop :=
  ∃ (providers : Option ProviderMap) (summarizer : summary.Summarizer) (cfg : Config)
    (calls : List Call), a = (New providers summarizer cfg).run std calls

/-- Every response held by the cache has `Metadata.Cached = false`. -/
def Aggregator.StoresUncached (a : Aggregator) : Prop :=
  ∀ (key : String) (entry : cache.item Response),
    a.cache.data key = some entry → entry.value.Metadata.Cached = false

/-- The items that the sources answering without error return to a fresh run,
concatenated in request order. -/
def Aggregator.freshItems (a : Aggregator) (rd : Round) (ctx : context.Context) (query : String)
    (opts : Options) : List model.Result :=
  ((a.selectProviders opts.Providers).map
    (a.dispatch (a.callContext rd ctx) (strings.TrimSpace query) opts.effectiveLimit)).flatMap
      resultEnvelope.items

/-- The source calls among the events of a `Search` call. -/
def sourceCalls (events : List Event) : List Event :=
  events.filter (fun e => match e with
    | .providerSearch _ _ _ _ _ => true
    | .summarize _ _ _ => false)

end aggregator

namespace scenario

open aggregator

/-- A summarizer that fails with the text `busy` and still hands back a summary
with its `Query` field set. -/
def summarizerBusy : summary.Summarizer :=
  { Summarize := fun _ q _ => ({ Query := q }, some "busy") }

/-- An aggregator over `A` and `B` whose summarizer is `summarizerBusy`. -/
def aggBusy : Aggregator := New (some sourcesAB) summarizerBusy { CacheTTL := time.Minute }

/-- An item of source `B` published one hour before `base`, at the same instant
as `itemA1`. -/
def itemB1 : model.Result :=
  { Title := "b1", URL := "", Summary := "", Author := "", Source := "B"
    PublishedAt := base.Add (-1 * time.Hour) }

/-- Source `B` answering `itemB1`. -/
def sourceB1 : provider.Provider :=
  { Name := "B", Search := fun _ _ _ => ([itemB1], none) }

/-- An aggregator over `A` and the source `B` that answers `itemB1`. -/
def aggTie : Aggregator :=
  New (some (((∅ : ProviderMap).insert "A" (some sourceA)).insert "B" (some sourceB1)))
    summarizer { CacheTTL := time.Minute }

end scenario

namespace unicode

/-- The category tests `unicode.IsLetter` and `unicode.IsNumber`, whose tables
belong to the standard library. -/
structure Categories where
  IsLetter : Char → Bool
  IsNumber : Char → Bool

/-- The category tests restricted to ASCII: the letters `A-Z`, `a-z` and the
digits `0-9`. They agree with the Unicode tables on ASCII text. -/
def asciiCategories : Categories :=
  { IsLetter := fun r => (65 ≤ r.toNat && r.toNat ≤ 90) || (97 ≤ r.toNat && r.toNat ≤ 122)
    IsNumber := fun r => 48 ≤ r.toNat && r.toNat ≤ 57 }

end unicode

namespace utf8

/-- Go `utf8.RuneLen` on a valid code point: the number of bytes of its encoding. -/
def RuneLen (r : Char) : Nat :=
  if r.toNat < 0x80 then 1 else if r.toNat < 0x800 then 2 else if r.toNat < 0x10000 then 3 else 4

end utf8

namespace strings

/-- Go `len(s)` on a string: its length in bytes. -/
def byteLen (s : String) : Nat := (s.data.map utf8.RuneLen).sum

/-- The list `sub` occurs in `s` as a block of consecutive elements. -/
def containsList (s sub : List Char) : Bool :=
  match s with
  | [] => sub.isEmpty
  | c :: cs => sub.isPrefixOf (c :: cs) || containsList cs sub

/-- Go `strings.Contains`. -/
def Contains (s substr : String) : Bool := containsList s.data substr.data

/-- The scan of `strings.FieldsFunc`: `cur` is the field being read, reversed. -/
def fieldsFuncList (f : Char → Bool) : List Char → List Char → List (List Char)
  | [], cur => if cur.isEmpty then [] else [cur.reverse]
  | c :: cs, cur =>
    if f c then
      if cur.isEmpty then fieldsFuncList f cs [] else cur.reverse :: fieldsFuncList f cs []
    else fieldsFuncList f cs (c :: cur)

/-- Go `strings.FieldsFunc`: the maximal runs of code points not satisfying `f`. -/
def FieldsFunc (s : String) (f : Char → Bool) : List String :=
  (fieldsFuncList f s.data []).map String.mk

end strings

namespace simple

/-- Go `simple.Summarizer`, a struct without fields. -/
structure Summarizer where
  deriving DecidableEq, Repr

/-- Go `simple.New`. -/
def New : Summarizer := {}

/-- The Go statement `m[key]++` on a `map[string]int`, kept as an association
list with distinct keys in order of first insertion. -/
def increment (m : List (String × Int)) (key : String) : List (String × Int) :=
  match m with
  | [] => [(key, 1)]
  | (k, v) :: rest => if k = key then (k, v + 1) :: rest else (k, v) :: increment rest key

/-- Go `tokenize`. -/
def tokenize (std : Stdlib) (cat : unicode.Categories) (text : String) : List String :=
  let fields := strings.FieldsFunc text (fun r => !(cat.IsLetter r || cat.IsNumber r))
  fields.foldl (fun tokens f =>
    let token := strings.TrimSpace (strings.ToLower std.unicodeToLower f)
    if token ≠ "" then tokens ++ [token] else tokens) []

/-- Go `truncate`; `length` is never negative at its call site. -/
def truncate (text : String) (length : Nat) : String :=
  if text.data.length ≤ length then text
  else String.mk (text.data.take length) ++ "…"

/-- Go `countContains`. -/
def countContains (std : Stdlib) (text : String) (dictionary : List String) : Int :=
  dictionary.foldl (fun count word =>
    if strings.Contains text (strings.ToLower std.unicodeToLower word) then count + 1
    else count) 0

/-- Go `fmtInt`. -/
def fmtInt (n : Int) : String :=
  if n < 0 then "0" else toString n

/-- The type `kv` declared inside `extractKeywords`. -/
structure kv where
  key : String
  val : Int
  deriving DecidableEq, Repr

/-- The inner loop of `extractKeywords` over the tokens of one result: the state
is the frequency map and the set `seen`. -/
def countTokens (tokens : List String) (freq : List (String × Int)) : List (String × Int) :=
  (tokens.foldl (fun (st : List (String × Int) × List String) token =>
    if strings.byteLen token < 2 then st
    else if st.2.contains token then st
    else (increment st.1 token, st.2 ++ [token])) (freq, [])).1

/-- Go `Summarizer.extractKeywords`. -/
def Summarizer.extractKeywords (_s : Summarizer) (std : Stdlib) (cat : unicode.Categories)
    (results : List model.Result) : List String :=
  let freq := results.foldl (fun freq r =>
    countTokens (tokenize std cat (r.Title ++ " " ++ r.Summary)) freq) []
  let pairs : List kv := freq.map (fun p => { key := p.1, val := p.2 })
  let pairs := std.sortSlice (fun (x y : kv) =>
    if x.val = y.val then sort.stringLess x.key y.key else decide (x.val > y.val)) pairs
  let limit := if pairs.length < 6 then pairs.length else 6
  (pairs.take limit).map (fun p => p.key)

/-- Go `Summarizer.buildHighlights`. -/
def Summarizer.buildHighlights (_s : Summarizer) (results : List model.Result) : List String :=
  let limit := if results.length < 3 then results.length else 3
  (results.take limit).map (fun r =>
    if r.Summary ≠ "" then r.Title ++ " - " ++ truncate r.Summary 80 else r.Title)

/-- Go `Summarizer.buildOverview`. -/
def Summarizer.buildOverview (_s : Summarizer) (query : String) (results : List model.Result)
    (highlights : List String) : String :=
  match results with
  | [] => ""
  | first :: _ =>
    "围绕“" ++ query ++ "”共找到" ++ fmtInt results.length ++ "条相关讨论，主要集中在" ++
      (match highlights with
        | h :: _ => h
        | [] => first.Title) ++ "等话题。"

/-- Go `Summarizer.estimateSentiment`. -/
def Summarizer.estimateSentiment (_s : Summarizer) (std : Stdlib) (results : List model.Result) :
    String :=
  if results.length = 0 then "neutral"
  else
    let counts := results.foldl (fun (pn : Int × Int) r =>
      let text := strings.ToLower std.unicodeToLower (r.Summary ++ " " ++ r.Title)
      (pn.1 + countContains std text ["good", "great", "上升", "突破", "增长", "机遇"],
       pn.2 + countContains std text ["bad", "risk", "下降", "危机", "挑战", "下滑"])) (0, 0)
    if counts.1 > counts.2 then "positive"
    else if counts.2 > counts.1 then "negative"
    else "neutral"

/-- The loop `for _, r := range results { sourceCount[r.Source]++ }`. -/
def sourceCount (results : List model.Result) : List (String × Int) :=
  results.foldl (fun m r => increment m r.Source) []

/-- Go `Summarizer.Summarize`; `now` is the instant read by `time.Now()`. -/
def Summarizer.Summarize (s : Summarizer) (std : Stdlib) (cat : unicode.Categories)
    (now : time.Time) (_ctx : context.Context) (query : String) (results : List model.Result) :
    model.Summary × Option String :=
  if results.length = 0 then
    ({ Query := query, GeneratedAt := now }, none)
  else
    let keywords := s.extractKeywords std cat results
    let highlights := s.buildHighlights results
    let sentiment := s.estimateSentiment std results
    let sourceCount := sourceCount results
    let overview := s.buildOverview query results highlights
    ({ Query := query
       Overview := overview
       Highlights := highlights
       Keywords := keywords
       Sentiment := sentiment
       SourceBreakdown := sourceCount
       GeneratedAt := now }, none)

end simple

namespace scenario

/-- The first item of `TestSummarizer`, with ASCII texts. -/
def itemZhihu : model.Result :=
  { Title := "Sample title one", URL := "", Summary := "A good case about growth."
    Author := "", Source := "zhihu", PublishedAt := base }

/-- The second item of `TestSummarizer`, with ASCII texts. -/
def itemWechat : model.Result :=
  { Title := "Sample title two", URL := "", Summary := "The talk named a risk and a bad turn."
    Author := "", Source := "wechat", PublishedAt := base.Add (-1 * time.Hour) }

end scenario


namespace scenario

open aggregator

/-- A history record for the query `q` completed at the instant `t` nanoseconds. -/
def recordAt (q : String) (t : Int) : history.Record :=
  { Query := q, Providers := [], Results := 0, Took := 0, Time := ⟨t⟩ }

/-- A store of capacity 5 to which a record completed at 5 and then a record
completed at 1 were added: the record added last is the earlier one. -/
def storeOutOfOrder : history.Store :=
  ((history.NewStore 5).Add (recordAt "late" 5)).Add (recordAt "early" 1)

end scenario

namespace aggregator

/-- Every source of the map is bound to the name it reports, as
`RegisterProvider` binds it. -/
def Aggregator.KeyedByName (a : Aggregator) : Prop :=
  ∀ (key : String) (p : provider.Provider), a.getProvider key = some p → p.Name = key

/-- The name under which the outcome of the resolved name `name` is reported:
the name the source reports, or `name` itself when it is bound to no source. -/
def Aggregator.reportedName (a : Aggregator) (name : String) : String :=
  match a.getProvider name with
  | none => name
  | some p => p.Name

/-- The status entry that the resolved name `name` produces in a fresh run. -/
def Aggregator.statusOf (a : Aggregator) (rd : Round) (ctx : context.Context) (query : String)
    (opts : Options) (name : String) : ProviderStatus :=
  (a.dispatch (a.callContext rd ctx) (strings.TrimSpace query) opts.effectiveLimit name).status

/-- The status entry appended for the summarizer: none when it succeeds, one
named `summary` with its error text when it fails. -/
def summaryStatus (err : Option String) : List ProviderStatus :=
  match err with
  | some e => [{ Name := "summary", Error := e }]
  | none => []

end aggregator

namespace scenario

open aggregator

/-- An aggregator whose source map binds the key `x` to source `A`, which
reports the name `A`. -/
def aggAlias : Aggregator :=
  New (some ((∅ : ProviderMap).insert "x" (some sourceA))) summarizer { CacheTTL := time.Minute }

end scenario

namespace aggregator

/-- The name holds neither of the two separators of the cache key format, `|`
and `,`. -/
def SeparatorFree (name : String) : Prop :=
  '|' ∉ name.data ∧ ',' ∉ name.data

/-- Every response held by the cache sits under the key built from its own
`Query`, a non-empty list of registered names and a limit. -/
def Aggregator.CacheTagged (a : Aggregator) (std : Stdlib) : Prop :=
  ∀ (key : String) (entry : cache.item Response), a.cache.data key = some entry →
    ∃ (names : List String) (limit : Int), names ≠ []
      ∧ (∀ name ∈ names, a.hasProvider name = true)
      ∧ key = a.buildCacheKey std entry.value.Query names limit

end aggregator

namespace scenario

open aggregator

/-- A source registered under the name `c`, answering `itemA1`. -/
def sourceC : provider.Provider :=
  { Name := "c", Search := fun _ _ _ => ([itemA1], none) }

/-- A source registered under the name `b|c`, answering `itemB2`. -/
def sourceBar : provider.Provider :=
  { Name := "b|c", Search := fun _ _ _ => ([itemB2], none) }

/-- An aggregator over the sources `c` and `b|c`. -/
def aggSep : Aggregator :=
  New (some (((∅ : ProviderMap).insert "c" (some sourceC)).insert "b|c" (some sourceBar)))
    summarizer { CacheTTL := time.Minute }

end scenario


namespace unicode

/-- An excerpt of the table of `unicode.ToLower`: the ASCII letters and the
Greek capital letters from alpha to omega, each mapped 32 code points up; every
other code point is kept. The capital sigma U+03A3 maps to the small sigma
U+03C3. -/
def greekToLower (r : Char) : Char :=
  if 65 ≤ r.toNat ∧ r.toNat ≤ 90 then Char.ofNat (r.toNat + 32)
  else if (0x391 ≤ r.toNat ∧ r.toNat ≤ 0x3A1) ∨ (0x3A3 ≤ r.toNat ∧ r.toNat ≤ 0x3A9) then
    Char.ofNat (r.toNat + 32)
  else r

/-- An excerpt of the table of `unicode.ToUpper`: the ASCII letters and the
Greek small letters from alpha to omega, each mapped 32 code points down, and
the final sigma U+03C2, whose capital is the sigma U+03A3; every other code
point is kept. -/
def greekToUpper (r : Char) : Char :=
  if 97 ≤ r.toNat ∧ r.toNat ≤ 122 then Char.ofNat (r.toNat - 32)
  else if r.toNat = 0x3C2 then Char.ofNat 0x3A3
  else if 0x3B1 ≤ r.toNat ∧ r.toNat ≤ 0x3C9 then Char.ofNat (r.toNat - 32)
  else r

end unicode

namespace aggregator

/-- Lower-casing undoes a change of case of `c`: the lower-case form and the
upper-case form of `c` both lower-case to the lower-case form of `c`. -/
@[reducible]
def CaseStable (toLower toUpper : Char → Char) (c : Char) : Prop :=
  toLower (toLower c) = toLower c ∧ toLower (toUpper c) = toLower c

end aggregator

/-! # Theorems -/


/-! ## Lemmas: sorting -/

namespace sort

theorem insertLessFunc_perm {α : Type} (less : α → α → Bool) (x : α) (l : List α) :
    (insertLessFunc less x l).Perm (x :: l) := by
  induction l with
  | nil => simp [insertLessFunc]
  | cons y ys ih =>
    unfold insertLessFunc
    split
    · exact (List.Perm.cons y ih).trans (List.Perm.swap x y ys)
    · exact List.Perm.refl _

theorem foldl_insertLessFunc_perm {α : Type} (less : α → α → Bool) (data acc : List α) :
    (data.foldl (fun acc x => insertLessFunc less x acc) acc).Perm (data ++ acc) := by
  induction data generalizing acc with
  | nil => simp
  | cons x xs ih =>
    simp only [List.foldl_cons, List.cons_append]
    refine (ih _).trans ?_
    refine (List.Perm.append_left xs (insertLessFunc_perm less x acc)).trans ?_
    exact List.perm_middle

theorem insertionSortLessFunc_perm {α : Type} (less : α → α → Bool) (data : List α) :
    (insertionSortLessFunc less data).Perm data := by
  unfold insertionSortLessFunc
  refine (List.reverse_perm _).trans ?_
  simpa using foldl_insertLessFunc_perm less data []

theorem StrictWeak.asymm {α : Type} {less : α → α → Bool} (h : StrictWeak less) {a b : α}
    (hab : less a b = true) : less b a = false := by
  cases hba : less b a with
  | false => rfl
  | true =>
    have := h.2.1 a b a hab hba
    rw [h.1 a] at this
    exact absurd this (by decide)

theorem insertLessFunc_pairwise {α : Type} {less : α → α → Bool} (h : StrictWeak less) (x : α)
    (l : List α) (hl : l.Pairwise (fun u v => less u v = false)) :
    (insertLessFunc less x l).Pairwise (fun u v => less u v = false) := by
  induction l with
  | nil => simp [insertLessFunc]
  | cons y ys ih =>
    rw [List.pairwise_cons] at hl
    unfold insertLessFunc
    split
    · rename_i hxy
      rw [List.pairwise_cons]
      refine ⟨?_, ih hl.2⟩
      intro z hz
      rcases List.mem_cons.1 ((List.Perm.mem_iff (insertLessFunc_perm less x ys)).1 hz) with hz | hz
      · rw [hz]
        exact h.asymm hxy
      · exact hl.1 z hz
    · rename_i hxy
      have hxy : less x y = false := by simpa using hxy
      rw [List.pairwise_cons]
      refine ⟨?_, List.pairwise_cons.2 hl⟩
      intro z hz
      rcases List.mem_cons.1 hz with hz | hz
      · rw [hz]; exact hxy
      · exact h.2.2 x y z hxy (hl.1 z hz)

theorem foldl_insertLessFunc_pairwise {α : Type} {less : α → α → Bool} (h : StrictWeak less)
    (data acc : List α) (hacc : acc.Pairwise (fun u v => less u v = false)) :
    (data.foldl (fun acc x => insertLessFunc less x acc) acc).Pairwise
      (fun u v => less u v = false) := by
  induction data generalizing acc with
  | nil => simpa using hacc
  | cons x xs ih =>
    simp only [List.foldl_cons]
    exact ih _ (insertLessFunc_pairwise h x acc hacc)

theorem insertionSortLessFunc_pairwise {α : Type} {less : α → α → Bool} (h : StrictWeak less)
    (data : List α) :
    (insertionSortLessFunc less data).Pairwise (fun a b => less b a = false) := by
  unfold insertionSortLessFunc
  rw [List.pairwise_reverse]
  exact foldl_insertLessFunc_pairwise h data [] List.Pairwise.nil

/-- The insertion sort of package `sort` meets the contract of `sort.Slice`. -/
theorem goStdlib_sortContract : SortContract goStdlib.sortSlice :=
  ⟨fun less l => insertionSortLessFunc_perm less l,
   fun _ l h => insertionSortLessFunc_pairwise h l⟩

theorem leChars_refl (a : List Char) : leChars a a = true := by
  induction a with
  | nil => rfl
  | cons x xs ih => simp [leChars, ih]

theorem leChars_total (a b : List Char) : leChars a b = true ∨ leChars b a = true := by
  induction a generalizing b with
  | nil => left; rfl
  | cons x xs ih =>
    cases b with
    | nil => right; rfl
    | cons y ys =>
      simp only [leChars]
      by_cases h1 : x.toNat < y.toNat
      · left; simp [h1]
      · by_cases h2 : y.toNat < x.toNat
        · right; simp [h2]
        · simp only [h1, h2, if_false]
          exact ih ys

theorem leChars_trans (a b c : List Char) (hab : leChars a b = true) (hbc : leChars b c = true) :
    leChars a c = true := by
  induction a generalizing b c with
  | nil => rfl
  | cons x xs ih =>
    cases b with
    | nil => simp [leChars] at hab
    | cons y ys =>
      cases c with
      | nil => simp [leChars] at hbc
      | cons z zs =>
        simp only [leChars] at hab hbc ⊢
        by_cases h1 : x.toNat < y.toNat
        · by_cases h2 : y.toNat < z.toNat
          · have : x.toNat < z.toNat := by omega
            simp [this]
          · by_cases h3 : z.toNat < y.toNat
            · simp [h2, h3] at hbc
            · have : x.toNat < z.toNat := by omega
              simp [this]
        · by_cases h1b : y.toNat < x.toNat
          · simp [h1, h1b] at hab
          · simp only [h1, h1b, if_false] at hab
            by_cases h2 : y.toNat < z.toNat
            · have : x.toNat < z.toNat := by omega
              simp [this]
            · by_cases h3 : z.toNat < y.toNat
              · simp [h2, h3] at hbc
              · simp only [h2, h3, if_false] at hbc
                have e1 : ¬ x.toNat < z.toNat := by omega
                have e2 : ¬ z.toNat < x.toNat := by omega
                simp only [e1, e2, if_false]
                exact ih ys zs hab hbc

theorem char_eq_of_toNat_eq {x y : Char} (h : x.toNat = y.toNat) : x = y := by
  apply Char.ext
  exact UInt32.ext h

theorem leChars_antisymm (a b : List Char) (hab : leChars a b = true) (hba : leChars b a = true) :
    a = b := by
  induction a generalizing b with
  | nil =>
    cases b with
    | nil => rfl
    | cons y ys => simp [leChars] at hba
  | cons x xs ih =>
    cases b with
    | nil => simp [leChars] at hab
    | cons y ys =>
      simp only [leChars] at hab hba
      by_cases h1 : x.toNat < y.toNat
      · have h2 : ¬ y.toNat < x.toNat := by omega
        simp [h1, h2] at hba
      · by_cases h2 : y.toNat < x.toNat
        · simp [h1, h2] at hab
        · simp only [h1, h2, if_false] at hab hba
          have hxy : x = y := char_eq_of_toNat_eq (by omega)
          rw [hxy, ih ys hab hba]

theorem stringLess_strictWeak : StrictWeak stringLess := by
  refine ⟨?_, ?_, ?_⟩
  · intro a
    simp [stringLess, leChars_refl]
  · intro a b c hab hbc
    simp only [stringLess, Bool.not_eq_true', ] at hab hbc ⊢
    cases hca : leChars c.data a.data with
    | false => rfl
    | true =>
      rcases leChars_total b.data c.data with h | h
      · have := leChars_trans _ _ _ h hca
        rw [this] at hab
        exact absurd hab (by decide)
      · rw [h] at hbc
        exact absurd hbc (by decide)
  · intro a b c hab hbc
    simp only [stringLess, Bool.not_eq_false'] at hab hbc ⊢
    exact leChars_trans _ _ _ hbc hab

theorem Strings_perm (x : List String) : (Strings x).Perm x :=
  insertionSortLessFunc_perm stringLess x

theorem Strings_pairwise (x : List String) :
    (Strings x).Pairwise (fun a b => leChars a.data b.data = true) := by
  have h := insertionSortLessFunc_pairwise stringLess_strictWeak x
  refine h.imp ?_
  intro a b hab
  simpa [stringLess] using hab

/-- The sorted rearrangement of a list of strings is unique. -/
theorem sorted_strings_unique {l₁ l₂ : List String} (hp : l₁.Perm l₂)
    (h₁ : l₁.Pairwise (fun a b => leChars a.data b.data = true))
    (h₂ : l₂.Pairwise (fun a b => leChars a.data b.data = true)) : l₁ = l₂ := by
  haveI : IsAntisymm String (fun a b => leChars a.data b.data = true) :=
    ⟨fun a b hab hba => String.ext (leChars_antisymm _ _ hab hba)⟩
  exact List.eq_of_perm_of_sorted hp h₁ h₂

/-- The routine `sort.Strings` depends only on the elements, not on their order. -/
theorem Strings_congr {l₁ l₂ : List String} (hp : l₁.Perm l₂) : Strings l₁ = Strings l₂ :=
  sorted_strings_unique (((Strings_perm l₁).trans hp).trans (Strings_perm l₂).symm)
    (Strings_pairwise l₁) (Strings_pairwise l₂)

theorem Strings_idem (x : List String) : Strings (Strings x) = Strings x :=
  Strings_congr (Strings_perm x)

theorem Strings_length (x : List String) : (Strings x).length = x.length :=
  (Strings_perm x).length_eq

theorem Strings_eq_nil {x : List String} : Strings x = [] ↔ x = [] := by
  constructor
  · intro h
    have := Strings_length x
    rw [h] at this
    exact List.length_eq_zero.1 this.symm
  · intro h
    rw [h]
    rfl

end sort

/-! ## TTL cache -/

namespace cache

theorem Get_Set_same {K V : Type} [DecidableEq K] (c : Cache K V) (t t' : time.Time) (key : K)
    (value : V) :
    (c.Set t key value).Get t' key = if t'.ns < t.ns + c.ttl then some value else none := by
  simp [Cache.Get, Cache.Set, time.Time.After, time.Time.Add]

theorem Get_Set_other {K V : Type} [DecidableEq K] (c : Cache K V) (t t' : time.Time)
    (key k : K) (value : V) (h : k ≠ key) :
    (c.Set t k value).Get t' key = c.Get t' key := by
  have h' : ¬ key = k := fun e => h e.symm
  simp [Cache.Get, Cache.Set, h']

theorem run_ttl {K V : Type} [DecidableEq K] (c : Cache K V) (ops : List (Op K V)) :
    (c.run ops).ttl = c.ttl := by
  induction ops generalizing c with
  | nil => rfl
  | cons op ops ih =>
    have : (c.step op).ttl = c.ttl := by cases op <;> rfl
    simp only [Cache.run, List.foldl_cons] at ih ⊢
    rw [ih, this]

theorem run_Get_others {K V : Type} [DecidableEq K] (c : Cache K V) (ops : List (Op K V))
    (key : K) (t' : time.Time) (hops : ∀ op ∈ ops, Op.setsOther key op = true) :
    (c.run ops).Get t' key = c.Get t' key := by
  induction ops generalizing c with
  | nil => rfl
  | cons op ops ih =>
    simp only [Cache.run, List.foldl_cons] at ih ⊢
    rw [ih _ (fun o ho => hops o (List.mem_cons_of_mem _ ho))]
    have hop := hops op (List.mem_cons_self _ _)
    cases op with
    | set now k v =>
      simp only [Op.setsOther, decide_eq_true_eq] at hop
      exact Get_Set_other c now t' key k v hop
    | purge => simp [Op.setsOther] at hop

theorem run_Get_never {K V : Type} [DecidableEq K] (c : Cache K V) (ops : List (Op K V))
    (key : K) (t' : time.Time) (h0 : c.Get t' key = none)
    (hops : ∀ op ∈ ops, Op.sets key op = false) :
    (c.run ops).Get t' key = none := by
  induction ops generalizing c with
  | nil => exact h0
  | cons op ops ih =>
    simp only [Cache.run, List.foldl_cons] at ih ⊢
    apply ih _ _ (fun o ho => hops o (List.mem_cons_of_mem _ ho))
    have hop := hops op (List.mem_cons_self _ _)
    cases op with
    | set now k v =>
      simp only [Op.sets, decide_eq_false_iff_not] at hop
      rw [show (c.step (Op.set now k v)) = c.Set now k v from rfl, Get_Set_other c now t' key k v hop]
      exact h0
    | purge => simp [Cache.step, Cache.Purge, Cache.Get]

/-- C10. For a cache built with a TTL `d > 0`: after `Set(key, value)` at instant
`t`, followed only by `Set`s of other keys, `Get(key)` at instant `t'` finds
`value` when `t' < t + d` and finds nothing when `t' >= t + d`; and `Get` of a
key that no `Set` ever wrote finds nothing. -/
theorem C10_get_after_set {K V : Type} [DecidableEq K] (d : time.Duration) (hd : 0 < d)
    (before later : List (Op K V)) (key : K) (value : V) (t t' : time.Time)
    (hlater : ∀ op ∈ later, Op.setsOther key op = true) :
    ((((New d : Cache K V).run before).Set t key value).run later).Get t' key
        = (if t'.ns < t.ns + d then some value else none)
    ∧ (∀ ops : List (Op K V), (∀ op ∈ ops, Op.sets key op = false) →
        ((New d : Cache K V).run ops).Get t' key = none) := by
  constructor
  · rw [run_Get_others _ _ _ _ hlater, Get_Set_same, run_ttl]
    have : (New d : Cache K V).ttl = d := by
      simp [New, not_le.2 hd]
    rw [this]
  · intro ops hops
    exact run_Get_never _ ops key t' rfl hops

/-- The scenario of `TestCacheSetAndGet`: TTL 50ms, `Set("key", 42)`, an immediate
`Get` finds 42, a `Get` 60ms later finds nothing. -/
theorem C10_get_after_set_witness :
    (((New (50 * time.Millisecond) : Cache String Int).Set ⟨0⟩ "key" 42).Get ⟨0⟩ "key" = some 42)
    ∧ (((New (50 * time.Millisecond) : Cache String Int).Set ⟨0⟩ "key" 42).Get
        ⟨60 * time.Millisecond⟩ "key" = none)
    ∧ ((New (50 * time.Millisecond) : Cache String Int).Get ⟨0⟩ "other" = none) := by
  have h1 := (C10_get_after_set (50 * time.Millisecond) (by decide) [] [] "key" (42 : Int) ⟨0⟩ ⟨0⟩
    (fun _ h => nomatch h)).1
  have h2 := (C10_get_after_set (50 * time.Millisecond) (by decide) [] [] "key" (42 : Int) ⟨0⟩
    ⟨60 * time.Millisecond⟩ (fun _ h => nomatch h)).1
  have h3 := (C10_get_after_set (50 * time.Millisecond) (by decide) ([] : List (Op String Int)) []
    "other" 0 ⟨0⟩ ⟨0⟩ (fun _ h => nomatch h)).2 [] (fun _ h => nomatch h)
  exact ⟨h1, h2, h3⟩

end cache

/-! ## History log -/

namespace sort

/-- Ordering by a time stamp, latest first, is a strict weak ordering. -/
theorem after_strictWeak {α : Type} (key : α → time.Time) :
    StrictWeak (fun x y : α => (key x).After (key y)) := by
  refine ⟨?_, ?_, ?_⟩
  · intro a
    simp [time.Time.After]
  · intro a b c hab hbc
    simp only [time.Time.After, decide_eq_true_eq] at hab hbc ⊢
    omega
  · intro a b c hab hbc
    simp only [time.Time.After, decide_eq_false_iff_not] at hab hbc ⊢
    omega

end sort

namespace history

theorem Add_records (s : Store) (record : Record) (h : 0 ≤ s.limit) :
    (s.Add record).records = (record :: s.records).take s.limit.toNat := by
  unfold Store.Add
  simp only
  split
  · rfl
  · rename_i hlen
    have : (record :: s.records).length ≤ s.limit.toNat := by
      have := not_lt.1 hlen
      omega
    simp only
    exact (List.take_of_length_le this).symm

theorem Add_limit (s : Store) (record : Record) : (s.Add record).limit = s.limit := by
  unfold Store.Add
  simp only
  split <;> rfl

theorem take_append_take {α : Type} (a b : List α) (n : Nat) :
    (a ++ b.take n).take n = (a ++ b).take n := by
  rw [List.take_append_eq_append_take, List.take_append_eq_append_take, List.take_take]
  congr 2
  omega

theorem foldl_Add_limit (recs : List Record) (s : Store) :
    (recs.foldl Store.Add s).limit = s.limit := by
  induction recs generalizing s with
  | nil => rfl
  | cons r rs ih => simp only [List.foldl_cons]; rw [ih, Add_limit]

theorem foldl_Add_records (recs : List Record) (s : Store) (h : 0 ≤ s.limit)
    (hs : s.records.length ≤ s.limit.toNat) :
    (recs.foldl Store.Add s).records = (recs.reverse ++ s.records).take s.limit.toNat := by
  induction recs generalizing s with
  | nil =>
    simp only [List.foldl_nil, List.reverse_nil, List.nil_append]
    exact (List.take_of_length_le hs).symm
  | cons r rs ih =>
    simp only [List.foldl_cons]
    have hl : (s.Add r).limit = s.limit := Add_limit s r
    have hr : (s.Add r).records = (r :: s.records).take s.limit.toNat := Add_records s r h
    rw [ih (s.Add r) (by rw [hl]; exact h) (by rw [hl, hr]; simp), hl, hr, take_append_take]
    simp

/-- The records held after adding `recs`, first to last, to a new store. -/
theorem NewStore_foldl_Add (c : Int) (hc : 0 < c) (recs : List Record) :
    (recs.foldl Store.Add (NewStore c)).records = recs.reverse.take c.toNat := by
  have hlim : (NewStore c).limit = c := by simp [NewStore, not_le.2 hc]
  have h := foldl_Add_records recs (NewStore c) (by rw [hlim]; omega) (by simp [NewStore])
  rw [h, hlim]
  simp [NewStore]

theorem List_zero (std : Stdlib) (s : Store) :
    s.List std 0 = std.sortSlice (fun x y => x.Time.After y.Time) s.records := by
  simp [Store.List]

/-- C9. For a history store of capacity `c > 0`: after any sequence of `Add`
calls at most `c` records are stored, and after at least `c` calls `List(0)`
returns exactly `c` records, a rearrangement of the `c` most recently added
ones, in which no record carries a completion time after that of a record
preceding it. -/
theorem C9_history_capacity (std : Stdlib) (hstd : sort.SortContract std.sortSlice) (c : Int)
    (hc : 0 < c) (recs : List Record) :
    ((recs.foldl Store.Add (NewStore c)).records.length : Int) ≤ c
    ∧ (c ≤ (recs.length : Int) →
        ((recs.foldl Store.Add (NewStore c)).List std 0).length = c.toNat
        ∧ ((recs.foldl Store.Add (NewStore c)).List std 0).Perm (recs.reverse.take c.toNat)
        ∧ ((recs.foldl Store.Add (NewStore c)).List std 0).Pairwise
            (fun earlier later => later.Time.After earlier.Time = false)) := by
  have hrec := NewStore_foldl_Add c hc recs
  constructor
  · rw [hrec, List.length_take]
    omega
  · intro hlen
    rw [List_zero, hrec]
    have hp := hstd.1 (fun x y : Record => x.Time.After y.Time) (recs.reverse.take c.toNat)
    refine ⟨?_, hp, ?_⟩
    · rw [hp.length_eq, List.length_take, List.length_reverse]
      omega
    · exact hstd.2 _ _ (sort.after_strictWeak (fun r : Record => r.Time))

/-- A store of capacity 2 receives three records; `List(0)` returns the two most
recent ones, the latest first. -/
theorem C9_history_capacity_witness :
    (([⟨"a", [], 0, 0, ⟨1⟩⟩, ⟨"b", [], 0, 0, ⟨2⟩⟩, ⟨"c", [], 0, 0, ⟨3⟩⟩].foldl Store.Add
        (NewStore 2)).List goStdlib 0)
      = [⟨"c", [], 0, 0, ⟨3⟩⟩, ⟨"b", [], 0, 0, ⟨2⟩⟩]
    ∧ (([⟨"a", [], 0, 0, ⟨1⟩⟩, ⟨"b", [], 0, 0, ⟨2⟩⟩, ⟨"c", [], 0, 0, ⟨3⟩⟩].foldl Store.Add
        (NewStore 2)).List goStdlib 0).length = (2 : Int).toNat := by
  have h := C9_history_capacity goStdlib sort.goStdlib_sortContract 2 (by decide)
    [⟨"a", [], 0, 0, ⟨1⟩⟩, ⟨"b", [], 0, 0, ⟨2⟩⟩, ⟨"c", [], 0, 0, ⟨3⟩⟩]
  exact ⟨by decide, (h.2 (by decide)).1⟩

end history

/-! ## Aggregation engine: the shape of `Search` -/

namespace aggregator

theorem selectProviders_congr {a b : Aggregator} (h : a.providers = b.providers)
    (requested : List String) : a.selectProviders requested = b.selectProviders requested := by
  simp only [Aggregator.selectProviders, Aggregator.rangeNames, Aggregator.hasProvider, h]

theorem buildCacheKey_congr (a b : Aggregator) (std : Stdlib) (query : String)
    (providers : List String) (limit : Int) :
    a.buildCacheKey std query providers limit = b.buildCacheKey std query providers limit := rfl

theorem requestKey_congr {a b : Aggregator} (h : a.providers = b.providers) (std : Stdlib)
    (query : String) (opts : Options) : a.requestKey std query opts = b.requestKey std query opts := by
  simp only [Aggregator.requestKey, selectProviders_congr h]
  rfl

theorem Search_empty_query (a : Aggregator) (std : Stdlib) (rd : Round) (ctx : context.Context)
    (query : String) (opts : Options) (hq : strings.TrimSpace query = "") :
    a.Search std rd ctx query opts
      = { resp := {}, err := some "query is required", agg := a, events := [] } := by
  simp [Aggregator.Search, hq]

theorem Search_no_providers (a : Aggregator) (std : Stdlib) (rd : Round) (ctx : context.Context)
    (query : String) (opts : Options) (hq : strings.TrimSpace query ≠ "")
    (hp : a.selectProviders opts.Providers = []) :
    a.Search std rd ctx query opts
      = { resp := {}, err := some "no providers configured", agg := a, events := [] } := by
  simp [Aggregator.Search, hq, hp]

theorem Search_hit (a : Aggregator) (std : Stdlib) (rd : Round) (ctx : context.Context)
    (query : String) (opts : Options) (hq : strings.TrimSpace query ≠ "")
    (hp : a.selectProviders opts.Providers ≠ []) (hf : opts.ForceRefresh = false)
    (resp : Response) (hget : a.cache.Get rd.cacheGet (a.requestKey std query opts) = some resp) :
    a.Search std rd ctx query opts
      = { resp := { resp with
            Metadata := { resp.Metadata with
              Cached := true, Took := time.Since rd.hitDone rd.start } }
          err := none, agg := a, events := [] } := by
  have hp' : (a.selectProviders opts.Providers).length ≠ 0 := by
    simpa [List.length_eq_zero] using hp
  simp only [Aggregator.requestKey] at hget
  simp [Aggregator.Search, hq, hp', hf, hget]

theorem Search_fresh (a : Aggregator) (std : Stdlib) (rd : Round) (ctx : context.Context)
    (query : String) (opts : Options) (hq : strings.TrimSpace query ≠ "")
    (hp : a.selectProviders opts.Providers ≠ []) (hmiss : a.missesCache std rd query opts) :
    a.Search std rd ctx query opts
      = a.searchFresh std rd ctx (strings.TrimSpace query) (a.selectProviders opts.Providers)
          (a.requestKey std query opts) opts := by
  have hp' : (a.selectProviders opts.Providers).length ≠ 0 := by
    simpa [List.length_eq_zero] using hp
  simp only [Aggregator.requestKey, Aggregator.missesCache] at hmiss ⊢
  rcases hmiss with hf | hget
  · simp [Aggregator.Search, hq, hp', hf]
  · cases hf : opts.ForceRefresh
    · simp [Aggregator.Search, hq, hp', hf, hget]
    · simp [Aggregator.Search, hq, hp', hf]

end aggregator

/-! ## Aggregation engine: caching, errors and history -/

namespace aggregator

theorem searchFresh_err (a : Aggregator) (std : Stdlib) (rd : Round) (ctx : context.Context)
    (q : String) (ps : List String) (key : String) (opts : Options) :
    (a.searchFresh std rd ctx q ps key opts).err = none := rfl

theorem searchFresh_cached (a : Aggregator) (std : Stdlib) (rd : Round) (ctx : context.Context)
    (q : String) (ps : List String) (key : String) (opts : Options) :
    (a.searchFresh std rd ctx q ps key opts).resp.Metadata.Cached = false := rfl

theorem searchFresh_providers (a : Aggregator) (std : Stdlib) (rd : Round)
    (ctx : context.Context) (q : String) (ps : List String) (key : String) (opts : Options) :
    (a.searchFresh std rd ctx q ps key opts).agg.providers = a.providers := rfl

theorem searchFresh_cache (a : Aggregator) (std : Stdlib) (rd : Round) (ctx : context.Context)
    (q : String) (ps : List String) (key : String) (opts : Options) :
    (a.searchFresh std rd ctx q ps key opts).agg.cache
      = a.cache.Set rd.cacheSet key (a.searchFresh std rd ctx q ps key opts).resp := rfl

theorem searchFresh_results (a : Aggregator) (std : Stdlib) (rd : Round) (ctx : context.Context)
    (q : String) (ps : List String) (key : String) (opts : Options) :
    (a.searchFresh std rd ctx q ps key opts).resp.Results
      = std.sortSlice (fun x y => x.PublishedAt.After y.PublishedAt)
          ((rd.arrival (ps.map (a.dispatch (a.callContext rd ctx) q opts.effectiveLimit))).foldl
            collect {}).aggregated := rfl

theorem searchFresh_history (a : Aggregator) (std : Stdlib) (rd : Round) (ctx : context.Context)
    (q : String) (ps : List String) (key : String) (opts : Options) :
    (a.searchFresh std rd ctx q ps key opts).agg.history
      = a.history.Add
          { Query := q
            Providers := ((rd.arrival
              (ps.map (a.dispatch (a.callContext rd ctx) q opts.effectiveLimit))).foldl
                collect {}).providerNames
            Results := (a.searchFresh std rd ctx q ps key opts).resp.Results.length
            Took := (a.searchFresh std rd ctx q ps key opts).resp.Metadata.Took
            Time := (a.searchFresh std rd ctx q ps key opts).resp.Metadata.GeneratedAt } := rfl

theorem searchFresh_events (a : Aggregator) (std : Stdlib) (rd : Round) (ctx : context.Context)
    (q : String) (ps : List String) (key : String) (opts : Options) :
    (a.searchFresh std rd ctx q ps key opts).events
      = ps.flatMap (a.dispatchEvents (a.callContext rd ctx) q opts.effectiveLimit)
        ++ [Event.summarize (a.callContext rd ctx) q
              (a.searchFresh std rd ctx q ps key opts).resp.Results] := rfl

/-- A second, identical, read-through request made while the entry written by a
fresh run is still live is answered from that entry. -/
theorem Search_after_fresh (a : Aggregator) (std : Stdlib) (rd₁ rd₂ : Round)
    (ctx₁ ctx₂ : context.Context) (q₁ q₂ : String) (o₁ o₂ : Options)
    (hq₁ : strings.TrimSpace q₁ ≠ "") (hp₁ : a.selectProviders o₁.Providers ≠ [])
    (hmiss : a.missesCache std rd₁ q₁ o₁)
    (hq₂ : strings.TrimSpace q₂ ≠ "") (hp₂ : a.selectProviders o₂.Providers ≠ [])
    (hkey : a.requestKey std q₂ o₂ = a.requestKey std q₁ o₁)
    (hf₂ : o₂.ForceRefresh = false)
    (httl : rd₂.cacheGet.ns < rd₁.cacheSet.ns + a.cache.ttl) :
    (a.Search std rd₁ ctx₁ q₁ o₁).agg.Search std rd₂ ctx₂ q₂ o₂
      = { resp := { (a.Search std rd₁ ctx₁ q₁ o₁).resp with
            Metadata := { (a.Search std rd₁ ctx₁ q₁ o₁).resp.Metadata with
              Cached := true, Took := time.Since rd₂.hitDone rd₂.start } }
          err := none
          agg := (a.Search std rd₁ ctx₁ q₁ o₁).agg
          events := [] } := by
  rw [Search_fresh a std rd₁ ctx₁ q₁ o₁ hq₁ hp₁ hmiss]
  set r := a.searchFresh std rd₁ ctx₁ (strings.TrimSpace q₁) (a.selectProviders o₁.Providers)
    (a.requestKey std q₁ o₁) o₁ with hr
  have hprov : r.agg.providers = a.providers := rfl
  have hsel : r.agg.selectProviders o₂.Providers = a.selectProviders o₂.Providers :=
    selectProviders_congr hprov _
  have hk : r.agg.requestKey std q₂ o₂ = a.requestKey std q₁ o₁ := by
    rw [requestKey_congr hprov, hkey]
  apply Search_hit r.agg std rd₂ ctx₂ q₂ o₂ hq₂ (by rw [hsel]; exact hp₂) hf₂
  rw [hk]
  have hc : r.agg.cache = a.cache.Set rd₁.cacheSet (a.requestKey std q₁ o₁) r.resp := rfl
  rw [hc, cache.Get_Set_same, if_pos httl]

/-- C1. For a request with a non-empty trimmed query, a non-empty resolved source
set and `ForceRefresh = false` whose cache key has no live entry, `Search`
returns no error and `Metadata.Cached = false`; the same request repeated before
the TTL has elapsed returns `Metadata.Cached = true` and calls no source and no
summarizer. -/
theorem C1_second_search_is_cached (a : Aggregator) (std : Stdlib) (rd₁ rd₂ : Round)
    (ctx₁ ctx₂ : context.Context) (query : String) (opts : Options)
    (hq : strings.TrimSpace query ≠ "") (hp : a.selectProviders opts.Providers ≠ [])
    (hf : opts.ForceRefresh = false)
    (hnone : a.cache.Get rd₁.cacheGet (a.requestKey std query opts) = none)
    (httl : rd₂.cacheGet.ns < rd₁.cacheSet.ns + a.cache.ttl) :
    (a.Search std rd₁ ctx₁ query opts).err = none
    ∧ (a.Search std rd₁ ctx₁ query opts).resp.Metadata.Cached = false
    ∧ ((a.Search std rd₁ ctx₁ query opts).agg.Search std rd₂ ctx₂ query opts).err = none
    ∧ ((a.Search std rd₁ ctx₁ query opts).agg.Search std rd₂ ctx₂ query opts).resp.Metadata.Cached
        = true
    ∧ ((a.Search std rd₁ ctx₁ query opts).agg.Search std rd₂ ctx₂ query opts).events = [] := by
  have h2 := Search_after_fresh a std rd₁ rd₂ ctx₁ ctx₂ query query opts opts hq hp
    (Or.inr hnone) hq hp rfl hf httl
  rw [h2]
  rw [Search_fresh a std rd₁ ctx₁ query opts hq hp (Or.inr hnone)]
  exact ⟨rfl, rfl, rfl, rfl, rfl⟩

/-- The two situations in which `Search` returns an error. -/
theorem Search_err_iff (a : Aggregator) (std : Stdlib) (rd : Round) (ctx : context.Context)
    (query : String) (opts : Options) :
    (a.Search std rd ctx query opts).err ≠ none
      ↔ (strings.TrimSpace query = "" ∨ a.selectProviders opts.Providers = []) := by
  by_cases hq : strings.TrimSpace query = ""
  · rw [Search_empty_query a std rd ctx query opts hq]
    simp [hq]
  · by_cases hp : a.selectProviders opts.Providers = []
    · rw [Search_no_providers a std rd ctx query opts hq hp]
      simp [hp]
    · have hright : ¬ (strings.TrimSpace query = "" ∨ a.selectProviders opts.Providers = []) := by
        rintro (h | h)
        · exact hq h
        · exact hp h
      cases hf : opts.ForceRefresh
      · cases hget : a.cache.Get rd.cacheGet (a.requestKey std query opts) with
        | none =>
          rw [Search_fresh a std rd ctx query opts hq hp (Or.inr hget)]
          simp [searchFresh_err, hright]
        | some resp =>
          rw [Search_hit a std rd ctx query opts hq hp hf resp hget]
          simp [hright]
      · rw [Search_fresh a std rd ctx query opts hq hp (Or.inl hf)]
        simp [searchFresh_err, hright]

/-- C5. `Search` returns an error exactly when the query is empty after trimming
or the resolved source set is empty, whatever the sources and the summarizer
answer. -/
theorem C5_error_iff (a : Aggregator) (std : Stdlib) (rd : Round) (ctx : context.Context)
    (query : String) (opts : Options) :
    (a.Search std rd ctx query opts).err ≠ none
      ↔ (strings.TrimSpace query = "" ∨ a.selectProviders opts.Providers = []) := by
  constructor
  · intro herr
    by_contra hno
    have hq : strings.TrimSpace query ≠ "" := fun h => hno (Or.inl h)
    have hp : a.selectProviders opts.Providers ≠ [] := fun h => hno (Or.inr h)
    by_cases hmiss : a.missesCache std rd query opts
    · rw [Search_fresh a std rd ctx query opts hq hp hmiss] at herr
      exact herr rfl
    · have hf : opts.ForceRefresh = false := by
        cases h : opts.ForceRefresh
        · rfl
        · exact absurd (Or.inl h) hmiss
      cases hget : a.cache.Get rd.cacheGet (a.requestKey std query opts) with
      | none => exact hmiss (Or.inr hget)
      | some resp =>
        rw [Search_hit a std rd ctx query opts hq hp hf resp hget] at herr
        exact herr rfl
  · rintro (hq | hp)
    · rw [Search_empty_query a std rd ctx query opts hq]
      simp
    · by_cases hq : strings.TrimSpace query = ""
      · rw [Search_empty_query a std rd ctx query opts hq]
        simp
      · rw [Search_no_providers a std rd ctx query opts hq hp]
        simp

/-- C6. Whenever `Search` returns an error the aggregator is unchanged (same
source map, cache, history and settings) and no source and no summarizer has
been called. -/
theorem C6_error_no_side_effect (a : Aggregator) (std : Stdlib) (rd : Round)
    (ctx : context.Context) (query : String) (opts : Options)
    (herr : (a.Search std rd ctx query opts).err ≠ none) :
    (a.Search std rd ctx query opts).agg = a
    ∧ (a.Search std rd ctx query opts).events = []
    ∧ (a.Search std rd ctx query opts).agg.History std 0 = a.History std 0 := by
  rcases (Search_err_iff a std rd ctx query opts).1 herr with hq | hp
  · rw [Search_empty_query a std rd ctx query opts hq]
    exact ⟨rfl, rfl, rfl⟩
  · by_cases hq : strings.TrimSpace query = ""
    · rw [Search_empty_query a std rd ctx query opts hq]
      exact ⟨rfl, rfl, rfl⟩
    · rw [Search_no_providers a std rd ctx query opts hq hp]
      exact ⟨rfl, rfl, rfl⟩


theorem mem_flatMap_dispatchEvents (a : Aggregator) (ctx : context.Context) (q : String)
    (limit : Int) (ps : List String) (name : String) (p : provider.Provider)
    (hmem : name ∈ ps) (hp : a.getProvider name = some p) :
    Event.providerSearch name p.Name ctx q { Limit := limit }
      ∈ ps.flatMap (a.dispatchEvents ctx q limit) := by
  rw [List.mem_flatMap]
  refine ⟨name, hmem, ?_⟩
  simp [Aggregator.dispatchEvents, hp]

theorem requestKey_forceRefresh (a : Aggregator) (std : Stdlib) (query : String) (opts : Options)
    (b : Bool) :
    a.requestKey std query { opts with ForceRefresh := b } = a.requestKey std query opts := rfl

theorem missesCache_of_forceRefresh (a : Aggregator) (std : Stdlib) (rd : Round) (query : String)
    (opts : Options) (hf : opts.ForceRefresh = true) : a.missesCache std rd query opts :=
  Or.inl hf

/-- The history log after a call of `Search`, by the path the call took. -/
theorem Search_history (a : Aggregator) (std : Stdlib) (rd : Round) (ctx : context.Context)
    (query : String) (opts : Options) (herr : (a.Search std rd ctx query opts).err = none) :
    ((a.Search std rd ctx query opts).resp.Metadata.Cached = true
        ∧ (a.Search std rd ctx query opts).agg.history = a.history)
    ∨ ((a.Search std rd ctx query opts).resp.Metadata.Cached = false
        ∧ ∃ names : List String, (a.Search std rd ctx query opts).agg.history
            = a.history.Add
              { Query := strings.TrimSpace query
                Providers := names
                Results := (a.Search std rd ctx query opts).resp.Results.length
                Took := (a.Search std rd ctx query opts).resp.Metadata.Took
                Time := (a.Search std rd ctx query opts).resp.Metadata.GeneratedAt }) := by
  have hne : ¬ (strings.TrimSpace query = "" ∨ a.selectProviders opts.Providers = []) := by
    intro h
    exact (Search_err_iff a std rd ctx query opts).2 h herr
  have hq : strings.TrimSpace query ≠ "" := fun h => hne (Or.inl h)
  have hp : a.selectProviders opts.Providers ≠ [] := fun h => hne (Or.inr h)
  by_cases hhit : opts.ForceRefresh = false
      ∧ ∃ resp, a.cache.Get rd.cacheGet (a.requestKey std query opts) = some resp
  · obtain ⟨hf, resp, hget⟩ := hhit
    left
    rw [Search_hit a std rd ctx query opts hq hp hf resp hget]
    exact ⟨rfl, rfl⟩
  · have hmiss : a.missesCache std rd query opts := by
      cases hf : opts.ForceRefresh
      · right
        cases hget : a.cache.Get rd.cacheGet (a.requestKey std query opts) with
        | none => rfl
        | some resp => exact absurd ⟨hf, resp, hget⟩ hhit
      · left; exact hf
    right
    rw [Search_fresh a std rd ctx query opts hq hp hmiss]
    exact ⟨rfl, _, searchFresh_history a std rd ctx _ _ _ opts⟩

theorem Add_length_of_lt (s : history.Store) (record : history.Record)
    (h : (s.records.length : Int) < s.limit) :
    (s.Add record).records.length = s.records.length + 1 := by
  unfold history.Store.Add
  simp only
  split
  · rename_i hgt
    simp only [List.length_cons, Nat.cast_add, Nat.cast_one] at hgt
    omega
  · simp

theorem History_length (std : Stdlib) (hstd : sort.SortContract std.sortSlice) (a : Aggregator) :
    (a.History std 0).length = a.history.records.length := by
  rw [Aggregator.History, history.List_zero]
  exact (hstd.1 _ _).length_eq

/-- C8, amended. A `Search` call that returns without error and was freshly
computed (`Metadata.Cached = false`) appends exactly one record, for the trimmed
query, to the history log, and while the capacity is not reached the length of
`History(0)` grows by exactly one; a call served from the cache
(`Metadata.Cached = true`) leaves the history log as it was. -/
theorem C8_history_on_fresh_runs (a : Aggregator) (std : Stdlib)
    (hstd : sort.SortContract std.sortSlice) (rd : Round) (ctx : context.Context)
    (query : String) (opts : Options) (herr : (a.Search std rd ctx query opts).err = none) :
    ((a.Search std rd ctx query opts).resp.Metadata.Cached = false →
        (∃ record : history.Record, record.Query = strings.TrimSpace query
          ∧ (a.Search std rd ctx query opts).agg.history = a.history.Add record)
        ∧ ((a.history.records.length : Int) < a.history.limit →
            ((a.Search std rd ctx query opts).agg.History std 0).length
              = (a.History std 0).length + 1))
    ∧ ((a.Search std rd ctx query opts).resp.Metadata.Cached = true →
        (a.Search std rd ctx query opts).agg.history = a.history
        ∧ (a.Search std rd ctx query opts).agg.History std 0 = a.History std 0) := by
  rcases Search_history a std rd ctx query opts herr with ⟨hc, hh⟩ | ⟨hc, names, hh⟩
  · constructor
    · intro hfalse
      rw [hc] at hfalse
      exact absurd hfalse (by decide)
    · intro _
      exact ⟨hh, by rw [Aggregator.History, hh]; rfl⟩
  · constructor
    · intro _
      refine ⟨⟨_, rfl, hh⟩, ?_⟩
      intro hcap
      rw [History_length std hstd, History_length std hstd, hh, Add_length_of_lt _ _ hcap]
    · intro htrue
      rw [hc] at htrue
      exact absurd htrue (by decide)

end aggregator

/-! ## Aggregation engine: merging -/

namespace aggregator

theorem foldl_collect (l : List resultEnvelope) (g : gathered) :
    l.foldl collect g
      = { aggregated := g.aggregated ++ l.flatMap resultEnvelope.items
          statuses := g.statuses ++ l.map resultEnvelope.status
          providerNames := g.providerNames ++ l.map (fun e => e.provider) } := by
  induction l generalizing g with
  | nil => simp
  | cons e es ih =>
    rw [List.foldl_cons, ih]
    cases he : e.err with
    | none => simp [collect, resultEnvelope.items, resultEnvelope.status, he]
    | some msg => simp [collect, resultEnvelope.items, resultEnvelope.status, he]

theorem gathered_aggregated_perm (arrival : List resultEnvelope → List resultEnvelope)
    (harr : IsArrival arrival) (sent : List resultEnvelope) :
    ((arrival sent).foldl collect {}).aggregated.Perm (sent.flatMap resultEnvelope.items) := by
  rw [foldl_collect]
  simpa using List.Perm.flatMap_right resultEnvelope.items (harr sent)

theorem gathered_statuses_perm (arrival : List resultEnvelope → List resultEnvelope)
    (harr : IsArrival arrival) (sent : List resultEnvelope) :
    ((arrival sent).foldl collect {}).statuses.Perm (sent.map resultEnvelope.status) := by
  rw [foldl_collect]
  simpa using List.Perm.map resultEnvelope.status (harr sent)

/-- C7. On every cache-miss `Search`, `Results` is a rearrangement of the
concatenation of the item sequences of the envelopes that carry no error, and no
element of `Results` has a `PublishedAt` after that of an element preceding it. -/
theorem C7_results_merged_sorted (a : Aggregator) (std : Stdlib)
    (hstd : sort.SortContract std.sortSlice) (rd : Round) (harr : IsArrival rd.arrival)
    (ctx : context.Context) (query : String) (opts : Options)
    (hq : strings.TrimSpace query ≠ "") (hp : a.selectProviders opts.Providers ≠ [])
    (hmiss : a.missesCache std rd query opts) :
    (a.Search std rd ctx query opts).resp.Results.Perm
        (((a.selectProviders opts.Providers).map
          (a.dispatch (a.callContext rd ctx) (strings.TrimSpace query) opts.effectiveLimit)).flatMap
            resultEnvelope.items)
    ∧ (a.Search std rd ctx query opts).resp.Results.Pairwise
        (fun earlier later => later.PublishedAt.After earlier.PublishedAt = false) := by
  rw [Search_fresh a std rd ctx query opts hq hp hmiss, searchFresh_results]
  constructor
  · exact (hstd.1 _ _).trans (gathered_aggregated_perm rd.arrival harr _)
  · exact hstd.2 _ _ (sort.after_strictWeak (fun r : model.Result => r.PublishedAt))

end aggregator

/-! ## Aggregation engine: one failing source, equivalent requests -/

namespace strings

end strings

namespace aggregator

theorem searchFresh_statuses (a : Aggregator) (std : Stdlib) (rd : Round) (ctx : context.Context)
    (q : String) (ps : List String) (key : String) (opts : Options)
    (hsum : (a.summarizer.Summarize (a.callContext rd ctx) q
      (a.searchFresh std rd ctx q ps key opts).resp.Results).2 = none) :
    (a.searchFresh std rd ctx q ps key opts).resp.Metadata.ProviderStatuses
      = ((rd.arrival (ps.map (a.dispatch (a.callContext rd ctx) q opts.effectiveLimit))).foldl
            collect {}).statuses := by
  have hsum' := hsum
  simp only [Aggregator.searchFresh, Aggregator.callContext, Options.effectiveLimit] at hsum' ⊢
  rw [hsum']

/-- C4. A cache-miss `Search` over exactly two sources, one that fails with the
text `e` and one that returns `xs`, with a summarizer that succeeds: no error is
returned, `Results` is a rearrangement of `xs`, and `ProviderStatuses` has
exactly two entries, one naming the succeeding source with `Count = len(xs)` and
no error text, one naming the failing source with `Count = 0` and the text `e`. -/
theorem C4_one_of_two_sources_fails (a : Aggregator) (std : Stdlib)
    (hstd : sort.SortContract std.sortSlice) (rd : Round) (harr : IsArrival rd.arrival)
    (ctx : context.Context) (query : String) (opts : Options)
    (kf ks : String) (pf ps : provider.Provider) (e : String) (xs : List model.Result)
    (hq : strings.TrimSpace query ≠ "")
    (hres : (a.selectProviders opts.Providers).Perm [kf, ks])
    (hmiss : a.missesCache std rd query opts)
    (hgf : a.getProvider kf = some pf) (hgs : a.getProvider ks = some ps)
    (hfail : (pf.Search (a.callContext rd ctx) (strings.TrimSpace query)
      { Limit := opts.effectiveLimit }).2 = some e)
    (hok : ps.Search (a.callContext rd ctx) (strings.TrimSpace query)
      { Limit := opts.effectiveLimit } = (xs, none))
    (hsum : ∀ items, (a.summarizer.Summarize (a.callContext rd ctx) (strings.TrimSpace query)
      items).2 = none) :
    (a.Search std rd ctx query opts).err = none
    ∧ (a.Search std rd ctx query opts).resp.Results.Perm xs
    ∧ (a.Search std rd ctx query opts).resp.Metadata.ProviderStatuses.Perm
        [{ Name := ps.Name, Count := xs.length }, { Name := pf.Name, Error := e }] := by
  have hp : a.selectProviders opts.Providers ≠ [] := by
    intro h
    rw [h] at hres
    exact absurd hres.length_eq (by simp)
  rw [Search_fresh a std rd ctx query opts hq hp hmiss]
  have hdf : a.dispatch (a.callContext rd ctx) (strings.TrimSpace query) opts.effectiveLimit kf
      = { provider := pf.Name
          results := (pf.Search (a.callContext rd ctx) (strings.TrimSpace query)
            { Limit := opts.effectiveLimit }).1
          err := some e } := by
    simp [Aggregator.dispatch, hgf, hfail]
  have hds : a.dispatch (a.callContext rd ctx) (strings.TrimSpace query) opts.effectiveLimit ks
      = { provider := ps.Name, results := xs, err := none } := by
    simp [Aggregator.dispatch, hgs, hok]
  have hsent := hres.map
    (a.dispatch (a.callContext rd ctx) (strings.TrimSpace query) opts.effectiveLimit)
  simp only [List.map_cons, List.map_nil, hdf, hds] at hsent
  refine ⟨rfl, ?_, ?_⟩
  · rw [searchFresh_results]
    refine (hstd.1 _ _).trans ((gathered_aggregated_perm rd.arrival harr _).trans ?_)
    refine (List.Perm.flatMap_right resultEnvelope.items hsent).trans ?_
    simp [resultEnvelope.items]
  · rw [searchFresh_statuses _ _ _ _ _ _ _ _ (hsum _)]
    refine (gathered_statuses_perm rd.arrival harr _).trans ?_
    refine (List.Perm.map resultEnvelope.status hsent).trans ?_
    simp only [List.map_cons, List.map_nil, resultEnvelope.status]
    exact List.Perm.swap _ _ _

end aggregator

/-! ## The concrete deployment -/

namespace aggregator

open scenario

/-- The scenario of `TestAggregatorSearchAndCache`: the first request is computed,
the same request one second later is served from the cache and calls nothing. -/
theorem C1_second_search_is_cached_witness :
    first.err = none ∧ first.resp.Metadata.Cached = false
    ∧ second.err = none ∧ second.resp.Metadata.Cached = true ∧ second.events = [] :=
  C1_second_search_is_cached agg goStdlib (roundAt base) (roundAt (base.Add time.Second))
    context.Background context.Background "ops" { Limit := 3 }
    (by decide) (by decide) rfl (by decide) (by decide)

/-- A white-space query and a request naming only an unknown source both fail
and leave the aggregator as it was. -/
theorem C6_error_no_side_effect_witness :
    (agg.Search goStdlib (roundAt base) context.Background " \t " {}).err
        = some "query is required"
    ∧ (agg.Search goStdlib (roundAt base) context.Background " \t " {}).agg = agg
    ∧ (agg.Search goStdlib (roundAt base) context.Background " \t " {}).events = []
    ∧ (agg.Search goStdlib (roundAt base) context.Background "ops" { Providers := ["Z"] }).err
        = some "no providers configured"
    ∧ (agg.Search goStdlib (roundAt base) context.Background "ops" { Providers := ["Z"] }).agg
        = agg :=
  ⟨by decide,
   (C6_error_no_side_effect agg goStdlib (roundAt base) context.Background " \t " {}
      (by decide)).1,
   (C6_error_no_side_effect agg goStdlib (roundAt base) context.Background " \t " {}
      (by decide)).2.1,
   by decide,
   (C6_error_no_side_effect agg goStdlib (roundAt base) context.Background "ops"
      { Providers := ["Z"] } (by decide)).1⟩

/-- C8 as stated fails: the second request of the scenario returns without error
and is served from the cache, the history capacity is not reached, and yet the
length of `History(0)` is the same before and after the call. -/
theorem C8_counterexample :
    second.err = none ∧ second.resp.Metadata.Cached = true
    ∧ (first.agg.history.records.length : Int) < first.agg.history.limit
    ∧ (first.agg.History goStdlib 0).length = 1
    ∧ (second.agg.History goStdlib 0).length = 1
    ∧ ¬ ((second.agg.History goStdlib 0).length = (first.agg.History goStdlib 0).length + 1) := by
  decide


/-- Source `B` answers one item and source `C` fails with the text `down`. -/
theorem C4_one_of_two_sources_fails_witness :
    (aggBC.Search goStdlib (roundRev base) context.Background "ops" {}).err = none
    ∧ (aggBC.Search goStdlib (roundRev base) context.Background "ops" {}).resp.Results.Perm
        [itemB2]
    ∧ (aggBC.Search goStdlib (roundRev base) context.Background "ops"
        {}).resp.Metadata.ProviderStatuses.Perm
        [{ Name := "B", Count := 1 }, { Name := "C", Error := "down" }] :=
  C4_one_of_two_sources_fails aggBC goStdlib sort.goStdlib_sortContract (roundRev base)
    (fun l => List.reverse_perm l) context.Background "ops" {} "C" "B" sourceDown sourceB "down"
    [itemB2] (by decide) (by decide) (Or.inr (by decide)) rfl rfl rfl rfl (fun _ => rfl)

/-- Source `A` returns items at `t-1h` and `t-3h`, source `B` one item at `t-2h`:
the merged sequence is `A@t-1h, B@t-2h, A@t-3h` in either completion order. -/
theorem C7_results_merged_sorted_witness :
    (agg.Search goStdlib (roundRev base) context.Background "ops" {}).resp.Results
        = [itemA1, itemB2, itemA3]
    ∧ (agg.Search goStdlib (roundAt base) context.Background "ops" {}).resp.Results
        = [itemA1, itemB2, itemA3]
    ∧ (agg.Search goStdlib (roundRev base) context.Background "ops" {}).resp.Results.Pairwise
        (fun earlier later => later.PublishedAt.After earlier.PublishedAt = false) :=
  ⟨by decide, by decide,
   (C7_results_merged_sorted agg goStdlib sort.goStdlib_sortContract (roundRev base)
      (fun l => List.reverse_perm l) context.Background "ops" {} (by decide) (by decide)
      (Or.inr (by decide))).2⟩

/-- The first request of the scenario adds one record to the history log; the
second, served from the cache, adds none. -/
theorem C8_history_on_fresh_runs_witness :
    (first.agg.History goStdlib 0).length = (agg.History goStdlib 0).length + 1
    ∧ second.agg.history = first.agg.history :=
  ⟨((C8_history_on_fresh_runs agg goStdlib sort.goStdlib_sortContract (roundAt base)
      context.Background "ops" { Limit := 3 } (by decide)).1 (by decide)).2 (by decide),
   ((C8_history_on_fresh_runs first.agg goStdlib sort.goStdlib_sortContract
      (roundAt (base.Add time.Second)) context.Background "ops" { Limit := 3 }
      (by decide)).2 (by decide)).1⟩

end aggregator

/-! ## Aggregation engine: responses served from the cache -/

namespace aggregator

open scenario

/-- The aggregator after a call of `Search` is the one before it, or the one the
fresh path leaves behind. -/
theorem Search_agg_cases (a : Aggregator) (std : Stdlib) (rd : Round) (ctx : context.Context)
    (query : String) (opts : Options) :
    (a.Search std rd ctx query opts).agg = a
    ∨ (a.Search std rd ctx query opts).agg
        = (a.searchFresh std rd ctx (strings.TrimSpace query)
            (a.selectProviders opts.Providers) (a.requestKey std query opts) opts).agg := by
  by_cases hq : strings.TrimSpace query = ""
  · left
    rw [Search_empty_query a std rd ctx query opts hq]
  · by_cases hp : a.selectProviders opts.Providers = []
    · left
      rw [Search_no_providers a std rd ctx query opts hq hp]
    · by_cases hmiss : a.missesCache std rd query opts
      · right
        rw [Search_fresh a std rd ctx query opts hq hp hmiss]
      · left
        have hf : opts.ForceRefresh = false := by
          cases h : opts.ForceRefresh
          · rfl
          · exact absurd (Or.inl h) hmiss
        cases hget : a.cache.Get rd.cacheGet (a.requestKey std query opts) with
        | none => exact absurd (Or.inr hget) hmiss
        | some resp => rw [Search_hit a std rd ctx query opts hq hp hf resp hget]

theorem StoresUncached_New (providers : Option ProviderMap) (summarizer : summary.Summarizer)
    (cfg : Config) : (New providers summarizer cfg).StoresUncached := by
  intro key entry h
  simp [New, cache.New] at h

theorem StoresUncached_step (std : Stdlib) (a : Aggregator) (h : a.StoresUncached) (c : Call) :
    (a.step std c).StoresUncached := by
  cases c with
  | register p => exact h
  | search rd ctx query opts =>
    rcases Search_agg_cases a std rd ctx query opts with e | e
    · simp only [Aggregator.step, e]
      exact h
    · simp only [Aggregator.step, e]
      intro key entry hk
      rw [searchFresh_cache] at hk
      simp only [cache.Cache.Set] at hk
      split at hk
      · cases hk
        rfl
      · exact h key entry hk

theorem StoresUncached_run (std : Stdlib) (a : Aggregator) (h : a.StoresUncached)
    (calls : List Call) : (a.run std calls).StoresUncached := by
  induction calls generalizing a with
  | nil => exact h
  | cons c cs ih => exact ih _ (StoresUncached_step std a h c)

theorem StoresUncached_of_Reachable {std : Stdlib} {a : Aggregator} (h : a.Reachable std) :
    a.StoresUncached := by
  obtain ⟨providers, summarizer, cfg, calls, rfl⟩ := h
  exact StoresUncached_run std _ (StoresUncached_New providers summarizer cfg) calls

theorem Get_uncached {a : Aggregator} (h : a.StoresUncached) (t : time.Time) (key : String)
    (v : Response) (hget : a.cache.Get t key = some v) : v.Metadata.Cached = false := by
  unfold cache.Cache.Get at hget
  split at hget
  · rename_i entry hentry
    split at hget
    · cases hget
      exact h key entry hentry
    · cases hget
  · cases hget

/-- C11. A `Search` served from the cache, on an aggregator built by `New` and
used through `Search` and `RegisterProvider`: the aggregator, and with it the
cache, is left as it was; the response is the stored one with
`Metadata.Cached` set to true and `Metadata.Took` recomputed, so `Query`,
`Results`, `Summary`, `GeneratedAt` and `ProviderStatuses` are those of the
stored entry; and every later `Get` of the key yields what it yielded before,
a response with `Metadata.Cached = false`. -/
theorem C11_cache_hit_frame (a : Aggregator) (std : Stdlib) (hreach : a.Reachable std)
    (rd : Round) (ctx : context.Context) (query : String) (opts : Options) (stored : Response)
    (hq : strings.TrimSpace query ≠ "") (hp : a.selectProviders opts.Providers ≠ [])
    (hf : opts.ForceRefresh = false)
    (hget : a.cache.Get rd.cacheGet (a.requestKey std query opts) = some stored) :
    (a.Search std rd ctx query opts).err = none
    ∧ (a.Search std rd ctx query opts).agg = a
    ∧ (a.Search std rd ctx query opts).resp
        = { stored with Metadata := { stored.Metadata with
              Cached := true, Took := time.Since rd.hitDone rd.start } }
    ∧ (a.Search std rd ctx query opts).resp.Query = stored.Query
    ∧ (a.Search std rd ctx query opts).resp.Results = stored.Results
    ∧ (a.Search std rd ctx query opts).resp.Summary = stored.Summary
    ∧ (a.Search std rd ctx query opts).resp.Metadata.GeneratedAt = stored.Metadata.GeneratedAt
    ∧ (a.Search std rd ctx query opts).resp.Metadata.ProviderStatuses
        = stored.Metadata.ProviderStatuses
    ∧ (a.Search std rd ctx query opts).resp.Metadata.Cached = true
    ∧ stored.Metadata.Cached = false
    ∧ (∀ (t : time.Time) (v : Response),
        (a.Search std rd ctx query opts).agg.cache.Get t (a.requestKey std query opts) = some v →
          a.cache.Get t (a.requestKey std query opts) = some v ∧ v.Metadata.Cached = false) := by
  have hinv := StoresUncached_of_Reachable hreach
  rw [Search_hit a std rd ctx query opts hq hp hf stored hget]
  refine ⟨rfl, rfl, rfl, rfl, rfl, rfl, rfl, rfl, rfl, ?_, ?_⟩
  · exact Get_uncached hinv _ _ _ hget
  · intro t v hv
    exact ⟨hv, Get_uncached hinv _ _ _ hv⟩

/-- The second request of the scenario is served the response of the first with
only `Cached` and `Took` altered, and the stored entry keeps `Cached = false`. -/
theorem C11_cache_hit_frame_witness :
    second.agg.cache.Get (base.Add time.Second) (first.agg.requestKey goStdlib "ops" { Limit := 3 })
        = some first.resp
    ∧ first.resp.Metadata.Cached = false
    ∧ second.resp.Metadata.Cached = true
    ∧ second.resp.Results = first.resp.Results
    ∧ second.resp.Metadata.GeneratedAt = first.resp.Metadata.GeneratedAt := by
  have h := C11_cache_hit_frame first.agg goStdlib
    ⟨some sourcesAB, summarizer, { CacheTTL := time.Minute },
      [Call.search (roundAt base) context.Background "ops" { Limit := 3 }], rfl⟩
    (roundAt (base.Add time.Second)) context.Background "ops" { Limit := 3 } first.resp
    (by decide) (by decide) rfl (by decide)
  exact ⟨by decide, h.2.2.2.2.2.2.2.2.2.1, h.2.2.2.2.2.2.2.2.1, h.2.2.2.2.1, h.2.2.2.2.2.2.1⟩

end aggregator

/-! ## Aggregation engine: a failing summarizer -/

namespace aggregator

open scenario

theorem searchFresh_summary (a : Aggregator) (std : Stdlib) (rd : Round) (ctx : context.Context)
    (q : String) (ps : List String) (key : String) (opts : Options) :
    (a.searchFresh std rd ctx q ps key opts).resp.Summary
      = (a.summarizer.Summarize (a.callContext rd ctx) q
          (a.searchFresh std rd ctx q ps key opts).resp.Results).1 := rfl

theorem searchFresh_statuses_failed (a : Aggregator) (std : Stdlib) (rd : Round)
    (ctx : context.Context) (q : String) (ps : List String) (key : String) (opts : Options)
    (e : String)
    (hsum : (a.summarizer.Summarize (a.callContext rd ctx) q
      (a.searchFresh std rd ctx q ps key opts).resp.Results).2 = some e) :
    (a.searchFresh std rd ctx q ps key opts).resp.Metadata.ProviderStatuses
      = (rd.arrival (ps.map (a.dispatch (a.callContext rd ctx) q opts.effectiveLimit))).map
          resultEnvelope.status ++ [{ Name := "summary", Error := e }] := by
  have hsum' := hsum
  simp only [Aggregator.searchFresh, Aggregator.callContext, Options.effectiveLimit] at hsum' ⊢
  rw [hsum', foldl_collect]
  simp

/-- C12, amended. If the summarizer returns an error with the text `e` during a
cache-miss `Search`, `Search` still returns a nil error; `ProviderStatuses` is
the per-source entries, in arrival order, followed by one entry named `summary`
that carries `e`; and the `Summary` of the response is the summary value the
summarizer returned together with its error, hence the zero value whenever the
summarizer returns the zero value. -/
theorem C12_summarizer_failure (a : Aggregator) (std : Stdlib) (rd : Round)
    (ctx : context.Context) (query : String) (opts : Options) (e : String)
    (hq : strings.TrimSpace query ≠ "") (hp : a.selectProviders opts.Providers ≠ [])
    (hmiss : a.missesCache std rd query opts)
    (hfail : (a.summarizer.Summarize (a.callContext rd ctx) (strings.TrimSpace query)
      (a.Search std rd ctx query opts).resp.Results).2 = some e) :
    (a.Search std rd ctx query opts).err = none
    ∧ (a.Search std rd ctx query opts).resp.Metadata.ProviderStatuses
        = (rd.arrival ((a.selectProviders opts.Providers).map
            (a.dispatch (a.callContext rd ctx) (strings.TrimSpace query)
              opts.effectiveLimit))).map resultEnvelope.status
          ++ [{ Name := "summary", Error := e }]
    ∧ (a.Search std rd ctx query opts).resp.Summary
        = (a.summarizer.Summarize (a.callContext rd ctx) (strings.TrimSpace query)
            (a.Search std rd ctx query opts).resp.Results).1
    ∧ ((a.summarizer.Summarize (a.callContext rd ctx) (strings.TrimSpace query)
            (a.Search std rd ctx query opts).resp.Results).1 = {} →
        (a.Search std rd ctx query opts).resp.Summary = {}) := by
  rw [Search_fresh a std rd ctx query opts hq hp hmiss] at hfail ⊢
  refine ⟨rfl, searchFresh_statuses_failed _ _ _ _ _ _ _ _ e hfail, searchFresh_summary _ _ _ _ _ _ _ _,
    ?_⟩
  intro hzero
  rw [searchFresh_summary, hzero]

/-- A summarizer that fails with `busy` while handing back a summary with its
`Query` set: the two source entries are followed by the `summary` entry, and the
summary of the response is the one handed back. -/
theorem C12_summarizer_failure_witness :
    (aggBusy.Search goStdlib (roundAt base) context.Background "ops" {}).err = none
    ∧ (aggBusy.Search goStdlib (roundAt base) context.Background "ops"
        {}).resp.Metadata.ProviderStatuses
        = [{ Name := "A", Count := 2 }, { Name := "B", Count := 1 },
           { Name := "summary", Error := "busy" }]
    ∧ (aggBusy.Search goStdlib (roundAt base) context.Background "ops" {}).resp.Summary
        = { Query := "ops" } := by
  have h := C12_summarizer_failure aggBusy goStdlib (roundAt base) context.Background "ops" {}
    "busy" (by decide) (by decide) (Or.inr (by decide)) rfl
  exact ⟨h.1, h.2.1.trans (by decide), h.2.2.1.trans (by decide)⟩

/-- C12 as stated fails: the summarizer of `aggBusy` returns an error during a
cache-miss `Search`, and the `Summary` of the response is not the zero value. -/
theorem C12_counterexample :
    (aggBusy.summarizer.Summarize
        (aggBusy.callContext (roundAt base) context.Background) "ops"
        (aggBusy.Search goStdlib (roundAt base) context.Background "ops" {}).resp.Results).2
      = some "busy"
    ∧ (aggBusy.Search goStdlib (roundAt base) context.Background "ops" {}).err = none
    ∧ (aggBusy.Search goStdlib (roundAt base) context.Background "ops" {}).resp.Metadata.Cached
        = false
    ∧ (aggBusy.Search goStdlib (roundAt base) context.Background "ops" {}).resp.Summary
        ≠ {} := by
  decide

end aggregator

/-! ## Aggregation engine: the calls made to the sources -/

namespace aggregator

open scenario

theorem sourceCalls_append (l₁ l₂ : List Event) :
    sourceCalls (l₁ ++ l₂) = sourceCalls l₁ ++ sourceCalls l₂ := by
  simp [sourceCalls]

theorem sourceCalls_flatMap_dispatchEvents (a : Aggregator) (ctx : context.Context) (q : String)
    (limit : Int) (ps : List String) :
    sourceCalls (ps.flatMap (a.dispatchEvents ctx q limit))
      = ps.flatMap (a.dispatchEvents ctx q limit) := by
  induction ps with
  | nil => rfl
  | cons n ns ih =>
    rw [List.flatMap_cons, sourceCalls_append, ih]
    congr 1
    unfold Aggregator.dispatchEvents
    cases a.getProvider n <;> simp [sourceCalls]

theorem searchFresh_sourceCalls (a : Aggregator) (std : Stdlib) (rd : Round)
    (ctx : context.Context) (q : String) (ps : List String) (key : String) (opts : Options) :
    sourceCalls (a.searchFresh std rd ctx q ps key opts).events
      = ps.flatMap (a.dispatchEvents (a.callContext rd ctx) q opts.effectiveLimit) := by
  rw [searchFresh_events, sourceCalls_append, sourceCalls_flatMap_dispatchEvents]
  simp [sourceCalls]

theorem count_flatMap_dispatchEvents (a : Aggregator) (ctx : context.Context) (q : String)
    (limit : Int) (ps : List String) (name : String) (p : provider.Provider)
    (hp : a.getProvider name = some p) :
    (ps.flatMap (a.dispatchEvents ctx q limit)).count
        (Event.providerSearch name p.Name ctx q { Limit := limit })
      = ps.count name := by
  induction ps with
  | nil => rfl
  | cons n ns ih =>
    rw [List.flatMap_cons, List.count_append, ih, List.count_cons]
    by_cases hn : n = name
    · subst hn
      simp [Aggregator.dispatchEvents, hp, Nat.add_comm]
    · have hne : (n == name) = false := by simpa using hn
      rw [hne]
      unfold Aggregator.dispatchEvents
      cases hg : a.getProvider n with
      | none => simp
      | some p' =>
        have : ¬ (name = n) := fun h => hn h.symm
        simp [List.count_cons, this]

theorem mem_flatMap_dispatchEvents_iff (a : Aggregator) (ctx : context.Context) (q : String)
    (limit : Int) (ps : List String) (e : Event) :
    e ∈ ps.flatMap (a.dispatchEvents ctx q limit)
      ↔ ∃ name ∈ ps, ∃ p, a.getProvider name = some p
          ∧ e = Event.providerSearch name p.Name ctx q { Limit := limit } := by
  rw [List.mem_flatMap]
  constructor
  · rintro ⟨name, hmem, he⟩
    refine ⟨name, hmem, ?_⟩
    unfold Aggregator.dispatchEvents at he
    cases hg : a.getProvider name with
    | none => simp [hg] at he
    | some p =>
      refine ⟨p, rfl, ?_⟩
      simpa [hg] using he
  · rintro ⟨name, hmem, p, hg, rfl⟩
    exact ⟨name, hmem, by simp [Aggregator.dispatchEvents, hg]⟩

theorem rangeNames_nodup (a : Aggregator) : a.rangeNames.Nodup := by
  unfold Aggregator.rangeNames
  cases a.providers with
  | none => exact List.nodup_nil
  | some m => exact m.keys_nodup

theorem selectProviders_nodup (a : Aggregator) (requested : List String)
    (h : (requested.map strings.TrimSpace).Nodup) : (a.selectProviders requested).Nodup := by
  unfold Aggregator.selectProviders
  split
  · exact (sort.Strings_perm _).nodup_iff.2 (rangeNames_nodup a)
  · exact (sort.Strings_perm _).nodup_iff.2 (h.filter _)

/-- C13, amended. On every cache-miss `Search` the source calls are exactly one
call per entry of the resolved name list that holds a source, each with the
trimmed query and with the limit `opts.Limit` when it is positive and 10
otherwise: a source is called as many times as its name occurs in the resolved
list, no call is made under a name outside that list, and when the requested
names are distinct after trimming (or none is requested) every resolved source
is called exactly once. -/
theorem C13_source_calls (a : Aggregator) (std : Stdlib) (rd : Round) (ctx : context.Context)
    (query : String) (opts : Options)
    (hq : strings.TrimSpace query ≠ "") (hp : a.selectProviders opts.Providers ≠ [])
    (hmiss : a.missesCache std rd query opts) :
    (∀ e, e ∈ sourceCalls (a.Search std rd ctx query opts).events ↔
        ∃ name ∈ a.selectProviders opts.Providers, ∃ p, a.getProvider name = some p
          ∧ e = Event.providerSearch name p.Name (a.callContext rd ctx)
                  (strings.TrimSpace query) { Limit := opts.effectiveLimit })
    ∧ (∀ name p, a.getProvider name = some p →
        (sourceCalls (a.Search std rd ctx query opts).events).count
            (Event.providerSearch name p.Name (a.callContext rd ctx) (strings.TrimSpace query)
              { Limit := opts.effectiveLimit })
          = (a.selectProviders opts.Providers).count name)
    ∧ ((opts.Providers.map strings.TrimSpace).Nodup →
        ∀ name ∈ a.selectProviders opts.Providers, ∀ p, a.getProvider name = some p →
          (sourceCalls (a.Search std rd ctx query opts).events).count
              (Event.providerSearch name p.Name (a.callContext rd ctx) (strings.TrimSpace query)
                { Limit := opts.effectiveLimit }) = 1)
    ∧ opts.effectiveLimit = (if 0 < opts.Limit then opts.Limit else 10) := by
  rw [Search_fresh a std rd ctx query opts hq hp hmiss, searchFresh_sourceCalls]
  refine ⟨?_, ?_, ?_, ?_⟩
  · intro e
    exact mem_flatMap_dispatchEvents_iff a _ _ _ _ e
  · intro name p hg
    exact count_flatMap_dispatchEvents a _ _ _ _ name p hg
  · intro hnodup name hmem p hg
    rw [count_flatMap_dispatchEvents a _ _ _ _ name p hg]
    exact List.count_eq_one_of_mem (selectProviders_nodup a _ hnodup) hmem
  · unfold Options.effectiveLimit
    by_cases h : opts.Limit ≤ 0
    · simp [h, not_lt.2 h]
    · simp [h, not_le.1 h]

/-- A request for `B` and `A` with limit 0: each of the two sources is called
once, with the trimmed query and the limit 10. -/
theorem C13_source_calls_witness :
    sourceCalls (agg.Search goStdlib (roundAt base) context.Background " ops "
        { Providers := ["B", "A"] }).events
      = [Event.providerSearch "A" "A" (agg.callContext (roundAt base) context.Background) "ops"
           { Limit := 10 },
         Event.providerSearch "B" "B" (agg.callContext (roundAt base) context.Background) "ops"
           { Limit := 10 }]
    ∧ (sourceCalls (agg.Search goStdlib (roundAt base) context.Background " ops "
        { Providers := ["B", "A"] }).events).count
          (Event.providerSearch "A" sourceA.Name
            (agg.callContext (roundAt base) context.Background) (strings.TrimSpace " ops ")
            { Limit := ({ Providers := ["B", "A"] } : Options).effectiveLimit }) = 1 := by
  have h := C13_source_calls agg goStdlib (roundAt base) context.Background " ops "
    { Providers := ["B", "A"] } (by decide) (by decide) (Or.inr (by decide))
  exact ⟨by decide, h.2.2.1 (by decide) "A" (by decide) sourceA rfl⟩

/-- C13 as stated fails: a cache-miss request that names source `A` twice
resolves to the list `A, A`, and the one source `A` is called twice. -/
theorem C13_counterexample :
    agg.selectProviders ["A", "A"] = ["A", "A"]
    ∧ agg.missesCache goStdlib (roundAt base) "ops" { Providers := ["A", "A"] }
    ∧ sourceCalls (agg.Search goStdlib (roundAt base) context.Background "ops"
        { Providers := ["A", "A"] }).events
      = [Event.providerSearch "A" "A" (agg.callContext (roundAt base) context.Background) "ops"
           { Limit := 10 },
         Event.providerSearch "A" "A" (agg.callContext (roundAt base) context.Background) "ops"
           { Limit := 10 }]
    ∧ (agg.Search goStdlib (roundAt base) context.Background "ops"
        { Providers := ["A", "A"] }).resp.Results = [itemA1, itemA1, itemA3, itemA3] :=
  ⟨by decide, Or.inr (by decide), by decide, by decide⟩

end aggregator

/-! ## Aggregation engine: what the cache key depends on -/

namespace aggregator

open scenario

/-- C14, amended. Two requests with the same lower-cased trimmed query text,
resolved source name lists that are rearrangements of each other (the same
names with the same multiplicities) and the same `Limit` value have the same
cache key, whatever the order or spelling of their inputs. -/
theorem C14_cache_key_deterministic (a : Aggregator) (std : Stdlib) (q₁ q₂ : String)
    (o₁ o₂ : Options)
    (hq : strings.ToLower std.unicodeToLower (strings.TrimSpace q₁)
      = strings.ToLower std.unicodeToLower (strings.TrimSpace q₂))
    (hres : (a.selectProviders o₁.Providers).Perm (a.selectProviders o₂.Providers))
    (hlim : o₁.Limit = o₂.Limit) :
    a.buildCacheKey std (strings.TrimSpace q₁) (a.selectProviders o₁.Providers) o₁.Limit
      = a.buildCacheKey std (strings.TrimSpace q₂) (a.selectProviders o₂.Providers) o₂.Limit := by
  unfold Aggregator.buildCacheKey
  rw [hq, sort.Strings_congr hres, hlim]

/-- Two spellings of one request, the names given in different orders and with
white space around one of them, have the key `ops|A,B|3`. -/
theorem C14_cache_key_deterministic_witness :
    agg.buildCacheKey goStdlib (strings.TrimSpace " OPS") (agg.selectProviders ["A", "B"]) 3
      = agg.buildCacheKey goStdlib (strings.TrimSpace "ops ") (agg.selectProviders [" B ", "A"]) 3
    ∧ agg.buildCacheKey goStdlib (strings.TrimSpace " OPS") (agg.selectProviders ["A", "B"]) 3
      = "ops|A,B|3" :=
  ⟨C14_cache_key_deterministic agg goStdlib " OPS" "ops " { Providers := ["A", "B"], Limit := 3 }
      { Providers := [" B ", "A"], Limit := 3 } (by decide) (by decide) rfl,
   by decide⟩

/-- C14 as stated fails twice. The requests for `A` and for `A, A` have the same
query, the same set of resolved names and the same limit, and different keys;
the requests with limit 0 and with limit 10 have the same query, the same
resolved names and the same effective limit 10, and different keys. -/
theorem C14_counterexample :
    ((∀ name, name ∈ agg.selectProviders ["A"] ↔ name ∈ agg.selectProviders ["A", "A"])
      ∧ agg.requestKey goStdlib "ops" { Providers := ["A"], Limit := 3 } = "ops|A|3"
      ∧ agg.requestKey goStdlib "ops" { Providers := ["A", "A"], Limit := 3 } = "ops|A,A|3")
    ∧ (({ Limit := 0 } : Options).effectiveLimit = ({ Limit := 10 } : Options).effectiveLimit
      ∧ agg.requestKey goStdlib "ops" { Limit := 0 } = "ops|A,B|0"
      ∧ agg.requestKey goStdlib "ops" { Limit := 10 } = "ops|A,B|10"
      ∧ agg.requestKey goStdlib "ops" { Limit := 0 }
          ≠ agg.requestKey goStdlib "ops" { Limit := 10 }) := by
  refine ⟨⟨?_, by decide, by decide⟩, by decide, by decide, by decide, by decide⟩
  intro name
  have h₁ : agg.selectProviders ["A"] = ["A"] := by decide
  have h₂ : agg.selectProviders ["A", "A"] = ["A", "A"] := by decide
  rw [h₁, h₂]
  simp

end aggregator

/-! ## Aggregation engine: completion order -/

namespace sort

/-- Two rearrangements of one list, both ordered latest first, are equal when no
two elements carry the same time stamp. -/
theorem sorted_after_unique {α : Type} (key : α → time.Time) {l₁ l₂ : List α}
    (hp : l₁.Perm l₂)
    (h₁ : l₁.Pairwise (fun x y => (key y).After (key x) = false))
    (h₂ : l₂.Pairwise (fun x y => (key y).After (key x) = false))
    (hnd : (l₁.map key).Nodup) : l₁ = l₂ := by
  have hnd₂ : (l₂.map key).Nodup := (hp.map key).nodup_iff.1 hnd
  have strict : ∀ l : List α, l.Pairwise (fun x y => (key y).After (key x) = false) →
      (l.map key).Nodup → l.Pairwise (fun x y => (key y).ns < (key x).ns) := by
    intro l hl hn
    have hne : l.Pairwise (fun x y => key x ≠ key y) := by
      rw [List.Nodup, List.pairwise_map] at hn
      exact hn
    refine (hl.and hne).imp ?_
    intro x y hxy
    obtain ⟨hle, hne⟩ := hxy
    simp only [time.Time.After, decide_eq_false_iff_not] at hle
    have hns : (key x).ns ≠ (key y).ns := by
      intro h
      apply hne
      cases hx : key x
      cases hy : key y
      rw [hx, hy] at h
      simp only at h
      rw [h]
    omega
  haveI : IsAntisymm α (fun x y => (key y).ns < (key x).ns) :=
    ⟨fun x y hxy hyx => absurd hxy (by omega)⟩
  exact List.eq_of_perm_of_sorted hp (strict l₁ h₁ hnd) (strict l₂ h₂ hnd₂)

end sort

namespace aggregator

open scenario

/-- C15, amended. For a fixed request and fixed per-source outcomes, the
`Results` sequences that a cache-miss `Search` returns under two completion
orders are rearrangements of each other, each ordered by `PublishedAt`
descending; they are the same sequence when the merged items carry pairwise
distinct `PublishedAt` values. -/
theorem C15_results_across_orders (a : Aggregator) (std : Stdlib)
    (hstd : sort.SortContract std.sortSlice) (rd : Round)
    (arrival₂ : List resultEnvelope → List resultEnvelope)
    (harr₁ : IsArrival rd.arrival) (harr₂ : IsArrival arrival₂)
    (ctx : context.Context) (query : String) (opts : Options)
    (hq : strings.TrimSpace query ≠ "") (hp : a.selectProviders opts.Providers ≠ [])
    (hmiss : a.missesCache std rd query opts) :
    (a.Search std rd ctx query opts).resp.Results.Perm
        (a.Search std { rd with arrival := arrival₂ } ctx query opts).resp.Results
    ∧ (a.Search std rd ctx query opts).resp.Results.Pairwise
        (fun earlier later => later.PublishedAt.After earlier.PublishedAt = false)
    ∧ (a.Search std { rd with arrival := arrival₂ } ctx query opts).resp.Results.Pairwise
        (fun earlier later => later.PublishedAt.After earlier.PublishedAt = false)
    ∧ (((a.freshItems rd ctx query opts).map (fun r => r.PublishedAt)).Nodup →
        (a.Search std rd ctx query opts).resp.Results
          = (a.Search std { rd with arrival := arrival₂ } ctx query opts).resp.Results) := by
  have hmiss₂ : a.missesCache std { rd with arrival := arrival₂ } query opts := hmiss
  rw [Search_fresh a std rd ctx query opts hq hp hmiss,
    Search_fresh a std { rd with arrival := arrival₂ } ctx query opts hq hp hmiss₂,
    searchFresh_results, searchFresh_results]
  have p₁ := (hstd.1 (fun x y : model.Result => x.PublishedAt.After y.PublishedAt) _).trans
    (gathered_aggregated_perm rd.arrival harr₁
      ((a.selectProviders opts.Providers).map
        (a.dispatch (a.callContext rd ctx) (strings.TrimSpace query) opts.effectiveLimit)))
  have p₂ := (hstd.1 (fun x y : model.Result => x.PublishedAt.After y.PublishedAt) _).trans
    (gathered_aggregated_perm arrival₂ harr₂
      ((a.selectProviders opts.Providers).map
        (a.dispatch (a.callContext rd ctx) (strings.TrimSpace query) opts.effectiveLimit)))
  have s₁ := hstd.2 (fun x y : model.Result => x.PublishedAt.After y.PublishedAt)
    ((rd.arrival ((a.selectProviders opts.Providers).map
      (a.dispatch (a.callContext rd ctx) (strings.TrimSpace query) opts.effectiveLimit))).foldl
        collect {}).aggregated (sort.after_strictWeak (fun r : model.Result => r.PublishedAt))
  have s₂ := hstd.2 (fun x y : model.Result => x.PublishedAt.After y.PublishedAt)
    ((arrival₂ ((a.selectProviders opts.Providers).map
      (a.dispatch (a.callContext rd ctx) (strings.TrimSpace query) opts.effectiveLimit))).foldl
        collect {}).aggregated (sort.after_strictWeak (fun r : model.Result => r.PublishedAt))
  refine ⟨p₁.trans p₂.symm, s₁, s₂, ?_⟩
  intro hnd
  refine sort.sorted_after_unique (fun r : model.Result => r.PublishedAt) (p₁.trans p₂.symm)
    s₁ s₂ ?_
  exact ((p₁.map _).nodup_iff).2 hnd

/-- Sources `A` and `B` of the scenario publish at three distinct instants: the
merged sequence is the same whether `A` or `B` completes first. -/
theorem C15_results_across_orders_witness :
    (agg.Search goStdlib (roundAt base) context.Background "ops" {}).resp.Results
      = (agg.Search goStdlib { roundAt base with arrival := List.reverse } context.Background
          "ops" {}).resp.Results :=
  (C15_results_across_orders agg goStdlib sort.goStdlib_sortContract (roundAt base) List.reverse
    (fun l => List.Perm.refl l) (fun l => List.reverse_perm l) context.Background "ops" {}
    (by decide) (by decide) (Or.inr (by decide))).2.2.2 (by decide)

/-- C15 as stated fails: source `A` answers `itemA1` and source `B` answers
`itemB1`, both published at the same instant; when `A` completes first the
merged sequence starts with `itemA1`, when `B` completes first it starts with
`itemB1`. -/
theorem C15_counterexample :
    (aggTie.Search goStdlib (roundAt base) context.Background "ops" {}).resp.Results
      = [itemA1, itemB1, itemA3]
    ∧ (aggTie.Search goStdlib (roundRev base) context.Background "ops" {}).resp.Results
      = [itemB1, itemA1, itemA3]
    ∧ (aggTie.Search goStdlib (roundAt base) context.Background "ops" {}).resp.Results
      ≠ (aggTie.Search goStdlib (roundRev base) context.Background "ops" {}).resp.Results := by
  decide

end aggregator

/-! ## Aggregation engine: resolving the source set -/

namespace aggregator

open scenario

theorem mem_rangeNames_iff (a : Aggregator) (name : String) :
    name ∈ a.rangeNames ↔ a.hasProvider name = true := by
  unfold Aggregator.rangeNames Aggregator.hasProvider
  cases a.providers with
  | none => simp
  | some m =>
    simp only
    rw [AList.lookup_isSome, AList.mem_keys]

theorem selectProviders_nil (a : Aggregator) :
    a.selectProviders [] = sort.Strings a.rangeNames := by
  simp [Aggregator.selectProviders]

theorem selectProviders_of_ne_nil (a : Aggregator) (requested : List String)
    (h : requested ≠ []) :
    a.selectProviders requested
      = sort.Strings ((requested.map strings.TrimSpace).filter (fun name => a.hasProvider name)) := by
  have hlen : requested.length ≠ 0 := by
    simpa [List.length_eq_zero] using h
  simp [Aggregator.selectProviders, hlen]

/-- C16. `selectProviders` returns, in lexicographic order: every registered
name when the requested list is empty; otherwise exactly the requested names,
trimmed, that are registered, the unknown ones being dropped. Every returned
name is registered, and the result is empty exactly when nothing is registered
or names are requested and none of them is registered. -/
theorem C16_selectProviders (a : Aggregator) (requested : List String) :
    (requested = [] → (a.selectProviders requested).Perm a.rangeNames)
    ∧ (requested ≠ [] → (a.selectProviders requested).Perm
        ((requested.map strings.TrimSpace).filter (fun name => a.hasProvider name)))
    ∧ (a.selectProviders requested).Pairwise (fun x y => sort.leChars x.data y.data = true)
    ∧ (∀ name ∈ a.selectProviders requested, a.hasProvider name = true)
    ∧ (a.selectProviders requested = [] ↔
        (a.rangeNames = [] ∨
          (requested ≠ [] ∧ ∀ name ∈ requested, a.hasProvider (strings.TrimSpace name) = false))) := by
  by_cases hreq : requested = []
  · subst hreq
    rw [selectProviders_nil]
    refine ⟨fun _ => sort.Strings_perm _, fun h => absurd rfl h, sort.Strings_pairwise _, ?_, ?_⟩
    · intro name hmem
      exact (mem_rangeNames_iff a name).1 ((sort.Strings_perm _).mem_iff.1 hmem)
    · rw [sort.Strings_eq_nil]
      constructor
      · intro h
        exact Or.inl h
      · rintro (h | ⟨h, _⟩)
        · exact h
        · exact absurd rfl h
  · rw [selectProviders_of_ne_nil a requested hreq]
    refine ⟨fun h => absurd h hreq, fun _ => sort.Strings_perm _, sort.Strings_pairwise _, ?_, ?_⟩
    · intro name hmem
      have := (sort.Strings_perm _).mem_iff.1 hmem
      exact (List.mem_filter.1 this).2
    · rw [sort.Strings_eq_nil, List.filter_eq_nil_iff]
      constructor
      · intro h
        right
        refine ⟨hreq, ?_⟩
        intro name hmem
        have := h (strings.TrimSpace name) (List.mem_map_of_mem _ hmem)
        simpa using this
      · rintro (h | ⟨_, h⟩)
        · intro name _ hhas
          have hmem := (mem_rangeNames_iff a name).2 hhas
          rw [h] at hmem
          exact absurd hmem (List.not_mem_nil _)
        · intro name hmem
          obtain ⟨raw, hraw, rfl⟩ := List.mem_map.1 hmem
          simp [h raw hraw]

/-- With `A` and `B` registered: no request gives `A, B`; a request for ` B `,
`Z` and `A` gives `A, B`; a request for `Z` alone gives nothing. -/
theorem C16_selectProviders_witness :
    agg.selectProviders [] = ["A", "B"]
    ∧ agg.selectProviders [" B ", "Z", "A"] = ["A", "B"]
    ∧ agg.selectProviders ["Z"] = [] :=
  ⟨by decide, by decide,
   (C16_selectProviders agg ["Z"]).2.2.2.2.2 (Or.inr ⟨by decide, by decide⟩)⟩

end aggregator

/-! ## History log: listing -/

namespace history

/-- C17. `List(limit)` on a store holding `n` records returns `limit` records
when `0 < limit <= n` and all `n` records otherwise; they are a rearrangement of
the first records of the store, which are the most recently added ones, and no
returned record carries a completion time after that of a record preceding it;
the store holds the same records after the call. For a store of capacity `c`
filled by `Add` calls the returned records are the latest `min(limit, c)`
added, or the latest `c` when `limit <= 0`. -/
theorem C17_history_list (std : Stdlib) (hstd : sort.SortContract std.sortSlice) (s : Store)
    (limit : Int) :
    ((0 < limit ∧ limit ≤ (s.records.length : Int) → (s.List std limit).length = limit.toNat)
      ∧ (limit ≤ 0 ∨ (s.records.length : Int) < limit →
          (s.List std limit).length = s.records.length))
    ∧ (s.List std limit).length = min (if 0 < limit then limit.toNat else s.records.length)
        s.records.length
    ∧ (s.List std limit).Perm
        (s.records.take (if 0 < limit then limit.toNat else s.records.length))
    ∧ (s.List std limit).Pairwise (fun earlier later => later.Time.After earlier.Time = false)
    ∧ (s.ListCall std limit).2 = s
    ∧ (s.ListCall std limit).1 = s.List std limit
    ∧ (∀ (c : Int) (recs : List Record), 0 < c → s = recs.foldl Store.Add (NewStore c) →
        (s.List std limit).Perm
          (recs.reverse.take (min (if 0 < limit then limit.toNat else c.toNat) c.toNat))) := by
  have hperm : (s.List std limit).Perm
      (s.records.take (if 0 < limit then limit.toNat else s.records.length)) := by
    unfold Store.List
    simp only
    refine (hstd.1 _ _).trans ?_
    by_cases h1 : limit ≤ 0
    · have h1' : ¬ 0 < limit := not_lt.2 h1
      simp [h1, h1']
    · have h1' : 0 < limit := not_le.1 h1
      by_cases h2 : limit > (s.records.length : Int)
      · have hge : s.records.length ≤ limit.toNat := by omega
        simp [h1', h2, List.take_of_length_le hge]
      · simp [h1, h1', h2]
  have hlen : (s.List std limit).length
      = min (if 0 < limit then limit.toNat else s.records.length) s.records.length := by
    rw [hperm.length_eq, List.length_take]
  refine ⟨⟨?_, ?_⟩, hlen, hperm, ?_, rfl, rfl, ?_⟩
  · rintro ⟨h1, h2⟩
    rw [hlen, if_pos h1]
    omega
  · rintro (h | h)
    · rw [hlen, if_neg (not_lt.2 h)]
      simp
    · rw [hlen]
      split <;> omega
  · unfold Store.List
    exact hstd.2 _ _ (sort.after_strictWeak (fun r : Record => r.Time))
  · intro c recs hc hs
    refine hperm.trans ?_
    have hrec : s.records = recs.reverse.take c.toNat := by
      rw [hs]
      exact NewStore_foldl_Add c hc recs
    rw [hrec, List.take_take]
    by_cases h1 : 0 < limit
    · simp only [h1, if_true]
      exact List.Perm.refl _
    · simp only [h1, if_false, List.length_take, List.length_reverse]
      have : min (min c.toNat recs.length) c.toNat = min c.toNat recs.length := by omega
      rw [this, min_self]
      have e : List.take (min c.toNat recs.length) recs.reverse = List.take c.toNat recs.reverse := by
        rw [List.take_eq_take]
        simp
      rw [e]

/-- A store of capacity 5 holding three records: `List(2)` returns the two added
last, the latest first; `List(0)` and `List(7)` return all three. -/
theorem C17_history_list_witness :
    ([⟨"a", [], 0, 0, ⟨1⟩⟩, ⟨"b", [], 0, 0, ⟨2⟩⟩, ⟨"c", [], 0, 0, ⟨3⟩⟩].foldl Store.Add
        (NewStore 5)).List goStdlib 2 = [⟨"c", [], 0, 0, ⟨3⟩⟩, ⟨"b", [], 0, 0, ⟨2⟩⟩]
    ∧ (([⟨"a", [], 0, 0, ⟨1⟩⟩, ⟨"b", [], 0, 0, ⟨2⟩⟩, ⟨"c", [], 0, 0, ⟨3⟩⟩].foldl Store.Add
        (NewStore 5)).List goStdlib 0).length = 3
    ∧ (([⟨"a", [], 0, 0, ⟨1⟩⟩, ⟨"b", [], 0, 0, ⟨2⟩⟩, ⟨"c", [], 0, 0, ⟨3⟩⟩].foldl Store.Add
        (NewStore 5)).List goStdlib 7).length = 3 := by
  have h := C17_history_list goStdlib sort.goStdlib_sortContract
    ([⟨"a", [], 0, 0, ⟨1⟩⟩, ⟨"b", [], 0, 0, ⟨2⟩⟩, ⟨"c", [], 0, 0, ⟨3⟩⟩].foldl Store.Add
      (NewStore 5))
  exact ⟨by decide, (h 0).1.2 (Or.inl (by decide)), (h 7).1.2 (Or.inr (by decide))⟩

end history

/-! ## Construction defaults and the source registry -/

namespace aggregator

open scenario

/-- C18. `aggregator.New` keeps a positive `CacheTTL`, `RequestTimeout` and
`HistorySize` and replaces a non-positive one by 3 minutes, 8 seconds and 50, so
the cache TTL, the timeout and the history capacity of the aggregator are
positive; `cache.New` replaces a non-positive TTL by 2 minutes and
`history.NewStore` a non-positive limit by 50. -/
theorem C18_positive_defaults (providers : Option ProviderMap) (summarizer : summary.Summarizer)
    (cfg : Config) (ttl : time.Duration) (limit : Int) :
    (New providers summarizer cfg).cache.ttl
        = (if 0 < cfg.CacheTTL then cfg.CacheTTL else 3 * time.Minute)
    ∧ (New providers summarizer cfg).timeout
        = (if 0 < cfg.RequestTimeout then cfg.RequestTimeout else 8 * time.Second)
    ∧ (New providers summarizer cfg).history.limit
        = (if 0 < cfg.HistorySize then cfg.HistorySize else 50)
    ∧ 0 < (New providers summarizer cfg).cache.ttl
    ∧ 0 < (New providers summarizer cfg).timeout
    ∧ 0 < (New providers summarizer cfg).history.limit
    ∧ (cache.New ttl : cache.Cache String Response).ttl
        = (if 0 < ttl then ttl else 2 * time.Minute)
    ∧ 0 < (cache.New ttl : cache.Cache String Response).ttl
    ∧ (history.NewStore limit).limit = (if 0 < limit then limit else 50)
    ∧ 0 < (history.NewStore limit).limit
    ∧ (3 * time.Minute = 180000000000 ∧ 8 * time.Second = 8000000000
        ∧ 2 * time.Minute = 120000000000) := by
  have hm : (0 : Int) < 3 * time.Minute := by decide
  have hs : (0 : Int) < 8 * time.Second := by decide
  have h2 : (0 : Int) < 2 * time.Minute := by decide
  have e1 : (New providers summarizer cfg).cache.ttl
      = (if 0 < cfg.CacheTTL then cfg.CacheTTL else 3 * time.Minute) := by
    by_cases h : cfg.CacheTTL ≤ 0
    · simp [New, cache.New, h, not_lt.2 h, not_le.2 hm]
    · simp [New, cache.New, h, not_le.1 h]
  have e2 : (New providers summarizer cfg).timeout
      = (if 0 < cfg.RequestTimeout then cfg.RequestTimeout else 8 * time.Second) := by
    by_cases h : cfg.RequestTimeout ≤ 0
    · simp [New, h, not_lt.2 h]
    · simp [New, h, not_le.1 h]
  have e3 : (New providers summarizer cfg).history.limit
      = (if 0 < cfg.HistorySize then cfg.HistorySize else 50) := by
    by_cases h : cfg.HistorySize ≤ 0
    · simp [New, history.NewStore, h, not_lt.2 h]
    · simp [New, history.NewStore, h, not_le.1 h]
  have e4 : (cache.New ttl : cache.Cache String Response).ttl
      = (if 0 < ttl then ttl else 2 * time.Minute) := by
    by_cases h : ttl ≤ 0
    · simp [cache.New, h, not_lt.2 h]
    · simp [cache.New, h, not_le.1 h]
  have e5 : (history.NewStore limit).limit = (if 0 < limit then limit else 50) := by
    by_cases h : limit ≤ 0
    · simp [history.NewStore, h, not_lt.2 h]
    · simp [history.NewStore, h, not_le.1 h]
  refine ⟨e1, e2, e3, ?_, ?_, ?_, e4, ?_, e5, ?_, by decide, by decide, by decide⟩
  · rw [e1]; split <;> assumption
  · rw [e2]; split <;> assumption
  · rw [e3]; split
    · assumption
    · decide
  · rw [e4]; split <;> assumption
  · rw [e5]; split
    · assumption
    · decide

theorem ProviderNames_strict (a : Aggregator) :
    a.ProviderNames.Pairwise (fun x y => sort.stringLess x y = true) := by
  have hs := sort.Strings_pairwise a.rangeNames
  have hn : (sort.Strings a.rangeNames).Nodup :=
    (sort.Strings_perm _).nodup_iff.2 (rangeNames_nodup a)
  unfold Aggregator.ProviderNames
  refine (hs.and hn).imp ?_
  intro x y hxy
  obtain ⟨hle, hne⟩ := hxy
  unfold sort.stringLess
  cases hyx : sort.leChars y.data x.data with
  | false => rfl
  | true => exact absurd (String.ext (sort.leChars_antisymm _ _ hle hyx)) hne

theorem lookup_Register_ne (a : Aggregator) (p : provider.Provider) (name : String)
    (hne : name ≠ p.Name) (m : ProviderMap) (hm : (a.RegisterProvider p).providers = some m) :
    m.lookup name = (match a.providers with
      | none => none
      | some m₀ => m₀.lookup name) := by
  unfold Aggregator.RegisterProvider at hm
  simp only [Option.some.injEq] at hm
  rw [← hm, AList.lookup_insert_ne hne]
  cases a.providers with
  | none => rfl
  | some m₀ => rfl

theorem getProvider_Register_ne (a : Aggregator) (p : provider.Provider) (name : String)
    (hne : name ≠ p.Name) : (a.RegisterProvider p).getProvider name = a.getProvider name := by
  have h := lookup_Register_ne a p name hne _ rfl
  unfold Aggregator.getProvider
  rw [show (a.RegisterProvider p).providers = some _ from rfl]
  simp only
  rw [h]
  cases a.providers <;> rfl

theorem hasProvider_Register_ne (a : Aggregator) (p : provider.Provider) (name : String)
    (hne : name ≠ p.Name) : (a.RegisterProvider p).hasProvider name = a.hasProvider name := by
  have h := lookup_Register_ne a p name hne _ rfl
  unfold Aggregator.hasProvider
  rw [show (a.RegisterProvider p).providers = some _ from rfl]
  simp only
  rw [h]
  cases a.providers <;> rfl

/-- C19. After `RegisterProvider(p)` the name `p.Name()` is registered and bound
to `p`, whatever was bound to it before, and every other name is bound as it
was; `ProviderNames()` lists the registered names, each once, in strictly
ascending order; on an aggregator whose source map is nil `RegisterProvider`
yields a map holding `p` alone. -/
theorem C19_registry (a : Aggregator) (p : provider.Provider) :
    (a.RegisterProvider p).getProvider p.Name = some p
    ∧ (a.RegisterProvider p).hasProvider p.Name = true
    ∧ (∀ name, name ≠ p.Name →
        (a.RegisterProvider p).getProvider name = a.getProvider name
        ∧ (a.RegisterProvider p).hasProvider name = a.hasProvider name)
    ∧ (∀ name, name ∈ a.ProviderNames ↔ a.hasProvider name = true)
    ∧ a.ProviderNames.Nodup
    ∧ a.ProviderNames.Pairwise (fun x y => sort.stringLess x y = true)
    ∧ (a.providers = none →
        (a.RegisterProvider p).ProviderNames = [p.Name]
        ∧ ∀ name, name ≠ p.Name → (a.RegisterProvider p).hasProvider name = false) := by
  refine ⟨?_, ?_, ?_, ?_, ?_, ProviderNames_strict a, ?_⟩
  · simp [Aggregator.RegisterProvider, Aggregator.getProvider]
  · simp [Aggregator.RegisterProvider, Aggregator.hasProvider]
  · intro name hne
    exact ⟨getProvider_Register_ne a p name hne, hasProvider_Register_ne a p name hne⟩
  · intro name
    unfold Aggregator.ProviderNames
    rw [(sort.Strings_perm _).mem_iff, mem_rangeNames_iff]
  · exact (sort.Strings_perm _).nodup_iff.2 (rangeNames_nodup a)
  · intro hnil
    constructor
    · simp [Aggregator.RegisterProvider, Aggregator.ProviderNames, Aggregator.rangeNames, hnil,
        sort.Strings, sort.insertionSortLessFunc, sort.insertLessFunc]
    · intro name hne
      rw [hasProvider_Register_ne a p name hne]
      simp [Aggregator.hasProvider, hnil]

/-- Registering `A` on an aggregator built with a nil source map gives the
names `A`; registering another source under the name `B` replaces the one
bound to `B` and keeps `A`. -/
theorem C19_registry_witness :
    ((New none summarizer {}).RegisterProvider sourceA).ProviderNames = ["A"]
    ∧ (agg.RegisterProvider sourceB1).getProvider sourceB1.Name = some sourceB1
    ∧ (agg.RegisterProvider sourceB1).ProviderNames = ["A", "B"] :=
  ⟨((C19_registry (New none summarizer {}) sourceA).2.2.2.2.2.2 rfl).1,
   (C19_registry agg sourceB1).1,
   by decide⟩

end aggregator

/-! ## The simple summarizer -/

namespace simple

open scenario

theorem increment_keys (m : List (String × Int)) (key : String) :
    (increment m key).map Prod.fst
      = if key ∈ m.map Prod.fst then m.map Prod.fst else m.map Prod.fst ++ [key] := by
  induction m with
  | nil => simp [increment]
  | cons kv rest ih =>
    obtain ⟨k, v⟩ := kv
    unfold increment
    by_cases hk : k = key
    · simp [hk]
    · have hk' : ¬ key = k := fun h => hk h.symm
      simp only [hk, if_false, List.map_cons, ih, List.mem_cons, hk', false_or]
      split <;> simp

theorem increment_nodup (m : List (String × Int)) (key : String)
    (h : (m.map Prod.fst).Nodup) : ((increment m key).map Prod.fst).Nodup := by
  rw [increment_keys]
  split
  · exact h
  · rename_i hmem
    exact List.Nodup.append h (List.nodup_singleton _) (by simpa using hmem)

theorem increment_sum (m : List (String × Int)) (key : String) :
    ((increment m key).map Prod.snd).sum = (m.map Prod.snd).sum + 1 := by
  induction m with
  | nil => simp [increment]
  | cons kv rest ih =>
    obtain ⟨k, v⟩ := kv
    unfold increment
    by_cases hk : k = key
    · simp [hk]
      omega
    · simp only [hk, if_false, List.map_cons, List.sum_cons, ih]
      omega

theorem mem_increment_ne (m : List (String × Int)) (key src : String) (n : Int)
    (hne : src ≠ key) : (src, n) ∈ increment m key ↔ (src, n) ∈ m := by
  induction m with
  | nil =>
    unfold increment
    simp [hne]
  | cons kv rest ih =>
    obtain ⟨k, v⟩ := kv
    unfold increment
    by_cases hk : k = key
    · have hsk : src ≠ k := fun h => hne (h.trans hk)
      simp [hk, hne]
    · simp [hk, ih]

theorem mem_increment_self (m : List (String × Int)) (key : String) (n : Int)
    (hnd : (m.map Prod.fst).Nodup) :
    (key, n) ∈ increment m key ↔ (key ∉ m.map Prod.fst ∧ n = 1) ∨ (key, n - 1) ∈ m := by
  induction m with
  | nil =>
    unfold increment
    simp
  | cons kv rest ih =>
    obtain ⟨k, v⟩ := kv
    rw [List.map_cons, List.nodup_cons] at hnd
    have ih := ih hnd.2
    unfold increment
    by_cases hk : k = key
    · subst hk
      have hnot : ∀ x : Int, (k, x) ∉ rest := fun x hx =>
        hnd.1 (List.mem_map.2 ⟨(k, x), hx, rfl⟩)
      rw [if_pos rfl]
      constructor
      · intro h
        rcases List.mem_cons.1 h with h | h
        · right
          have hv : n = v + 1 := (Prod.mk.inj h).2
          rw [hv]
          simp
        · exact absurd h (hnot n)
      · rintro (⟨h1, _⟩ | h)
        · exact absurd (List.mem_cons_self _ _) h1
        · rcases List.mem_cons.1 h with h | h
          · have hv : n - 1 = v := (Prod.mk.inj h).2
            have : n = v + 1 := by omega
            rw [this]
            exact List.mem_cons_self _ _
          · exact absurd h (hnot _)
    · rw [if_neg hk]
      have hk' : ¬ key = k := fun h => hk h.symm
      constructor
      · intro h
        rcases List.mem_cons.1 h with h | h
        · exact absurd (Prod.mk.inj h).1 hk'
        · rcases ih.1 h with ⟨h1, h2⟩ | h1
          · left
            refine ⟨?_, h2⟩
            intro hmem
            rcases List.mem_cons.1 hmem with e | e
            · exact hk' e
            · exact h1 e
          · right
            exact List.mem_cons_of_mem _ h1
      · rintro (⟨h1, h2⟩ | h)
        · refine List.mem_cons_of_mem _ (ih.2 (Or.inl ⟨?_, h2⟩))
          intro hmem
          exact h1 (List.mem_cons_of_mem _ hmem)
        · rcases List.mem_cons.1 h with h | h
          · exact absurd (Prod.mk.inj h).1 hk'
          · exact List.mem_cons_of_mem _ (ih.2 (Or.inr h))

/-- What the loop over `results` leaves in the map: distinct keys, and `src` is
bound to `n` exactly when `n` counts the items seen with that source. -/
theorem foldl_increment (results : List model.Result) (m : List (String × Int))
    (seen : List String) (hnd : (m.map Prod.fst).Nodup)
    (hm : ∀ src n, (src, n) ∈ m ↔ (src ∈ seen ∧ n = (seen.count src : Int))) :
    ((results.foldl (fun m r => increment m r.Source) m).map Prod.fst).Nodup
    ∧ ∀ src n, (src, n) ∈ results.foldl (fun m r => increment m r.Source) m ↔
        (src ∈ seen ++ results.map (fun r => r.Source)
          ∧ n = ((seen ++ results.map (fun r => r.Source)).count src : Int)) := by
  induction results generalizing m seen with
  | nil =>
    refine ⟨hnd, ?_⟩
    intro src n
    rw [List.map_nil, List.append_nil]
    exact hm src n
  | cons r rs ih =>
    rw [List.foldl_cons]
    have hkeys : r.Source ∈ m.map Prod.fst ↔ r.Source ∈ seen := by
      constructor
      · intro h
        obtain ⟨kv, hkv, hk⟩ := List.mem_map.1 h
        have : (r.Source, kv.2) ∈ m := by
          rw [← hk]
          exact hkv
        exact ((hm _ _).1 this).1
      · intro h
        exact List.mem_map.2 ⟨(r.Source, _), (hm r.Source _).2 ⟨h, rfl⟩, rfl⟩
    have step : ∀ src n, (src, n) ∈ increment m r.Source ↔
        (src ∈ seen ++ [r.Source] ∧ n = ((seen ++ [r.Source]).count src : Int)) := by
      intro src n
      by_cases hs : src = r.Source
      · rw [hs, mem_increment_self m _ n hnd, hkeys, hm]
        have hc : (seen ++ [r.Source]).count r.Source = seen.count r.Source + 1 := by
          simp [List.count_append]
        rw [hc]
        constructor
        · rintro (⟨h1, h2⟩ | ⟨_, h2⟩)
          · refine ⟨by simp, ?_⟩
            rw [h2, List.count_eq_zero_of_not_mem h1]
            simp
          · refine ⟨by simp, ?_⟩
            push_cast
            omega
        · rintro ⟨_, h⟩
          push_cast at h
          by_cases hmem : r.Source ∈ seen
          · right
            exact ⟨hmem, by omega⟩
          · left
            refine ⟨hmem, ?_⟩
            rw [h, List.count_eq_zero_of_not_mem hmem]
            simp
      · rw [mem_increment_ne m _ src n hs, hm]
        have hs' : ¬ r.Source = src := fun h => hs h.symm
        have hc : (seen ++ [r.Source]).count src = seen.count src := by
          simp [List.count_append, List.count_cons, hs']
        rw [hc]
        simp [hs]
    have key := ih (increment m r.Source) (seen ++ [r.Source]) (increment_nodup m _ hnd) step
    simpa [List.append_assoc] using key

theorem sourceCount_spec (results : List model.Result) :
    ((sourceCount results).map Prod.fst).Nodup
    ∧ ∀ src n, (src, n) ∈ sourceCount results ↔
        (src ∈ results.map (fun r => r.Source)
          ∧ n = (results.map (fun r => r.Source)).count src) := by
  have h := foldl_increment results [] [] List.nodup_nil (by simp)
  simpa [sourceCount] using h

theorem sourceCount_sum (results : List model.Result) :
    ((sourceCount results).map Prod.snd).sum = results.length := by
  have : ∀ (m : List (String × Int)),
      ((results.foldl (fun m r => increment m r.Source) m).map Prod.snd).sum
        = (m.map Prod.snd).sum + results.length := by
    induction results with
    | nil => intro m; simp
    | cons r rs ih =>
      intro m
      simp only [List.foldl_cons, ih, increment_sum, List.length_cons, Nat.cast_add, Nat.cast_one]
      omega
  simpa [sourceCount] using this []

theorem sourceCount_length (results : List model.Result) :
    (sourceCount results).length = (results.map (fun r => r.Source)).dedup.length := by
  obtain ⟨hnd, hmem⟩ := sourceCount_spec results
  have hperm : ((sourceCount results).map Prod.fst).Perm
      (results.map (fun r => r.Source)).dedup := by
    rw [List.perm_ext_iff_of_nodup hnd (List.nodup_dedup _)]
    intro src
    rw [List.mem_dedup]
    constructor
    · intro h
      obtain ⟨⟨k, v⟩, hkv, hk⟩ := List.mem_map.1 h
      simp only at hk
      subst hk
      exact ((hmem k v).1 hkv).1
    · intro h
      exact List.mem_map.2 ⟨(src, _), (hmem src _).2 ⟨h, rfl⟩, rfl⟩
  have := hperm.length_eq
  simpa using this

theorem buildHighlights_length (s : Summarizer) (results : List model.Result) :
    (s.buildHighlights results).length = min 3 results.length := by
  unfold Summarizer.buildHighlights
  simp only [List.length_map, List.length_take]
  split <;> omega

theorem Summarize_of_ne_nil (s : Summarizer) (std : Stdlib) (cat : unicode.Categories)
    (now : time.Time) (ctx : context.Context) (query : String) (results : List model.Result)
    (h : results ≠ []) :
    s.Summarize std cat now ctx query results
      = ({ Query := query
           Overview := s.buildOverview query results (s.buildHighlights results)
           Highlights := s.buildHighlights results
           Keywords := s.extractKeywords std cat results
           Sentiment := s.estimateSentiment std results
           SourceBreakdown := sourceCount results
           GeneratedAt := now }, none) := by
  have hlen : results.length ≠ 0 := by
    simpa [List.length_eq_zero] using h
  simp [Summarizer.Summarize, hlen]

/-- C20. The simple summarizer returns a nil error and a summary whose `Query`
is the query. For a non-empty item list `Highlights` has `min(3, len(items))`
entries, so at least one, and `SourceBreakdown` has distinct keys, binds a
source to `n` exactly when the source occurs in the items and `n` is the number
of items with that source, has as many entries as there are distinct sources,
and its values sum to `len(items)`. For an empty item list only `Query` and
`GeneratedAt` are set. -/
theorem C20_simple_summarize (s : Summarizer) (std : Stdlib) (cat : unicode.Categories)
    (now : time.Time) (ctx : context.Context) (query : String) (items : List model.Result) :
    (s.Summarize std cat now ctx query items).2 = none
    ∧ (s.Summarize std cat now ctx query items).1.Query = query
    ∧ (items ≠ [] →
        (s.Summarize std cat now ctx query items).1.Highlights.length = min 3 items.length
        ∧ (s.Summarize std cat now ctx query items).1.Highlights ≠ []
        ∧ ((s.Summarize std cat now ctx query items).1.SourceBreakdown.map Prod.fst).Nodup
        ∧ (∀ src n, (src, n) ∈ (s.Summarize std cat now ctx query items).1.SourceBreakdown ↔
            (src ∈ items.map (fun r => r.Source)
              ∧ n = ((items.map (fun r => r.Source)).count src : Int)))
        ∧ (s.Summarize std cat now ctx query items).1.SourceBreakdown.length
            = (items.map (fun r => r.Source)).dedup.length
        ∧ ((s.Summarize std cat now ctx query items).1.SourceBreakdown.map Prod.snd).sum
            = (items.length : Int))
    ∧ (items = [] →
        (s.Summarize std cat now ctx query items).1 = { Query := query, GeneratedAt := now }) := by
  by_cases h : items = []
  · subst h
    refine ⟨rfl, rfl, fun hne => absurd rfl hne, fun _ => rfl⟩
  · rw [Summarize_of_ne_nil s std cat now ctx query items h]
    refine ⟨rfl, rfl, fun _ => ⟨buildHighlights_length s items, ?_, (sourceCount_spec items).1,
      (sourceCount_spec items).2, sourceCount_length items, sourceCount_sum items⟩,
      fun he => absurd he h⟩
    intro hnil
    have hl := buildHighlights_length s items
    simp only at hnil
    rw [hnil] at hl
    have : 0 < items.length := List.length_pos.2 h
    simp at hl
    omega

/-- The scenario of `TestSummarizer`: two items, one from `zhihu` and one from
`wechat`, give the query back, two highlights and a breakdown of size 2. -/
theorem C20_simple_summarize_witness :
    (New.Summarize goStdlib unicode.asciiCategories base context.Background "growth"
        [itemZhihu, itemWechat]).2 = none
    ∧ (New.Summarize goStdlib unicode.asciiCategories base context.Background "growth"
        [itemZhihu, itemWechat]).1.Query = "growth"
    ∧ (New.Summarize goStdlib unicode.asciiCategories base context.Background "growth"
        [itemZhihu, itemWechat]).1.Highlights.length = 2
    ∧ (New.Summarize goStdlib unicode.asciiCategories base context.Background "growth"
        [itemZhihu, itemWechat]).1.SourceBreakdown = [("zhihu", 1), ("wechat", 1)]
    ∧ (New.Summarize goStdlib unicode.asciiCategories base context.Background "growth"
        [itemZhihu, itemWechat]).1.SourceBreakdown.length = 2 := by
  have h := C20_simple_summarize New goStdlib unicode.asciiCategories base context.Background
    "growth" [itemZhihu, itemWechat]
  exact ⟨h.1, h.2.1, (h.2.2.1 (by decide)).1, by decide,
    (h.2.2.1 (by decide)).2.2.2.2.1.trans (by decide)⟩

end simple

/-! ## Aggregation engine: outcome accounting -/

namespace aggregator

open scenario

theorem dispatch_provider (a : Aggregator) (ctx : context.Context) (q : String) (limit : Int)
    (name : String) : (a.dispatch ctx q limit name).provider = a.reportedName name := by
  unfold Aggregator.dispatch Aggregator.reportedName
  cases a.getProvider name <;> rfl

theorem status_Count (e : resultEnvelope) : e.status.Count = (e.items.length : Int) := by
  unfold resultEnvelope.status resultEnvelope.items
  cases e.err <;> rfl

theorem sum_status_Count (l : List resultEnvelope) :
    ((l.map resultEnvelope.status).map (fun s => s.Count)).sum
      = ((l.flatMap resultEnvelope.items).length : Int) := by
  induction l with
  | nil => rfl
  | cons e es ih =>
    simp only [List.map_cons, List.sum_cons, List.flatMap_cons, List.length_append, Nat.cast_add,
      ih, status_Count]

theorem sum_summaryStatus (err : Option String) :
    ((summaryStatus err).map (fun s => s.Count)).sum = 0 := by
  cases err <;> rfl

theorem searchFresh_statuses_eq (a : Aggregator) (std : Stdlib) (rd : Round)
    (ctx : context.Context) (q : String) (ps : List String) (key : String) (opts : Options) :
    (a.searchFresh std rd ctx q ps key opts).resp.Metadata.ProviderStatuses
      = (rd.arrival (ps.map (a.dispatch (a.callContext rd ctx) q opts.effectiveLimit))).map
          resultEnvelope.status
        ++ summaryStatus (a.summarizer.Summarize (a.callContext rd ctx) q
            (a.searchFresh std rd ctx q ps key opts).resp.Results).2 := by
  cases hs : (a.summarizer.Summarize (a.callContext rd ctx) q
      (a.searchFresh std rd ctx q ps key opts).resp.Results).2 with
  | none =>
    rw [searchFresh_statuses a std rd ctx q ps key opts hs, foldl_collect]
    simp [summaryStatus]
  | some e =>
    rw [searchFresh_statuses_failed a std rd ctx q ps key opts e hs]
    rfl

theorem perm_of_keyedByName (a : Aggregator) (h : a.KeyedByName) (ps : List String) :
    ps.map a.reportedName = ps := by
  induction ps with
  | nil => rfl
  | cons n ns ih =>
    rw [List.map_cons, ih]
    congr 1
    unfold Aggregator.reportedName
    cases hg : a.getProvider n with
    | none => rfl
    | some p => exact h n p hg

/-- C22, amended. On every cache-miss `Search`: `ProviderStatuses` is one entry
per entry of the resolved name list, in arrival order, followed by one entry
named `summary` exactly when the summarizer fails; the entry of a name is named
by the name its source reports (by the name itself when it is bound to no
source), has `Count = 0` and the error text when the call fails and `Count`
equal to the number of items returned when it succeeds; the `Count`s sum to
`len(Results)`; and the history record added by the call has the trimmed query,
`Results = len(Results)`, the `Took` and `GeneratedAt` of the response, and as
`Providers` a rearrangement of the reported names. When every source is bound
to the name it reports, the per-source entries are named by, and `Providers` is
a rearrangement of, the resolved source names. -/
theorem C22_outcome_accounting (a : Aggregator) (std : Stdlib)
    (hstd : sort.SortContract std.sortSlice) (rd : Round) (harr : IsArrival rd.arrival)
    (ctx : context.Context) (query : String) (opts : Options)
    (hq : strings.TrimSpace query ≠ "") (hp : a.selectProviders opts.Providers ≠ [])
    (hmiss : a.missesCache std rd query opts) :
    (∃ perSource : List ProviderStatus,
        (a.Search std rd ctx query opts).resp.Metadata.ProviderStatuses
          = perSource ++ summaryStatus (a.summarizer.Summarize (a.callContext rd ctx)
              (strings.TrimSpace query) (a.Search std rd ctx query opts).resp.Results).2
        ∧ perSource.Perm ((a.selectProviders opts.Providers).map (a.statusOf rd ctx query opts))
        ∧ perSource.length = (a.selectProviders opts.Providers).length
        ∧ (perSource.map (fun s => s.Name)).Perm
            ((a.selectProviders opts.Providers).map a.reportedName)
        ∧ (a.KeyedByName →
            (perSource.map (fun s => s.Name)).Perm (a.selectProviders opts.Providers)))
    ∧ (∀ name,
        (a.getProvider name = none →
          a.statusOf rd ctx query opts name
            = { Name := name, Count := 0, Error := "provider " ++ name ++ " not found" })
        ∧ (∀ p msg, a.getProvider name = some p →
            (p.Search (a.callContext rd ctx) (strings.TrimSpace query)
              { Limit := opts.effectiveLimit }).2 = some msg →
            a.statusOf rd ctx query opts name = { Name := p.Name, Count := 0, Error := msg })
        ∧ (∀ p, a.getProvider name = some p →
            (p.Search (a.callContext rd ctx) (strings.TrimSpace query)
              { Limit := opts.effectiveLimit }).2 = none →
            a.statusOf rd ctx query opts name
              = { Name := p.Name
                  Count := (p.Search (a.callContext rd ctx) (strings.TrimSpace query)
                    { Limit := opts.effectiveLimit }).1.length
                  Error := "" }))
    ∧ (((a.Search std rd ctx query opts).resp.Metadata.ProviderStatuses.map
          (fun s => s.Count)).sum
        = ((a.Search std rd ctx query opts).resp.Results.length : Int))
    ∧ (∃ names : List String,
        (a.Search std rd ctx query opts).agg.history
          = a.history.Add
              { Query := strings.TrimSpace query
                Providers := names
                Results := (a.Search std rd ctx query opts).resp.Results.length
                Took := (a.Search std rd ctx query opts).resp.Metadata.Took
                Time := (a.Search std rd ctx query opts).resp.Metadata.GeneratedAt }
        ∧ names.Perm ((a.selectProviders opts.Providers).map a.reportedName)
        ∧ (a.KeyedByName → names.Perm (a.selectProviders opts.Providers))) := by
  rw [Search_fresh a std rd ctx query opts hq hp hmiss]
  have hsent := harr ((a.selectProviders opts.Providers).map
    (a.dispatch (a.callContext rd ctx) (strings.TrimSpace query) opts.effectiveLimit))
  have hnames : ((rd.arrival ((a.selectProviders opts.Providers).map
      (a.dispatch (a.callContext rd ctx) (strings.TrimSpace query) opts.effectiveLimit))).map
        (fun e => e.provider)).Perm ((a.selectProviders opts.Providers).map a.reportedName) := by
    refine (hsent.map _).trans ?_
    rw [List.map_map]
    have : ((fun e : resultEnvelope => e.provider) ∘
        a.dispatch (a.callContext rd ctx) (strings.TrimSpace query) opts.effectiveLimit)
        = a.reportedName := by
      funext name
      exact dispatch_provider a _ _ _ name
    rw [this]
  have hstatusName : ∀ l : List resultEnvelope,
      (l.map resultEnvelope.status).map (fun s => s.Name) = l.map (fun e => e.provider) := by
    intro l
    rw [List.map_map]
    apply List.map_congr_left
    intro e _
    simp only [Function.comp, resultEnvelope.status]
    cases e.err <;> rfl
  refine ⟨⟨_, searchFresh_statuses_eq a std rd ctx _ _ _ opts, ?_, ?_, ?_, ?_⟩, ?_, ?_, ?_⟩
  · refine (hsent.map resultEnvelope.status).trans ?_
    rw [List.map_map]
    rfl
  · rw [List.length_map, hsent.length_eq, List.length_map]
  · rw [hstatusName]
    exact hnames
  · intro hkey
    rw [hstatusName]
    have := perm_of_keyedByName a hkey (a.selectProviders opts.Providers)
    rw [this] at hnames
    exact hnames
  · intro name
    refine ⟨?_, ?_, ?_⟩
    · intro hg
      simp [Aggregator.statusOf, Aggregator.dispatch, hg, resultEnvelope.status]
    · intro p msg hg hfail
      simp [Aggregator.statusOf, Aggregator.dispatch, hg, hfail, resultEnvelope.status]
    · intro p hg hok
      simp [Aggregator.statusOf, Aggregator.dispatch, hg, hok, resultEnvelope.status]
  · rw [searchFresh_statuses_eq, List.map_append, List.sum_append, sum_summaryStatus,
      sum_status_Count, searchFresh_results, add_zero]
    have h1 := (hstd.1 (fun x y : model.Result => x.PublishedAt.After y.PublishedAt)
      ((rd.arrival ((a.selectProviders opts.Providers).map
        (a.dispatch (a.callContext rd ctx) (strings.TrimSpace query)
          opts.effectiveLimit))).foldl collect {}).aggregated).length_eq
    rw [h1, foldl_collect]
    simp
  · refine ⟨_, searchFresh_history a std rd ctx _ _ _ opts, ?_, ?_⟩
    · rw [foldl_collect]
      simpa using hnames
    · intro hkey
      rw [foldl_collect]
      have := perm_of_keyedByName a hkey (a.selectProviders opts.Providers)
      rw [this] at hnames
      simpa using hnames

theorem agg_keyedByName : agg.KeyedByName := by
  intro key p h
  have hprov : agg.providers = some sourcesAB := rfl
  unfold Aggregator.getProvider at h
  rw [hprov] at h
  simp only [sourcesAB] at h
  by_cases hB : key = "B"
  · subst hB
    rw [AList.lookup_insert] at h
    have hp : sourceB = p := Option.some.inj h
    rw [← hp]
    rfl
  · rw [AList.lookup_insert_ne hB] at h
    by_cases hA : key = "A"
    · subst hA
      rw [AList.lookup_insert] at h
      have hp : sourceA = p := Option.some.inj h
      rw [← hp]
      rfl
    · rw [AList.lookup_insert_ne hA] at h
      simp at h

/-- Sources `A` and `B`, `B` completing first: the two entries count 1 and 2
items, the counts sum to the three results, and the history record names `B`
and `A`, a rearrangement of the resolved names. -/
theorem C22_outcome_accounting_witness :
    (agg.Search goStdlib (roundRev base) context.Background " ops " {}).resp.Metadata.ProviderStatuses
      = [{ Name := "B", Count := 1 }, { Name := "A", Count := 2 }]
    ∧ (((agg.Search goStdlib (roundRev base) context.Background " ops "
          {}).resp.Metadata.ProviderStatuses.map (fun s => s.Count)).sum
        = ((agg.Search goStdlib (roundRev base) context.Background " ops "
            {}).resp.Results.length : Int))
    ∧ (agg.Search goStdlib (roundRev base) context.Background " ops " {}).agg.history.records
        = [{ Query := "ops", Providers := ["B", "A"], Results := 3, Took := 0, Time := base }]
    ∧ (∃ names : List String,
        (agg.Search goStdlib (roundRev base) context.Background " ops " {}).agg.history
          = agg.history.Add
              { Query := strings.TrimSpace " ops "
                Providers := names
                Results := (agg.Search goStdlib (roundRev base) context.Background " ops "
                  {}).resp.Results.length
                Took := (agg.Search goStdlib (roundRev base) context.Background " ops "
                  {}).resp.Metadata.Took
                Time := (agg.Search goStdlib (roundRev base) context.Background " ops "
                  {}).resp.Metadata.GeneratedAt }
        ∧ names.Perm (agg.selectProviders ({} : Options).Providers)) := by
  have h := C22_outcome_accounting agg goStdlib sort.goStdlib_sortContract (roundRev base)
    (fun l => List.reverse_perm l) context.Background " ops " {} (by decide) (by decide)
    (Or.inr (by decide))
  obtain ⟨names, h1, _, h3⟩ := h.2.2.2
  exact ⟨by decide, h.2.2.1, by decide, names, h1, h3 agg_keyedByName⟩

/-- C22 as stated fails: the source map binds the key `x` to a source that
reports the name `A`; a cache-miss `Search` resolves the name `x`, its status
entry is named `A`, and the history record lists `A`, which is no
rearrangement of the resolved names. -/
theorem C22_counterexample :
    aggAlias.selectProviders [] = ["x"]
    ∧ (aggAlias.Search goStdlib (roundAt base) context.Background "ops" {}).err = none
    ∧ (aggAlias.Search goStdlib (roundAt base) context.Background "ops" {}).resp.Metadata.Cached
        = false
    ∧ (aggAlias.Search goStdlib (roundAt base) context.Background "ops"
        {}).resp.Metadata.ProviderStatuses = [{ Name := "A", Count := 2 }]
    ∧ (aggAlias.Search goStdlib (roundAt base) context.Background "ops" {}).agg.history.records
        = [{ Query := "ops", Providers := ["A"], Results := 2, Took := 0, Time := base }]
    ∧ ¬ (["A"].Perm (aggAlias.selectProviders [])) := by
  decide

end aggregator

/-! ## Lemmas: the format of the cache key -/

namespace strings

/-- Two texts that end at a separator, or at the end of the input, and hold no
separator themselves are equal when the inputs are. -/
theorem prefix_sep_inj {α : Type} (c : α) (a₁ a₂ r₁ r₂ : List α)
    (h : a₁ ++ r₁ = a₂ ++ r₂) (h₁ : c ∉ a₁) (h₂ : c ∉ a₂)
    (hr₁ : r₁ = [] ∨ ∃ t, r₁ = c :: t) (hr₂ : r₂ = [] ∨ ∃ t, r₂ = c :: t) :
    a₁ = a₂ ∧ r₁ = r₂ := by
  induction a₁ generalizing a₂ with
  | nil =>
    cases a₂ with
    | nil => exact ⟨rfl, by simpa using h⟩
    | cons y ys =>
      exfalso
      rw [List.nil_append] at h
      rcases hr₁ with e | ⟨t, e⟩
      · rw [e] at h
        exact List.noConfusion h
      · rw [e, List.cons_append] at h
        have hy : c = y := (List.cons.inj h).1
        exact h₂ (by rw [hy]; exact List.mem_cons_self _ _)
  | cons x xs ih =>
    cases a₂ with
    | nil =>
      exfalso
      rw [List.nil_append] at h
      rcases hr₂ with e | ⟨t, e⟩
      · rw [e] at h
        exact List.noConfusion h
      · rw [e, List.cons_append] at h
        have hx : x = c := (List.cons.inj h).1
        exact h₁ (by rw [hx]; exact List.mem_cons_self _ _)
    | cons y ys =>
      rw [List.cons_append, List.cons_append] at h
      obtain ⟨hxy, hrest⟩ := List.cons.inj h
      have := ih ys hrest (fun hm => h₁ (List.mem_cons_of_mem _ hm))
        (fun hm => h₂ (List.mem_cons_of_mem _ hm))
      exact ⟨by rw [hxy, this.1], this.2⟩

/-- The parts before and after the last separator are determined by the whole. -/
theorem suffix_sep_inj {α : Type} (c : α) (x₁ x₂ y₁ y₂ : List α)
    (h : x₁ ++ c :: y₁ = x₂ ++ c :: y₂) (h₁ : c ∉ y₁) (h₂ : c ∉ y₂) :
    x₁ = x₂ ∧ y₁ = y₂ := by
  have hrev := congrArg List.reverse h
  simp only [List.reverse_append, List.reverse_cons, List.append_assoc, List.singleton_append]
    at hrev
  have := prefix_sep_inj c y₁.reverse y₂.reverse (c :: x₁.reverse) (c :: x₂.reverse) hrev
    (by simpa using h₁) (by simpa using h₂) (Or.inr ⟨_, rfl⟩) (Or.inr ⟨_, rfl⟩)
  refine ⟨?_, ?_⟩
  · exact List.reverse_injective (List.cons.inj this.2).2
  · exact List.reverse_injective this.1

theorem intercalate_go_data (acc sep : String) (l : List String) :
    (String.intercalate.go acc sep l).data
      = acc.data ++ l.flatMap (fun a => sep.data ++ a.data) := by
  induction l generalizing acc with
  | nil => simp [String.intercalate.go]
  | cons a as ih =>
    simp only [String.intercalate.go, ih, String.data_append, List.flatMap_cons,
      List.append_assoc]

theorem tail_join_inj (l₁ l₂ : List String) (h₁ : ∀ s ∈ l₁, ',' ∉ s.data)
    (h₂ : ∀ s ∈ l₂, ',' ∉ s.data)
    (h : l₁.flatMap (fun a => ",".data ++ a.data) = l₂.flatMap (fun a => ",".data ++ a.data)) :
    l₁ = l₂ := by
  have hsep : ∀ l : List String, l.flatMap (fun a => ",".data ++ a.data) = []
      ∨ ∃ t, l.flatMap (fun a => ",".data ++ a.data) = ',' :: t := by
    intro l
    cases l with
    | nil => left; rfl
    | cons a as => right; exact ⟨_, rfl⟩
  induction l₁ generalizing l₂ with
  | nil =>
    cases l₂ with
    | nil => rfl
    | cons b bs => exact List.noConfusion h
  | cons a as ih =>
    cases l₂ with
    | nil => exact List.noConfusion h
    | cons b bs =>
      rw [List.flatMap_cons, List.flatMap_cons] at h
      have h' : a.data ++ as.flatMap (fun a => ",".data ++ a.data)
          = b.data ++ bs.flatMap (fun a => ",".data ++ a.data) := (List.cons.inj h).2
      have := prefix_sep_inj ',' _ _ _ _ h' (h₁ a (List.mem_cons_self _ _))
        (h₂ b (List.mem_cons_self _ _)) (hsep as) (hsep bs)
      rw [String.ext this.1, ih bs (fun s hs => h₁ s (List.mem_cons_of_mem _ hs))
        (fun s hs => h₂ s (List.mem_cons_of_mem _ hs)) this.2]

/-- Joining with `,` loses nothing on non-empty lists of names without a comma. -/
theorem Join_inj (l₁ l₂ : List String) (hne₁ : l₁ ≠ []) (hne₂ : l₂ ≠ [])
    (h₁ : ∀ s ∈ l₁, ',' ∉ s.data) (h₂ : ∀ s ∈ l₂, ',' ∉ s.data)
    (h : Join l₁ "," = Join l₂ ",") : l₁ = l₂ := by
  cases l₁ with
  | nil => exact absurd rfl hne₁
  | cons a as =>
    cases l₂ with
    | nil => exact absurd rfl hne₂
    | cons b bs =>
      have hd := congrArg String.data h
      simp only [Join, String.intercalate, intercalate_go_data] at hd
      have hsep : ∀ l : List String, l.flatMap (fun a => ",".data ++ a.data) = []
          ∨ ∃ t, l.flatMap (fun a => ",".data ++ a.data) = ',' :: t := by
        intro l
        cases l with
        | nil => left; rfl
        | cons a as => right; exact ⟨_, rfl⟩
      have := prefix_sep_inj ',' _ _ _ _ hd (h₁ a (List.mem_cons_self _ _))
        (h₂ b (List.mem_cons_self _ _)) (hsep as) (hsep bs)
      rw [String.ext this.1, tail_join_inj as bs (fun s hs => h₁ s (List.mem_cons_of_mem _ hs))
        (fun s hs => h₂ s (List.mem_cons_of_mem _ hs)) this.2]

theorem Join_no_bar (l : List String) (h : ∀ s ∈ l, '|' ∉ s.data) : '|' ∉ (Join l ",").data := by
  cases l with
  | nil => simp [Join, String.intercalate]
  | cons a as =>
    simp only [Join, String.intercalate, intercalate_go_data, List.mem_append, List.mem_flatMap,
      not_or, not_exists, not_and]
    refine ⟨h a (List.mem_cons_self _ _), ?_⟩
    intro s hs
    exact ⟨by decide, h s (List.mem_cons_of_mem _ hs)⟩

end strings

namespace strings

theorem digitChar_toNat (k : Nat) (h : k < 10) : (Nat.digitChar k).toNat = 48 + k := by
  have : ∀ k < 10, (Nat.digitChar k).toNat = 48 + k := by decide
  exact this k h

/-- Reading the digits of `toDigitsCore` from the left gives the number back. -/
theorem toDigitsCore_value (fuel n : Nat) (ds : List Char) (h : n < fuel) :
    (Nat.toDigitsCore 10 fuel n ds).foldl (fun acc c => acc * 10 + (c.toNat - 48)) 0
      = ds.foldl (fun acc c => acc * 10 + (c.toNat - 48)) n := by
  induction fuel generalizing n ds with
  | zero => exact absurd h (Nat.not_lt_zero _)
  | succ fuel ih =>
    unfold Nat.toDigitsCore
    simp only
    have hd : (Nat.digitChar (n % 10)).toNat - 48 = n % 10 := by
      rw [digitChar_toNat _ (Nat.mod_lt _ (by decide))]
      omega
    split
    · rename_i h0
      rw [List.foldl_cons, hd]
      have : n % 10 = n := by omega
      rw [Nat.zero_mul, Nat.zero_add, this]
    · rename_i h0
      have hlt : n / 10 < fuel := by omega
      rw [ih (n / 10) _ hlt, List.foldl_cons, hd]
      have : n / 10 * 10 + n % 10 = n := by omega
      rw [this]

theorem toDigitsCore_digit (fuel n : Nat) (ds : List Char) (c : Char)
    (h : c ∈ Nat.toDigitsCore 10 fuel n ds) : c ∈ ds ∨ (48 ≤ c.toNat ∧ c.toNat ≤ 57) := by
  induction fuel generalizing n ds with
  | zero => left; simpa [Nat.toDigitsCore] using h
  | succ fuel ih =>
    unfold Nat.toDigitsCore at h
    simp only at h
    have hd : ∀ c, c ∈ Nat.digitChar (n % 10) :: ds →
        c ∈ ds ∨ (48 ≤ c.toNat ∧ c.toNat ≤ 57) := by
      intro c hc
      rcases List.mem_cons.1 hc with e | e
      · right
        rw [e, digitChar_toNat _ (Nat.mod_lt _ (by decide))]
        have := Nat.mod_lt n (show 0 < 10 by decide)
        omega
      · left; exact e
    split at h
    · exact hd c h
    · rcases ih _ _ h with e | e
      · exact hd c e
      · right; exact e

theorem toDigits_inj (n m : Nat) (h : Nat.toDigits 10 n = Nat.toDigits 10 m) : n = m := by
  have hn := toDigitsCore_value (n + 1) n [] (Nat.lt_succ_self n)
  have hm := toDigitsCore_value (m + 1) m [] (Nat.lt_succ_self m)
  unfold Nat.toDigits at h
  rw [h, hm] at hn
  simpa using hn.symm

theorem toDigits_digit (n : Nat) (c : Char) (h : c ∈ Nat.toDigits 10 n) :
    48 ≤ c.toNat ∧ c.toNat ≤ 57 := by
  rcases toDigitsCore_digit _ _ _ c h with e | e
  · exact absurd e (List.not_mem_nil _)
  · exact e

theorem toString_int_data (n : Int) :
    (toString n).data = match n with
      | Int.ofNat m => Nat.toDigits 10 m
      | Int.negSucc m => '-' :: Nat.toDigits 10 (m + 1) := by
  cases n <;> rfl

/-- The decimal text of an integer holds no `|`. -/
theorem toString_int_no_bar (n : Int) : '|' ∉ (toString n).data := by
  rw [toString_int_data]
  cases n with
  | ofNat m =>
    intro h
    have := toDigits_digit m _ h
    exact absurd this.2 (by decide)
  | negSucc m =>
    intro h
    rcases List.mem_cons.1 h with e | e
    · exact absurd e (by decide)
    · have := toDigits_digit _ _ e
      exact absurd this.2 (by decide)

/-- Distinct integers have distinct decimal texts. -/
theorem toString_int_inj (n m : Int) (h : toString n = toString m) : n = m := by
  have hd := congrArg String.data h
  rw [toString_int_data, toString_int_data] at hd
  have hminus : ∀ k : Nat, '-' ∉ Nat.toDigits 10 k := by
    intro k hk
    have := toDigits_digit k _ hk
    exact absurd this.1 (by decide)
  cases n with
  | ofNat a =>
    cases m with
    | ofNat b =>
      simp only at hd
      rw [toDigits_inj a b hd]
    | negSucc b =>
      simp only at hd
      exfalso
      apply hminus a
      rw [hd]
      exact List.mem_cons_self _ _
  | negSucc a =>
    cases m with
    | ofNat b =>
      simp only at hd
      exfalso
      apply hminus b
      rw [← hd]
      exact List.mem_cons_self _ _
    | negSucc b =>
      simp only at hd
      have := toDigits_inj _ _ (List.cons.inj hd).2
      have hab : a = b := by omega
      rw [hab]

end strings

namespace aggregator

theorem buildCacheKey_data (a : Aggregator) (std : Stdlib) (q : String) (ps : List String)
    (limit : Int) :
    (a.buildCacheKey std q ps limit).data
      = ((strings.ToLower std.unicodeToLower q).data ++ '|' ::
          (strings.Join (sort.Strings ps) ",").data) ++ '|' :: (toString limit).data := by
  simp only [Aggregator.buildCacheKey, String.data_append]
  simp

/-- Keys built from non-empty lists of separator-free names are equal only for
equal lower-cased queries, equal sorted name lists and equal limits. -/
theorem buildCacheKey_inj (a : Aggregator) (std : Stdlib) (q₁ q₂ : String)
    (ps₁ ps₂ : List String) (l₁ l₂ : Int) (hne₁ : ps₁ ≠ []) (hne₂ : ps₂ ≠ [])
    (hs₁ : ∀ name ∈ ps₁, SeparatorFree name) (hs₂ : ∀ name ∈ ps₂, SeparatorFree name)
    (h : a.buildCacheKey std q₁ ps₁ l₁ = a.buildCacheKey std q₂ ps₂ l₂) :
    strings.ToLower std.unicodeToLower q₁ = strings.ToLower std.unicodeToLower q₂
    ∧ sort.Strings ps₁ = sort.Strings ps₂ ∧ l₁ = l₂ := by
  have hd := congrArg String.data h
  rw [buildCacheKey_data, buildCacheKey_data] at hd
  have hmem₁ : ∀ name ∈ sort.Strings ps₁, SeparatorFree name := fun name hm =>
    hs₁ name ((sort.Strings_perm ps₁).mem_iff.1 hm)
  have hmem₂ : ∀ name ∈ sort.Strings ps₂, SeparatorFree name := fun name hm =>
    hs₂ name ((sort.Strings_perm ps₂).mem_iff.1 hm)
  have s₁ := strings.suffix_sep_inj '|' _ _ _ _ hd (strings.toString_int_no_bar l₁)
    (strings.toString_int_no_bar l₂)
  have s₂ := strings.suffix_sep_inj '|' _ _ _ _ s₁.1
    (strings.Join_no_bar _ (fun s hs => (hmem₁ s hs).1))
    (strings.Join_no_bar _ (fun s hs => (hmem₂ s hs).1))
  refine ⟨String.ext s₂.1, ?_, strings.toString_int_inj _ _ (String.ext s₁.2)⟩
  exact strings.Join_inj _ _ (fun e => hne₁ (sort.Strings_eq_nil.1 e))
    (fun e => hne₂ (sort.Strings_eq_nil.1 e)) (fun s hs => (hmem₁ s hs).2)
    (fun s hs => (hmem₂ s hs).2) (String.ext s₂.2)

end aggregator

/-! ## Aggregation engine: the cache key tells requests apart -/

namespace aggregator

open scenario

theorem hasProvider_congr {a b : Aggregator} (h : a.providers = b.providers) (name : String) :
    a.hasProvider name = b.hasProvider name := by
  simp only [Aggregator.hasProvider, h]

theorem hasProvider_Register_self (a : Aggregator) (p : provider.Provider) :
    (a.RegisterProvider p).hasProvider p.Name = true := by
  simp [Aggregator.RegisterProvider, Aggregator.hasProvider]

theorem hasProvider_Register_mono (a : Aggregator) (p : provider.Provider) (name : String)
    (h : a.hasProvider name = true) : (a.RegisterProvider p).hasProvider name = true := by
  by_cases hn : name = p.Name
  · rw [hn]
    exact hasProvider_Register_self a p
  · rw [hasProvider_Register_ne a p name hn]
    exact h

theorem selectProviders_registered (a : Aggregator) (requested : List String) (name : String)
    (h : name ∈ a.selectProviders requested) : a.hasProvider name = true := by
  by_cases hreq : requested = []
  · rw [hreq, selectProviders_nil] at h
    exact (mem_rangeNames_iff a name).1 ((sort.Strings_perm _).mem_iff.1 h)
  · rw [selectProviders_of_ne_nil a requested hreq] at h
    exact (List.mem_filter.1 ((sort.Strings_perm _).mem_iff.1 h)).2

theorem selectProviders_sorted (a : Aggregator) (requested : List String) :
    sort.Strings (a.selectProviders requested) = a.selectProviders requested := by
  unfold Aggregator.selectProviders
  split <;> exact sort.Strings_idem _

/-- The aggregator after a call of `Search` is the one before it, or the one the
fresh path leaves behind for a non-empty query and a non-empty resolved set. -/
theorem Search_agg_fresh_cases (a : Aggregator) (std : Stdlib) (rd : Round)
    (ctx : context.Context) (query : String) (opts : Options) :
    (a.Search std rd ctx query opts).agg = a
    ∨ (a.selectProviders opts.Providers ≠ []
        ∧ (a.Search std rd ctx query opts).agg
          = (a.searchFresh std rd ctx (strings.TrimSpace query)
              (a.selectProviders opts.Providers) (a.requestKey std query opts) opts).agg) := by
  by_cases hq : strings.TrimSpace query = ""
  · left
    rw [Search_empty_query a std rd ctx query opts hq]
  · by_cases hp : a.selectProviders opts.Providers = []
    · left
      rw [Search_no_providers a std rd ctx query opts hq hp]
    · by_cases hmiss : a.missesCache std rd query opts
      · right
        rw [Search_fresh a std rd ctx query opts hq hp hmiss]
        exact ⟨hp, rfl⟩
      · left
        have hf : opts.ForceRefresh = false := by
          cases h : opts.ForceRefresh
          · rfl
          · exact absurd (Or.inl h) hmiss
        cases hget : a.cache.Get rd.cacheGet (a.requestKey std query opts) with
        | none => exact absurd (Or.inr hget) hmiss
        | some resp => rw [Search_hit a std rd ctx query opts hq hp hf resp hget]

theorem CacheTagged_New (std : Stdlib) (providers : Option ProviderMap)
    (summarizer : summary.Summarizer) (cfg : Config) :
    (New providers summarizer cfg).CacheTagged std := by
  intro key entry h
  simp [New, cache.New] at h

theorem CacheTagged_step (std : Stdlib) (a : Aggregator) (h : a.CacheTagged std) (c : Call) :
    (a.step std c).CacheTagged std := by
  cases c with
  | register p =>
    intro key entry hk
    obtain ⟨names, limit, hne, hreg, hkey⟩ := h key entry hk
    exact ⟨names, limit, hne, fun name hm => hasProvider_Register_mono a p name (hreg name hm),
      hkey⟩
  | search rd ctx query opts =>
    rcases Search_agg_fresh_cases a std rd ctx query opts with e | ⟨hp, e⟩
    · simp only [Aggregator.step, e]
      exact h
    · simp only [Aggregator.step, e]
      intro key entry hk
      rw [searchFresh_cache] at hk
      simp only [cache.Cache.Set] at hk
      have hprov := searchFresh_providers a std rd ctx (strings.TrimSpace query)
        (a.selectProviders opts.Providers) (a.requestKey std query opts) opts
      split at hk
      · rename_i hkeyeq
        cases hk
        refine ⟨a.selectProviders opts.Providers, opts.Limit, hp, ?_, ?_⟩
        · intro name hm
          rw [hasProvider_congr hprov]
          exact selectProviders_registered a _ name hm
        · rw [hkeyeq]
          rfl
      · obtain ⟨names, limit, hne, hreg, hkey⟩ := h key entry hk
        refine ⟨names, limit, hne, ?_, hkey⟩
        intro name hm
        rw [hasProvider_congr hprov]
        exact hreg name hm

theorem CacheTagged_run (std : Stdlib) (a : Aggregator) (h : a.CacheTagged std)
    (calls : List Call) : (a.run std calls).CacheTagged std := by
  induction calls generalizing a with
  | nil => exact h
  | cons c cs ih => exact ih _ (CacheTagged_step std a h c)

theorem CacheTagged_of_Reachable {std : Stdlib} {a : Aggregator} (h : a.Reachable std) :
    a.CacheTagged std := by
  obtain ⟨providers, summarizer, cfg, calls, rfl⟩ := h
  exact CacheTagged_run std _ (CacheTagged_New std providers summarizer cfg) calls

theorem Get_tagged {a : Aggregator} {std : Stdlib} (h : a.CacheTagged std) (t : time.Time)
    (key : String) (v : Response) (hget : a.cache.Get t key = some v) :
    ∃ (names : List String) (limit : Int), names ≠ []
      ∧ (∀ name ∈ names, a.hasProvider name = true)
      ∧ key = a.buildCacheKey std v.Query names limit := by
  unfold cache.Cache.Get at hget
  split at hget
  · rename_i entry hentry
    split at hget
    · cases hget
      exact h key entry hentry
    · cases hget
  · cases hget

/-- C23, amended. Among requests whose source names hold neither `|` nor `,`
and whose name lists are not empty, `buildCacheKey` is injective on normalized
requests: two requests that differ in their lower-cased trimmed query, in their
sorted list of resolved source names or in their limit have different cache
keys. So on an aggregator whose registered names hold no separator, built by
`New` and used through `Search` and `RegisterProvider`, a response served from
the cache was stored for a query with the same lower-cased text, a name list
with the same sorted form and the same limit as the request it answers. -/
theorem C23_cache_key_injective (a : Aggregator) (std : Stdlib)
    (hsep : ∀ name, a.hasProvider name = true → SeparatorFree name) :
    (∀ (q₁ q₂ : String) (ps₁ ps₂ : List String) (l₁ l₂ : Int), ps₁ ≠ [] → ps₂ ≠ [] →
        (∀ name ∈ ps₁, SeparatorFree name) → (∀ name ∈ ps₂, SeparatorFree name) →
        (strings.ToLower std.unicodeToLower q₁ ≠ strings.ToLower std.unicodeToLower q₂
          ∨ sort.Strings ps₁ ≠ sort.Strings ps₂ ∨ l₁ ≠ l₂) →
        a.buildCacheKey std q₁ ps₁ l₁ ≠ a.buildCacheKey std q₂ ps₂ l₂)
    ∧ (∀ (q₁ q₂ : String) (o₁ o₂ : Options),
        a.selectProviders o₁.Providers ≠ [] → a.selectProviders o₂.Providers ≠ [] →
        a.requestKey std q₁ o₁ = a.requestKey std q₂ o₂ →
        strings.ToLower std.unicodeToLower (strings.TrimSpace q₁)
            = strings.ToLower std.unicodeToLower (strings.TrimSpace q₂)
          ∧ a.selectProviders o₁.Providers = a.selectProviders o₂.Providers
          ∧ o₁.Limit = o₂.Limit)
    ∧ (a.Reachable std →
        ∀ (rd : Round) (ctx : context.Context) (query : String) (opts : Options)
          (stored : Response),
        strings.TrimSpace query ≠ "" → a.selectProviders opts.Providers ≠ [] →
        opts.ForceRefresh = false →
        a.cache.Get rd.cacheGet (a.requestKey std query opts) = some stored →
        (a.Search std rd ctx query opts).resp.Query = stored.Query
          ∧ strings.ToLower std.unicodeToLower stored.Query
              = strings.ToLower std.unicodeToLower (strings.TrimSpace query)
          ∧ ∃ names : List String,
              a.requestKey std query opts = a.buildCacheKey std stored.Query names opts.Limit
              ∧ sort.Strings names = a.selectProviders opts.Providers) := by
  have hres : ∀ requested, ∀ name ∈ a.selectProviders requested, SeparatorFree name :=
    fun requested name hm => hsep name (selectProviders_registered a requested name hm)
  refine ⟨?_, ?_, ?_⟩
  · intro q₁ q₂ ps₁ ps₂ l₁ l₂ hne₁ hne₂ hs₁ hs₂ hdiff hkey
    have := buildCacheKey_inj a std q₁ q₂ ps₁ ps₂ l₁ l₂ hne₁ hne₂ hs₁ hs₂ hkey
    rcases hdiff with h | h | h
    · exact h this.1
    · exact h this.2.1
    · exact h this.2.2
  · intro q₁ q₂ o₁ o₂ hp₁ hp₂ hkey
    have := buildCacheKey_inj a std _ _ _ _ _ _ hp₁ hp₂ (hres _) (hres _) hkey
    rw [selectProviders_sorted, selectProviders_sorted] at this
    exact this
  · intro hreach rd ctx query opts stored hq hp hf hget
    obtain ⟨names, limit, hne, hreg, hkey⟩ :=
      Get_tagged (CacheTagged_of_Reachable hreach) _ _ _ hget
    have hinj := buildCacheKey_inj a std stored.Query (strings.TrimSpace query) names
      (a.selectProviders opts.Providers) limit opts.Limit hne hp
      (fun name hm => hsep name (hreg name hm)) (hres _) hkey.symm
    rw [selectProviders_sorted] at hinj
    rw [Search_hit a std rd ctx query opts hq hp hf stored hget]
    refine ⟨rfl, hinj.1, names, ?_, hinj.2.1⟩
    rw [hkey, hinj.2.2]

theorem separatorFree_of_rangeNames (a : Aggregator) (h : a.rangeNames = ["B", "A"]) :
    ∀ name, a.hasProvider name = true → SeparatorFree name := by
  intro name hn
  have hm := (mem_rangeNames_iff a name).2 hn
  rw [h] at hm
  rcases List.mem_cons.1 hm with e | e
  · rw [e]
    exact ⟨by decide, by decide⟩
  · rcases List.mem_cons.1 e with e | e
    · rw [e]
      exact ⟨by decide, by decide⟩
    · exact absurd e (List.not_mem_nil _)

/-- With the sources `A` and `B`: the requests for `A` and for `A, B` have
different keys, and the second request of the scenario, served from the cache,
gets a response stored for the same query text. -/
theorem C23_cache_key_injective_witness :
    agg.buildCacheKey goStdlib "ops" ["A"] 3 ≠ agg.buildCacheKey goStdlib "ops" ["B", "A"] 3
    ∧ second.resp.Query = first.resp.Query
    ∧ strings.ToLower goStdlib.unicodeToLower first.resp.Query
        = strings.ToLower goStdlib.unicodeToLower (strings.TrimSpace "ops") := by
  have h₁ := (C23_cache_key_injective agg goStdlib
    (separatorFree_of_rangeNames agg (by decide))).1 "ops" "ops" ["A"] ["B", "A"] 3 3
    (by decide) (by decide)
    (fun name hm => by
      rcases List.mem_cons.1 hm with e | e
      · rw [e]; exact ⟨by decide, by decide⟩
      · exact absurd e (List.not_mem_nil _))
    (fun name hm => by
      rcases List.mem_cons.1 hm with e | e
      · rw [e]; exact ⟨by decide, by decide⟩
      · rcases List.mem_cons.1 e with e | e
        · rw [e]; exact ⟨by decide, by decide⟩
        · exact absurd e (List.not_mem_nil _))
    (Or.inr (Or.inl (by decide)))
  have h₃ := (C23_cache_key_injective first.agg goStdlib
    (separatorFree_of_rangeNames first.agg (by decide))).2.2
    ⟨some sourcesAB, summarizer, { CacheTTL := time.Minute },
      [Call.search (roundAt base) context.Background "ops" { Limit := 3 }], rfl⟩
    (roundAt (base.Add time.Second)) context.Background "ops" { Limit := 3 } first.resp
    (by decide) (by decide) rfl (by decide)
  exact ⟨h₁, h₃.1, h₃.2.1⟩

/-- C23 as stated fails: with sources registered as `c` and `b|c`, the request
for the query `a|b` from source `c` and the request for the query `a` from
source `b|c`, both with limit 1, differ in their lower-cased query and in their
resolved source names and have the same cache key `a|b|c|1`; made one second
after the first, the second request is served the response computed for the
first. -/
theorem C23_counterexample :
    aggSep.selectProviders ["c"] = ["c"]
    ∧ aggSep.selectProviders ["b|c"] = ["b|c"]
    ∧ strings.ToLower goStdlib.unicodeToLower (strings.TrimSpace "a|b")
        ≠ strings.ToLower goStdlib.unicodeToLower (strings.TrimSpace "a")
    ∧ aggSep.requestKey goStdlib "a|b" { Providers := ["c"], Limit := 1 } = "a|b|c|1"
    ∧ aggSep.requestKey goStdlib "a" { Providers := ["b|c"], Limit := 1 } = "a|b|c|1"
    ∧ ((aggSep.Search goStdlib (roundAt base) context.Background "a|b"
          { Providers := ["c"], Limit := 1 }).agg.Search goStdlib
          (roundAt (base.Add time.Second)) context.Background "a"
          { Providers := ["b|c"], Limit := 1 }).resp.Metadata.Cached = true
    ∧ ((aggSep.Search goStdlib (roundAt base) context.Background "a|b"
          { Providers := ["c"], Limit := 1 }).agg.Search goStdlib
          (roundAt (base.Add time.Second)) context.Background "a"
          { Providers := ["b|c"], Limit := 1 }).resp.Query = "a|b"
    ∧ ((aggSep.Search goStdlib (roundAt base) context.Background "a|b"
          { Providers := ["c"], Limit := 1 }).agg.Search goStdlib
          (roundAt (base.Add time.Second)) context.Background "a"
          { Providers := ["b|c"], Limit := 1 }).resp.Results = [itemA1] := by
  decide

end aggregator

/-! ## History log: paging -/

namespace history

open scenario

/-- A list in which every record is later than all records after it is what
`sort.Slice` returns for it. -/
theorem sortSlice_of_descending (std : Stdlib) (hstd : sort.SortContract std.sortSlice)
    (l : Records) (h : l.Pairwise (fun x y => y.Time.ns < x.Time.ns)) :
    std.sortSlice (fun x y : Record => x.Time.After y.Time) l = l := by
  have hp := hstd.1 (fun x y : Record => x.Time.After y.Time) l
  have hs := hstd.2 (fun x y : Record => x.Time.After y.Time) l
    (sort.after_strictWeak (fun r : Record => r.Time))
  have hl : l.Pairwise (fun x y => y.Time.After x.Time = false) := by
    refine h.imp ?_
    intro x y hxy
    simp only [time.Time.After, decide_eq_false_iff_not]
    omega
  have hnd : ((std.sortSlice (fun x y : Record => x.Time.After y.Time) l).map
      (fun r => r.Time)).Nodup := by
    rw [(hp.map _).nodup_iff, List.Nodup, List.pairwise_map]
    refine h.imp ?_
    intro x y hxy heq
    rw [heq] at hxy
    omega
  exact sort.sorted_after_unique (fun r : Record => r.Time) hp hs hl hnd

theorem List_of_pos_le (std : Stdlib) (s : Store) (n : Int) (h0 : 0 < n)
    (hn : n ≤ (s.records.length : Int)) :
    s.List std n
      = std.sortSlice (fun x y : Record => x.Time.After y.Time) (s.records.take n.toNat) := by
  have h1 : ¬ n ≤ 0 := not_le.2 h0
  have h2 : ¬ n > (s.records.length : Int) := not_lt.2 hn
  simp [Store.List, h1, h2]

/-- C24, amended. For a store filled by `Add` calls in which every record
carries a completion time later than those of all records added before it, and
every `n` with `0 < n <=` the stored record count, `List(n)` equals the first
`n` elements of `List(0)`. -/
theorem C24_history_paging (std : Stdlib) (hstd : sort.SortContract std.sortSlice) (c : Int)
    (hc : 0 < c) (recs : List Record)
    (hinc : recs.Pairwise (fun earlier later => earlier.Time.ns < later.Time.ns)) (n : Int)
    (h0 : 0 < n) (hn : n ≤ ((recs.foldl Store.Add (NewStore c)).records.length : Int)) :
    (recs.foldl Store.Add (NewStore c)).List std n
      = ((recs.foldl Store.Add (NewStore c)).List std 0).take n.toNat := by
  have hrec := NewStore_foldl_Add c hc recs
  have hdesc : (recs.foldl Store.Add (NewStore c)).records.Pairwise
      (fun x y => y.Time.ns < x.Time.ns) := by
    rw [hrec]
    exact (List.pairwise_reverse.2 hinc).sublist (List.take_sublist _ _)
  rw [List_of_pos_le std _ n h0 hn, List_zero, sortSlice_of_descending std hstd _ hdesc,
    sortSlice_of_descending std hstd _ (hdesc.sublist (List.take_sublist _ _))]

/-- Three records added in order of completion to a store of capacity 5:
`List(2)` is the first two elements of `List(0)`. -/
theorem C24_history_paging_witness :
    ([recordAt "a" 1, recordAt "b" 2, recordAt "c" 3].foldl Store.Add (NewStore 5)).List goStdlib 2
      = (([recordAt "a" 1, recordAt "b" 2, recordAt "c" 3].foldl Store.Add
          (NewStore 5)).List goStdlib 0).take (2 : Int).toNat
    ∧ ([recordAt "a" 1, recordAt "b" 2, recordAt "c" 3].foldl Store.Add (NewStore 5)).List
        goStdlib 2 = [recordAt "c" 3, recordAt "b" 2] :=
  ⟨C24_history_paging goStdlib sort.goStdlib_sortContract 5 (by decide)
      [recordAt "a" 1, recordAt "b" 2, recordAt "c" 3] (by decide) 2 (by decide) (by decide),
   by decide⟩

/-- C24 as stated fails: after `Add` of a record completed at 5 and then of a
record completed at 1, the store holds two records, `List(1)` is the record
added last, completed at 1, and the first element of `List(0)` is the record
completed at 5. -/
theorem C24_counterexample :
    storeOutOfOrder = [recordAt "late" 5, recordAt "early" 1].foldl Store.Add (NewStore 5)
    ∧ storeOutOfOrder.records.length = 2
    ∧ storeOutOfOrder.List goStdlib 1 = [recordAt "early" 1]
    ∧ storeOutOfOrder.List goStdlib 0 = [recordAt "late" 5, recordAt "early" 1]
    ∧ storeOutOfOrder.List goStdlib 1 ≠ (storeOutOfOrder.List goStdlib 0).take 1 := by
  decide

end history

/-! ## Aggregation engine: requests that differ in letter case -/

namespace aggregator

open scenario

/-- With the Greek excerpt of the case tables, lower-casing does not undo the
capitalisation of the final sigma. -/
theorem finalSigma_not_stable :
    ¬ CaseStable unicode.greekToLower unicode.greekToUpper (Char.ofNat 0x3C2) := by
  decide

end aggregator

/-! ## Aggregation engine: forced refresh -/

namespace aggregator

open scenario

/-- C3. A request with `ForceRefresh = true`, a non-empty trimmed query and at
least one resolved source is recomputed whatever the cache holds: it returns no
error and `Cached = false`; every resolved name that the source map binds to a
source `p` has `p.Search` called with the request context under the timeout, the
trimmed query and the effective limit, and what that call returns is what the
response reports for it, namely a status carrying `p.Name()` with the error text
or the item count and, when the call returns no error, every returned item in
`Results`; the response is stored under the request's key; and an identical
request without force-refresh made before the TTL has elapsed is answered from
that stored response, without calling a source. -/
theorem C3_force_refresh (a : Aggregator) (std : Stdlib) (rd₁ rd₂ : Round)
    (ctx₁ ctx₂ : context.Context) (query : String) (opts : Options)
    (hq : strings.TrimSpace query ≠ "") (hp : a.selectProviders opts.Providers ≠ [])
    (hf : opts.ForceRefresh = true)
    (httl : rd₂.cacheGet.ns < rd₁.cacheSet.ns + a.cache.ttl) :
    (a.Search std rd₁ ctx₁ query opts).err = none
    ∧ (a.Search std rd₁ ctx₁ query opts).resp.Metadata.Cached = false
    ∧ (∀ (m : ProviderMap) (name : String) (p : provider.Provider)
        (r : List model.Result × Option String),
        a.providers = some m → name ∈ a.selectProviders opts.Providers →
        m.lookup name = some (some p) →
        p.Search (context.WithTimeout ctx₁ rd₁.fanOut a.timeout) (strings.TrimSpace query)
          { Limit := if opts.Limit ≤ 0 then 10 else opts.Limit } = r →
        Event.providerSearch name p.Name (context.WithTimeout ctx₁ rd₁.fanOut a.timeout)
            (strings.TrimSpace query) { Limit := if opts.Limit ≤ 0 then 10 else opts.Limit }
          ∈ (a.Search std rd₁ ctx₁ query opts).events
        ∧ (IsArrival rd₁.arrival →
            (match r.2 with
              | some msg => ({ Name := p.Name, Error := msg } : ProviderStatus)
              | none => { Name := p.Name, Count := r.1.length })
              ∈ (a.Search std rd₁ ctx₁ query opts).resp.Metadata.ProviderStatuses)
        ∧ (IsArrival rd₁.arrival → sort.SortContract std.sortSlice → r.2 = none →
            ∀ item ∈ r.1, item ∈ (a.Search std rd₁ ctx₁ query opts).resp.Results))
    ∧ (∀ t : time.Time, t.ns < rd₁.cacheSet.ns + a.cache.ttl →
        (a.Search std rd₁ ctx₁ query opts).agg.cache.Get t (a.requestKey std query opts)
          = some (a.Search std rd₁ ctx₁ query opts).resp)
    ∧ ((a.Search std rd₁ ctx₁ query opts).agg.Search std rd₂ ctx₂ query
          { opts with ForceRefresh := false }).err = none
    ∧ ((a.Search std rd₁ ctx₁ query opts).agg.Search std rd₂ ctx₂ query
          { opts with ForceRefresh := false }).resp
        = { (a.Search std rd₁ ctx₁ query opts).resp with
            Metadata := { (a.Search std rd₁ ctx₁ query opts).resp.Metadata with
              Cached := true, Took := time.Since rd₂.hitDone rd₂.start } }
    ∧ ((a.Search std rd₁ ctx₁ query opts).agg.Search std rd₂ ctx₂ query
          { opts with ForceRefresh := false }).events = [] := by
  have h2 := Search_after_fresh a std rd₁ rd₂ ctx₁ ctx₂ query query opts
    { opts with ForceRefresh := false } hq hp (Or.inl hf) hq hp rfl rfl httl
  rw [h2]
  have h1 := Search_fresh a std rd₁ ctx₁ query opts hq hp (Or.inl hf)
  rw [h1]
  refine ⟨rfl, rfl, ?_, ?_, rfl, rfl, rfl⟩
  · intro m name p r hm hmem hl hr
    have hget : a.getProvider name = some p := by
      unfold Aggregator.getProvider
      rw [hm]
      simp only [hl]
      rfl
    have hdisp : a.dispatch (a.callContext rd₁ ctx₁) (strings.TrimSpace query)
        opts.effectiveLimit name = { provider := p.Name, results := r.1, err := r.2 } := by
      unfold Aggregator.dispatch
      rw [hget, ← hr]
      rfl
    have hsent : ∀ harr : IsArrival rd₁.arrival,
        a.dispatch (a.callContext rd₁ ctx₁) (strings.TrimSpace query) opts.effectiveLimit name
          ∈ rd₁.arrival ((a.selectProviders opts.Providers).map
              (a.dispatch (a.callContext rd₁ ctx₁) (strings.TrimSpace query)
                opts.effectiveLimit)) :=
      fun harr => (harr _).mem_iff.2 (List.mem_map_of_mem _ hmem)
    refine ⟨?_, ?_, ?_⟩
    · rw [searchFresh_events]
      refine List.mem_append_left _ (List.mem_flatMap.2 ⟨name, hmem, ?_⟩)
      unfold Aggregator.dispatchEvents
      rw [hget]
      exact List.mem_singleton.2 rfl
    · intro harr
      rw [searchFresh_statuses_eq]
      refine List.mem_append_left _ (List.mem_map.2 ⟨_, hsent harr, ?_⟩)
      rw [hdisp]
      unfold resultEnvelope.status
      cases r.2 <;> rfl
    · intro harr hstd hnone item hitem
      rw [searchFresh_results]
      refine (hstd.1 _ _).mem_iff.2 ((gathered_aggregated_perm _ harr _).mem_iff.2 ?_)
      refine List.mem_flatMap.2 ⟨_, (List.mem_map_of_mem _ hmem), ?_⟩
      rw [hdisp]
      unfold resultEnvelope.items
      simp only [hnone]
      exact hitem
  · intro t ht
    rw [searchFresh_cache, cache.Get_Set_same, if_pos ht]

/-- After the first request of the scenario has cached `a1, b2, a3`, the source
registered under `B` is replaced by one answering `b1`. A read-through request
still gets the cached items; a forced refresh one second after the first
request calls `A` and `B` with the query `ops` and the limit 3, returns what
they answer now, `a1, b1, a3`, with `Cached = false`, and stores it, so that the
read-through request after it gets `a1, b1, a3` from the cache. -/
theorem C3_force_refresh_witness :
    ((first.agg.RegisterProvider sourceB1).Search goStdlib (roundAt (base.Add time.Second))
        context.Background "ops" { Limit := 3 }).resp.Results = [itemA1, itemB2, itemA3]
    ∧ ((first.agg.RegisterProvider sourceB1).Search goStdlib (roundAt (base.Add time.Second))
        context.Background "ops" { Limit := 3, ForceRefresh := true }).events
        = [Event.providerSearch "A" "A"
            (context.WithTimeout context.Background (base.Add time.Second) (8 * time.Second))
            "ops" { Limit := 3 },
           Event.providerSearch "B" "B"
            (context.WithTimeout context.Background (base.Add time.Second) (8 * time.Second))
            "ops" { Limit := 3 },
           Event.summarize
            (context.WithTimeout context.Background (base.Add time.Second) (8 * time.Second))
            "ops" [itemA1, itemB1, itemA3]]
    ∧ ((first.agg.RegisterProvider sourceB1).Search goStdlib (roundAt (base.Add time.Second))
        context.Background "ops" { Limit := 3, ForceRefresh := true }).resp.Results
        = [itemA1, itemB1, itemA3]
    ∧ ((first.agg.RegisterProvider sourceB1).Search goStdlib (roundAt (base.Add time.Second))
        context.Background "ops" { Limit := 3, ForceRefresh := true }).resp.Metadata.Cached
        = false
    ∧ ({ Name := "B", Count := 1 } : ProviderStatus)
        ∈ ((first.agg.RegisterProvider sourceB1).Search goStdlib
            (roundAt (base.Add time.Second)) context.Background "ops"
            { Limit := 3, ForceRefresh := true }).resp.Metadata.ProviderStatuses
    ∧ itemB1 ∈ ((first.agg.RegisterProvider sourceB1).Search goStdlib
        (roundAt (base.Add time.Second)) context.Background "ops"
        { Limit := 3, ForceRefresh := true }).resp.Results
    ∧ ((((first.agg.RegisterProvider sourceB1).Search goStdlib (roundAt (base.Add time.Second))
        context.Background "ops" { Limit := 3, ForceRefresh := true }).agg.Search goStdlib
        (roundAt (base.Add (2 * time.Second))) context.Background "ops"
        { Limit := 3 }).resp.Results = [itemA1, itemB1, itemA3]
      ∧ (((first.agg.RegisterProvider sourceB1).Search goStdlib (roundAt (base.Add time.Second))
        context.Background "ops" { Limit := 3, ForceRefresh := true }).agg.Search goStdlib
        (roundAt (base.Add (2 * time.Second))) context.Background "ops"
        { Limit := 3 }).resp.Metadata.Cached = true
      ∧ (((first.agg.RegisterProvider sourceB1).Search goStdlib (roundAt (base.Add time.Second))
        context.Background "ops" { Limit := 3, ForceRefresh := true }).agg.Search goStdlib
        (roundAt (base.Add (2 * time.Second))) context.Background "ops"
        { Limit := 3 }).events = []) := by
  have h := C3_force_refresh (first.agg.RegisterProvider sourceB1) goStdlib
    (roundAt (base.Add time.Second)) (roundAt (base.Add (2 * time.Second)))
    context.Background context.Background "ops" { Limit := 3, ForceRefresh := true }
    (by decide) (by decide) rfl (by decide)
  have hB := h.2.2.1 (sourcesAB.insert "B" (some sourceB1)) "B" sourceB1 ([itemB1], none)
    rfl (by decide) rfl rfl
  refine ⟨by decide, by decide, by decide, h.2.1, hB.2.1 (fun l => List.Perm.refl l),
    hB.2.2 (fun l => List.Perm.refl l) sort.goStdlib_sortContract rfl itemB1
      (List.mem_singleton.2 rfl), ?_, ?_, h.2.2.2.2.2.2⟩
  · rw [h.2.2.2.2.2.1]
    decide
  · rw [h.2.2.2.2.2.1]

end aggregator
